import Mathlib

/-!
Shallow embedding of the graphydb repository (graphydb.py) in Lean 4.

Python dicts are modelled as association lists `List (String × Val)` where
lookup returns the first matching binding; all dictionary-valued results of
the embedded code are built with unique keys, so this is extensionally the
Python dict.  Attribute values are modelled by the small inductive `Val`
(strings and integers), which is enough to state every claim: the code
treats values opaquely except for equality tests.

Python tests `k[0] == '_'` on keys; we model this as `String.startsWith "_"`,
which agrees with the source on non-empty keys (the source raises IndexError
on an empty key; well-formedness hypotheses rule that case out).
-/

namespace GraphyDB

/-- Attribute values stored in node/edge data dictionaries. -/
inductive Val where
  | vs : String → Val
  | vi : Int → Val
deriving DecidableEq, Repr

/-- A Python dict with string keys, as an association list (first binding wins). -/
abbrev Dict := List (String × Val)

/-- Lookup, modelling `d[k]` / `k in d` on a Python dict. -/
def dget : Dict → String → Option Val
  | [], _ => none
  | (k, v) :: d, k0 => if k = k0 then some v else dget d k0

/-- Key removal, modelling `del d[k]` (total: removing an absent key is a no-op;
the call sites embedded below only delete present keys, as the source does). -/
def derase (d : Dict) (k : String) : Dict :=
  d.filter (fun p => decide (p.1 ≠ k))

/-- Key insertion / overwrite, modelling `d[k] = v`. -/
def dinsert (d : Dict) (k : String) (v : Val) : Dict :=
  (k, v) :: derase d k

/-- `k in d` as a Bool. -/
def dmem (d : Dict) (k : String) : Bool :=
  (dget d k).isSome

/-- The list of keys of a dict, in order, deduplicated. -/
def dkeys (d : Dict) : List String :=
  (d.map Prod.fst).dedup

/-- `d2.update(e)`: apply the bindings of `e` over `d` (later bindings win). -/
def dupdate (d e : Dict) : Dict :=
  e.foldl (fun acc kv => dinsert acc kv.1 kv.2) d

/-- `for k in ks: del d[k]`. -/
def ddelkeys (d : Dict) (ks : List String) : Dict :=
  d.filter (fun p => decide (p.1 ∉ ks))

/-- Keys starting with an underscore are ephemeral, from `k[0] == '_'`
(the first character is examined; an empty key is treated as plain, whereas
the source would raise, so well-formedness assumptions exclude empty keys). -/
def isEph (k : String) : Bool :=
  match k.data with
  | [] => false
  | c :: _ => c = '_'

/-- `cleandata` from the source: drop keys that start with an underscore. -/
def cleandata (fulldata : Dict) : Dict :=
  fulldata.filter (fun p => !(isEph p.1))

/-- One step of the key loop inside `diff`: given the accumulated
`(add, remove)` pair, process key `k`.  Mirrors the body of
`for k in d1.keys()|d2.keys()` in the source. -/
def diffStep (d1 d2 : Dict) (changedkeys : List String) (acc : Dict × Dict) (k : String) :
    Dict × Dict :=
  if isEph k then acc
  else if k ∈ changedkeys then
    match dget d1 k, dget d2 k with
    | some v1, none => (acc.1, acc.2 ++ [(k, v1)])
    | none, some v2 => (acc.1 ++ [(k, v2)], acc.2)
    | some v1, some v2 =>
        if v1 ≠ v2 then (acc.1 ++ [(k, v2)], acc.2 ++ [(k, v1)])
        else acc
    | none, none => acc
  else acc

/-- The raw `(add, remove)` pair computed by `diff` before the mtime
suppression.  The source iterates the unordered set `d1.keys()|d2.keys()`;
the resulting dicts do not depend on the iteration order extensionally, and
we iterate the deduplicated concatenation of the key lists. -/
def diffRaw (d1 d2 : Dict) (changedkeys : List String) : Dict × Dict :=
  ((dkeys d1 ++ dkeys d2).dedup).foldl (diffStep d1 d2 changedkeys) ([], [])

/-- The mtime suppression test from `diff`:
`len(remove)==1 and 'mtime' in remove and len(add)==1 and 'mtime' in add`. -/
def mtimeOnly (ar : Dict × Dict) : Bool :=
  ar.2.length = 1 && dmem ar.2 "mtime" && ar.1.length = 1 && dmem ar.1 "mtime"

/-- `diff(d1, d2, changedkeys)` from the source, as the `(add, remove)` pair;
the caller packs nonempty components under keys `+` and `-`. -/
def diff (d1 d2 : Dict) (changedkeys : List String) : Dict × Dict :=
  let ar := diffRaw d1 d2 changedkeys
  if mtimeOnly ar then ([], []) else ar

/-- `patch(d, change, reverse)` from the source.  `plus` and `minus` are the
`+` and `-` entries of the change (`{}` when absent). -/
def patch (d : Dict) (plus minus : Dict) (reverse : Bool) : Dict :=
  if reverse then dupdate (ddelkeys d (plus.map Prod.fst)) minus
  else dupdate (ddelkeys d (minus.map Prod.fst)) plus

/-- Extensional equality of dicts, as a Bool over the union of the key lists. -/
def dequivb (d1 d2 : Dict) : Bool :=
  ((d1 ++ d2).map Prod.fst).all (fun k => dget d1 k == dget d2 k)

/-- No key of the dict starts with an underscore, and no key is empty
(matching the Python indexing `k[0]`). -/
def plainKeys (d : Dict) : Bool :=
  d.all (fun p => !(isEph p.1) && p.1 ≠ "")

/-- The keys of the dict are pairwise distinct. -/
def nodupKeys (d : Dict) : Bool :=
  (d.map Prod.fst).Nodup

/-- Pointwise specification of the `add` side of `diff`: the new value stored
under `k`, if any. -/
def addSpec (d1 d2 : Dict) (changedkeys : List String) (k : String) : Option Val :=
  if isEph k then none
  else if k ∈ changedkeys then
    match dget d1 k, dget d2 k with
    | some _, none => none
    | none, some v2 => some v2
    | some v1, some v2 => if v1 ≠ v2 then some v2 else none
    | none, none => none
  else none

/-- Pointwise specification of the `remove` side of `diff`: the prior value
stored under `k`, if any. -/
def removeSpec (d1 d2 : Dict) (changedkeys : List String) (k : String) : Option Val :=
  if isEph k then none
  else if k ∈ changedkeys then
    match dget d1 k, dget d2 k with
    | some v1, none => some v1
    | none, some _ => none
    | some v1, some v2 => if v1 ≠ v2 then some v1 else none
    | none, none => none
  else none

/-- A generic association list with string keys, used to model the Python
dict `_index` of an `IndexedSet` (insertion-ordered, value overwrite keeps
the position of the key). -/
def pyDictSet {α : Type} (d : List (String × α)) (k : String) (o : α) :
    List (String × α) :=
  match d with
  | [] => [(k, o)]
  | (k1, o1) :: rest =>
      if k1 = k then (k, o) :: rest else (k1, o1) :: pyDictSet rest k o

/-- `{n.__uid__(): n for n in iterable}`: build a Python dict keyed by uid;
a later duplicate overwrites the value but keeps the first key position. -/
def pyDictOf {α : Type} (uidf : α → String) (items : List α) :
    List (String × α) :=
  items.foldl (fun d o => pyDictSet d (uidf o) o) []

/-- Lookup in the generic association list (first binding wins; the lists we
build have unique keys). -/
def oget {α : Type} (d : List (String × α)) (k : String) : Option α :=
  match d with
  | [] => none
  | (k1, o1) :: rest => if k1 = k then some o1 else oget rest k

/-- `k in d` for the generic association list. -/
def omem {α : Type} (d : List (String × α)) (k : String) : Bool :=
  (oget d k).isSome

/-- The `IndexedSet` container: the Python `_index` dict and `_list` list,
kept in sync. -/
structure ISet (α : Type) where
  index : List (String × α)
  list : List α
deriving DecidableEq, Repr

/-- `IndexedSet.__init__(iterable)` from the source: build `_index` as a dict
comprehension and keep `_list = list(iterable)` unless the lengths disagree,
in which case `_list` is rebuilt from the dict values. -/
def mkISet {α : Type} (uidf : α → String) (items : List α) : ISet α :=
  if items.length ≠ (pyDictOf uidf items).length then
    { index := pyDictOf uidf items, list := (pyDictOf uidf items).map Prod.snd }
  else
    { index := pyDictOf uidf items, list := items }

/-- `conditionalyield(keys, A, B)` from the source: yield `A[k]` when `k` is
in `A`, else `B[k]` (a key in neither would raise KeyError in Python; the
default is never used under the well-formedness assumptions). -/
def conditionalyield {α : Type} (dflt : α) (keys : List String)
    (A B : List (String × α)) : List α :=
  keys.map (fun k =>
    match oget A k with
    | some o => o
    | none => (oget B k).getD dflt)

/-- `IndexedSet.__or__`: the source computes the key set
`self._index.keys() | other._index.keys()` — an *unordered* Python set —
and yields elements in that set's iteration order.  The embedding takes that
iteration order as an explicit parameter `enum`; any duplicate-free
enumeration of the key union is an admissible behaviour of the source. -/
def orOp {α : Type} (uidf : α → String) (dflt : α) (A B : ISet α)
    (enum : List String) : ISet α :=
  mkISet uidf (conditionalyield dflt enum A.index B.index)

/-- `enum` is an admissible iteration order of the Python set
`A._index.keys() | B._index.keys()`: duplicate-free and with exactly the
union as members. -/
def validEnum {α : Type} (A B : ISet α) (enum : List String) : Bool :=
  enum.Nodup && enum.all (fun k => omem A.index k || omem B.index k) &&
    (A.index.map Prod.fst).all (fun k => k ∈ enum) &&
    (B.index.map Prod.fst).all (fun k => k ∈ enum)

/-- Every binding of the index maps a key to an object whose uid is that key
(an invariant of every `IndexedSet` the source builds). -/
def wfISet {α : Type} (uidf : α → String) (A : ISet α) : Bool :=
  A.index.all (fun p => uidf p.2 = p.1)

/-- An element stored in an `IndexedSet` for the set-algebra claims: an
object exposing `__uid__()`; the payload distinguishes objects with
equal uids. -/
structure Obj where
  uid : String
  payload : Nat
deriving DecidableEq, Repr

/-- Keep the first occurrence of each element, dropping later duplicates
(the key order of a Python dict built by insertion). -/
def dedupFirst : List String → List String
  | [] => []
  | k :: rest => k :: (dedupFirst rest).filter (fun x => decide (x ≠ k))

/-- The three link shapes of `_parsechain`: a node token, a right-directed
edge token (ends in `>`), a left-directed edge token (starts with `<`). -/
inductive LinkType where
  | node : LinkType
  | right : LinkType
  | left : LinkType
deriving DecidableEq, Repr

/-- The per-token result of `_parsechain`: type tag, alias, optional kind,
and (for a collected token) the extra projection aliases. -/
structure Link where
  typ : LinkType
  lalias : String
  lkind : Option String
  extra : List String
deriving DecidableEq, Repr

/-- Pattern-error values raised by `_parsechain` (as `GraphyDBException`s). -/
inductive PErr where
  | missingExpansion : String → PErr
  | parseFormat : String → PErr
  | dupAlias : String → PErr
deriving DecidableEq, Repr

/-- `\w` of the source regexes (ASCII model; chain tokens are ASCII). -/
def isWordChar (c : Char) : Bool :=
  c.isAlphanum || c = '_'

/-- The character class `[\w:]` of `search1`. -/
def isCls1 (c : Char) : Bool :=
  isWordChar c || c = ':'

/-- The character class `[\w:,]` of `search2`. -/
def isCls2 (c : Char) : Bool :=
  isWordChar c || c = ':' || c = ','

/-- Leftmost match of a regex `opn (cls+) close`, as used by
`re.search('\(([\w:]+)\)')` and `re.search('\[([\w:,]+)\]')`: at each
position with the opening character, take the maximal class run; the match
succeeds if the run is nonempty and followed by the closing character
(greedy matching cannot succeed with a shorter run since the class excludes
the closing character). -/
def searchBr (opn cls : Char) (clsf : Char → Bool) : List Char → Option (List Char)
  | [] => none
  | c :: rest =>
      if c = opn then
        let run := rest.takeWhile clsf
        if run.length ≠ 0 ∧ (rest.drop run.length).head? = some cls then some run
        else searchBr opn cls clsf rest
      else searchBr opn cls clsf rest

/-- Python `str.split(sep)` for a single character, on char lists. -/
def splitOnChar (c : Char) (s : List Char) : List (List Char) :=
  match s with
  | [] => [[]]
  | x :: rest =>
      let r := splitOnChar c rest
      if x = c then [] :: r
      else
        match r with
        | [] => [[x]]
        | h :: t => (x :: h) :: t

/-- The token-type dispatch of `_parsechain`: `p[-1] == '>'`, then
`p[0] == '<'`, else a node (an empty token would raise IndexError in the
source; it can never reach here since `str.split()` drops empty tokens). -/
def tokType (p : String) : LinkType :=
  if p.data.getLast? = some '>' then .right
  else if p.data.head? = some '<' then .left
  else .node

/-- Parse one chain token: `search1` (round brackets) takes precedence, then
`search2` (square brackets, the collected token, with comma-separated extra
aliases); returns the link and whether the token is collected, or `none` for
a malformed token. -/
def tokParse (p : String) : Option (Link × Bool) :=
  match searchBr '(' ')' isCls1 p.data with
  | some g =>
      let tmp := splitOnChar ':' g
      some (⟨tokType p, String.mk (tmp.headD []),
        if tmp.length = 2 then some (String.mk (tmp.getD 1 [])) else none, []⟩, false)
  | none =>
      match searchBr '[' ']' isCls2 p.data with
      | some g =>
          let s := splitOnChar ',' g
          let tmp := splitOnChar ':' (s.headD [])
          some (⟨tokType p, String.mk (tmp.headD []),
            if tmp.length = 2 then some (String.mk (tmp.getD 1 [])) else none,
            (s.drop 1).map String.mk⟩, true)
      | none => none

/-- Whether a token is a collected (square-bracketed) token for the parser:
`search1` fails and `search2` succeeds. -/
def tokenCollectible (p : String) : Bool :=
  match tokParse p with
  | some (_, true) => true
  | _ => false

/-- The link a token parses to, ignoring parameter bookkeeping. -/
def linkOfTok (p : String) : Option Link :=
  (tokParse p).map Prod.fst

/-- The extra-alias loop of `_parsechain`: each extra alias must name a
caller-supplied parameter and is deleted from the parameter set
(a missing one raises the "not given an expansion" error). -/
def consumeExtras : List String → List String → Except PErr (List String)
  | [], param => .ok param
  | c :: rest, param =>
      if c ∈ param then consumeExtras rest (param.erase c)
      else .error (.missingExpansion c)

/-- The token loop of `_parsechain`, over the whitespace-split token list:
`seen` is the alias set, `links` the links parsed so far (most recent first),
`collect` the collected link so far.  A later square-bracketed token
*overwrites* `collect` (the source has no multiple-collect check); at the
end, `collect` defaults to the last link. -/
def parsechainAux : List String → List String → List String → List Link →
    Option Link → Except PErr (List Link × Option Link)
  | [], _seen, _param, links, collect => .ok (links.reverse, collect.or links.head?)
  | p :: rest, seen, param, links, collect =>
      match tokParse p with
      | none => .error (.parseFormat p)
      | some (link, false) =>
          if link.lalias ∈ seen then .error (.dupAlias link.lalias)
          else parsechainAux rest (link.lalias :: seen) param (link :: links) collect
      | some (link, true) =>
          match consumeExtras link.extra param with
          | .error e => .error e
          | .ok param2 =>
              if link.lalias ∈ seen then .error (.dupAlias link.lalias)
              else parsechainAux rest (link.lalias :: seen) param2 (link :: links)
                (some link)

/-- `Graph._parsechain(CHAIN, PARAM)` on the split token list: returns the
ordered links and the collected link. -/
def parsechain (toks : List String) (param : List String) :
    Except PErr (List Link × Option Link) :=
  parsechainAux toks [] param [] none

/-- Specification of the collected link: the last square-bracketed token if
one exists, else the accumulated collect, else the last token overall, else
the most recent link. -/
def collectSpec (toks : List String) (collect : Option Link) (links : List Link) :
    Option Link :=
  match (toks.filter tokenCollectible).getLast? with
  | some p => linkOfTok p
  | none =>
      match collect with
      | some c => some c
      | none =>
          match toks.getLast? with
          | some p => linkOfTok p
          | none => links.head?

/-- A table (`nodes` or `edges`): association of the uid primary-key column
to the persisted attribute blob (the `data` column as a dict; the structural
columns duplicate values the blob already carries, so rows are modelled by
the blob alone). -/
abbrev Table := List (String × Dict)

/-- `DELETE FROM t WHERE uid = u`. -/
def tdel (t : Table) (u : String) : Table :=
  t.filter (fun p => decide (p.1 ≠ u))

/-- Extract `d['uid']` as a string (the source would raise on a missing or
non-string uid; well-formedness assumptions keep it present). -/
def uidOf (d : Dict) : String :=
  match dget d "uid" with
  | some (Val.vs u) => u
  | _ => ""

/-- Extract a string-valued attribute. -/
def strAt (d : Dict) (k : String) : String :=
  match dget d k with
  | some (Val.vs s) => s
  | _ => ""

/-- Whether an optional value is a string value. -/
def isVs : Option Val → Bool
  | some (Val.vs _) => true
  | _ => false

/-- A journal record: the target uid, optional `+` and `-` attribute maps,
and an optional batch uid (`time` and `rev` are opaque bookkeeping the undo
path never consults and are not modelled). -/
structure ChangeRec where
  cuid : String
  plus : Option Dict
  minus : Option Dict
  batch : Option String
deriving DecidableEq, Repr

/-- The persisted state of a graph: nodes and edges tables, the changes
journal (id, record) in ascending id order, and the next autoincrement id. -/
structure DB where
  nodes : Table
  edges : Table
  changes : List (Nat × ChangeRec)
  nextId : Nat
deriving DecidableEq, Repr

/-- An in-memory item (node or edge): its data dict and dirty-key set. -/
structure Item where
  data : Dict
  changedkeys : List String
deriving DecidableEq, Repr

/-- `Graph.exists(uid)`: the uid is a row of `nodes` or of `edges`. -/
def dbExists (db : DB) (u : String) : Bool :=
  omem db.nodes u || omem db.edges u

/-- `Graph.getuid(uid)`: fetch a node by uid, else an edge by uid; the flag
is true for a node. -/
def getuid (db : DB) (u : String) : Option (Bool × Dict) :=
  match oget db.nodes u with
  | some b => some (true, b)
  | none =>
      match oget db.edges u with
      | some b => some (false, b)
      | none => none

/-- `addchange(new=..., old=None)`: a pure-add record. -/
def mkAdd (new : Dict) (batch : Option String) : ChangeRec :=
  { cuid := uidOf new, plus := some (cleandata new), minus := none, batch := batch }

/-- `addchange(old=..., new=None)`: a pure-delete record. -/
def mkDel (old : Dict) (batch : Option String) : ChangeRec :=
  { cuid := uidOf old, plus := none, minus := some (cleandata old), batch := batch }

/-- `addchange(old=..., new=...)`: a modification record from the diff of the
dirty keys, or nothing when the diff is empty (including the suppressed
mtime-only diff). -/
def mkModify (old new : Dict) (changedkeys : List String) (batch : Option String) :
    Option ChangeRec :=
  let ar := diff old new changedkeys
  if ar.1.length = 0 ∧ ar.2.length = 0 then none
  else
    some { cuid := uidOf new
           plus := (if ar.1.length = 0 then none else some ar.1)
           minus := (if ar.2.length = 0 then none else some ar.2)
           batch := batch }

/-- `INSERT INTO changes` with the autoincrement id. -/
def appendChange (db : DB) (c : Option ChangeRec) : DB :=
  match c with
  | none => db
  | some c =>
      { db with changes := db.changes ++ [(db.nextId, c)], nextId := db.nextId + 1 }

/-- `Node.save(force, batch, setchange)`: no-op when clean and unforced;
otherwise read the prior persisted item, INSERT OR REPLACE the row with the
cleaned data, and journal the change. -/
def saveNodeFn (db : DB) (it : Item) (force : Bool) (batch : Option String)
    (setchange : Bool) : DB :=
  if !force && it.changedkeys.isEmpty then db
  else
    let u := uidOf it.data
    let blob := cleandata it.data
    let original := getuid db u
    let db2 := { db with nodes := pyDictSet db.nodes u blob }
    if setchange then
      match original with
      | none => appendChange db2 (some (mkAdd it.data batch))
      | some (_, old) => appendChange db2 (mkModify old it.data it.changedkeys batch)
    else db2

/-- Errors raised by the embedded operations (`GraphyDBException` kinds).
`notFound` and `badRecord` stand for paths where the source would fail on a
missing item (AttributeError on None) or would generate a fresh random
uid/ctime/mtime while reconstructing from a corrupted record — all outside
well-formed histories. -/
inductive GErr where
  | missingNodeRef : GErr
  | stillConnected : GErr
  | notFound : GErr
  | invalidKind : GErr
  | badRecord : GErr
  | unknownUndo : GErr
deriving DecidableEq, Repr

/-- `Edge.save(force, batch, setchange)`: like the node save, but first both
endpoint uids must pass `Graph.exists` (which consults the nodes table and
then the edges table). -/
def saveEdgeFn (db : DB) (it : Item) (force : Bool) (batch : Option String)
    (setchange : Bool) : Except GErr DB :=
  if !force && it.changedkeys.isEmpty then .ok db
  else
    if !(dbExists db (strAt it.data "startuid")) then .error .missingNodeRef
    else if !(dbExists db (strAt it.data "enduid")) then .error .missingNodeRef
    else
      let u := uidOf it.data
      let blob := cleandata it.data
      let original := getuid db u
      let db2 := { db with edges := pyDictSet db.edges u blob }
      .ok (if setchange then
        match original with
        | none => appendChange db2 (some (mkAdd it.data batch))
        | some (_, old) =>
            appendChange db2 (mkModify old it.data it.changedkeys batch)
      else db2)

/-- `Edge.delete(setchange, batch)`: delete the row, touch the in-memory
`mtime` with the current time `t`, and only then journal the deletion — so
the `-` map carries the deletion time, not the persisted mtime. -/
def deleteEdgeFn (db : DB) (it : Item) (batch : Option String) (setchange : Bool)
    (t : Val) : DB :=
  let u := uidOf it.data
  let db2 := { db with edges := tdel db.edges u }
  let data2 := dinsert it.data "mtime" t
  if setchange then appendChange db2 (some (mkDel data2 batch)) else db2

/-- The uids of the edges incident to `u` (the `outE(COUNT)` / `inE(COUNT)` /
`bothE()` predicates: `startuid = u OR enduid = u`). -/
def incidentUids (db : DB) (u : String) : List String :=
  (db.edges.filter (fun p =>
    strAt p.2 "startuid" = u || strAt p.2 "enduid" = u)).map Prod.fst

/-- `Node.inE()`: fetch the edges with `e.enduid = :node_uid`, as the
`IndexedSet` built from the matching rows of the edges table. -/
def fetchInE (db : DB) (u : String) : ISet Dict :=
  mkISet uidOf
    ((db.edges.filter (fun p => strAt p.2 "enduid" = u)).map Prod.snd)

/-- `Node.outE()`: fetch the edges with `e.startuid = :node_uid`. -/
def fetchOutE (db : DB) (u : String) : ISet Dict :=
  mkISet uidOf
    ((db.edges.filter (fun p => strAt p.2 "startuid" = u)).map Prod.snd)

/-- `Node.bothE()` without COUNT: `inE(...) | outE(...)`, the `IndexedSet`
union; `enum` is the iteration order of the unordered key set of `__or__`. -/
def bothEFn (db : DB) (u : String) (enum : List String) : ISet Dict :=
  orOp uidOf [] (fetchInE db u) (fetchOutE db u) enum

/-- `Node.bothE(COUNT=True)`: `len(ine|oute)`, and `IndexedSet.__len__` is
`self._index.__len__()`. -/
def bothECount (db : DB) (u : String) (enum : List String) : Nat :=
  (bothEFn db u enum).index.length

/-- `Node.delete(disconnect, batch, setchange)`.  When incident edges exist
and `disconnect` is set, a fresh batch uid (`freshB`) groups the record of
each incident edge deletion and of the node deletion; `perm` is the
iteration order of `bothE()` (a uid-union of two fetches, hence an
*unordered* set) paired with each edge's deletion time.  Without
`disconnect` the delete is refused.  Each edge is looked up at deletion time
(equivalent to the source's up-front fetch for duplicate-free `perm`). -/
def delEdgeStep (b : Option String) (setchange : Bool) (db : DB)
    (p : String × Val) : DB :=
  match oget db.edges p.1 with
  | some blob => deleteEdgeFn db ⟨blob, []⟩ b setchange p.2
  | none => db

def deleteNodeFn (db : DB) (it : Item) (disconnect : Bool) (batch : Option String)
    (setchange : Bool) (freshB : String) (perm : List (String × Val)) :
    Except GErr DB :=
  let u := uidOf it.data
  if (incidentUids db u).isEmpty then
    let db2 := { db with nodes := tdel db.nodes u }
    .ok (if setchange then appendChange db2 (some (mkDel it.data batch)) else db2)
  else
    if disconnect then
      let b := if setchange && batch.isNone then some freshB else batch
      let db2 := perm.foldl (delEdgeStep b setchange) db
      let db3 := { db2 with nodes := tdel db2.nodes u }
      .ok (if setchange then appendChange db3 (some (mkDel it.data b)) else db3)
    else .error .stillConnected

/-- `Graph.lastchanges()`: the highest-id record; if it carries a batch, all
records of that batch in ascending id order. -/
def lastchanges (db : DB) : List (Nat × ChangeRec) :=
  match db.changes.getLast? with
  | none => []
  | some (i, c) =>
      match c.batch with
      | none => [(i, c)]
      | some b => db.changes.filter (fun p => decide (p.2.batch = some b))

/-- `Graph.deletechange(id)`. -/
def removeChange (db : DB) (i : Nat) : DB :=
  { db with changes := db.changes.filter (fun p => decide (p.1 ≠ i)) }

/-- Undo one journal record (the body of the loop in `Graph.undo`):
`+`-only → delete the item with `setchange=False`; `-`-only → reconstruct
the item (edge iff the map has `startuid`) and save it with
`setchange=False`; both → patch the live item's attributes in reverse and
save with `force=True, setchange=False`; neither → unknown-undo error. -/
def undoRec (db : DB) (c : ChangeRec) : Except GErr DB :=
  match c.plus, c.minus with
  | some _, none =>
      match getuid db c.cuid with
      | none => .error .notFound
      | some (true, _) =>
          if (incidentUids db c.cuid).isEmpty then
            .ok { db with nodes := tdel db.nodes c.cuid }
          else .error .stillConnected
      | some (false, _) => .ok { db with edges := tdel db.edges c.cuid }
  | none, some data =>
      if dmem data "startuid" then
        if (dget data "kind").isNone then .error .invalidKind
        else if (dget data "enduid").isNone then .error .invalidKind
        else if (dget data "uid").isNone || (dget data "ctime").isNone ||
            (dget data "mtime").isNone then .error .badRecord
        else saveEdgeFn db ⟨data, dkeys data⟩ false none false
      else
        if (dget data "kind").isNone then .error .invalidKind
        else if (dget data "uid").isNone || (dget data "ctime").isNone ||
            (dget data "mtime").isNone then .error .badRecord
        else .ok (saveNodeFn db ⟨data, dkeys data⟩ false none false)
  | some p, some m =>
      match getuid db c.cuid with
      | none => .error .notFound
      | some (true, blob) =>
          .ok (saveNodeFn db ⟨patch blob p m true, []⟩ true none false)
      | some (false, blob) =>
          saveEdgeFn db ⟨patch blob p m true, []⟩ true none false
  | none, none => .error .unknownUndo

/-- Process a batch chunk in order, deleting each record after its inverse
succeeds; on failure the partially-updated state is preserved, as in the
source where the exception propagates. -/
def undoChunk : DB → List (Nat × ChangeRec) → Except (GErr × DB) DB
  | db, [] => .ok db
  | db, (i, c) :: rest =>
      match undoRec db c with
      | .error e => .error (e, db)
      | .ok db2 => undoChunk (removeChange db2 i) rest

/-- One call of `Graph.undo()`: apply the inverses of `lastchanges()` in
reverse order. -/
def undoStep (db : DB) : Except (GErr × DB) DB :=
  undoChunk db (lastchanges db).reverse

/-- Repeated `undo` with explicit fuel (each successful step strictly
shrinks the journal, so `db.changes.length` fuel always suffices). -/
def undoFuel : Nat → DB → Except (GErr × DB) DB
  | 0, db => .ok db
  | n + 1, db =>
      if db.changes.isEmpty then .ok db
      else
        match undoStep db with
        | .error e => .error e
        | .ok db2 => undoFuel n db2

/-- "Repeatedly calling undo until the changes journal is empty". -/
def undoAll (db : DB) : Except (GErr × DB) DB :=
  undoFuel db.changes.length db

/-- `n` calls of `Graph.undo()`. -/
def undoIter : Nat → DB → Except (GErr × DB) DB
  | 0, db => .ok db
  | n + 1, db =>
      match undoStep db with
      | .error e => .error e
      | .ok db2 => undoIter n db2

/-- A top-level mutation with `setchange=true` (and the default
`force=False`, `batch=None`): node/edge save of an in-memory item, node
delete (with its disconnect flag, fresh batch uid, and the unordered
`bothE` iteration order paired with deletion times), edge delete with its
deletion time. -/
inductive Op where
  | saveN : Item → Op
  | saveE : Item → Op
  | delN : Item → Bool → String → List (String × Val) → Op
  | delE : Item → Val → Op
deriving DecidableEq, Repr

/-- Apply one operation. -/
def applyOp (db : DB) : Op → Except GErr DB
  | .saveN it => .ok (saveNodeFn db it false none true)
  | .saveE it => saveEdgeFn db it false none true
  | .delN it disconnect freshB perm =>
      deleteNodeFn db it disconnect none true freshB perm
  | .delE it t => .ok (deleteEdgeFn db it none true t)

/-- Run a sequence of operations. -/
def runOps : DB → List Op → Except GErr DB
  | db, [] => .ok db
  | db, op :: ops =>
      match applyOp db op with
      | .error e => .error e
      | .ok db2 => runOps db2 ops

/-- Concrete node blob for witnesses: node `A`. -/
def blobA : Dict :=
  [("uid", Val.vs "A"), ("kind", Val.vs "P"), ("ctime", Val.vi 1), ("mtime", Val.vi 1)]

/-- Concrete edge blob for witnesses: self-loop edge `E` on `A`. -/
def blobE : Dict :=
  [("uid", Val.vs "E"), ("kind", Val.vs "L"), ("startuid", Val.vs "A"),
    ("enduid", Val.vs "A"), ("ctime", Val.vi 2), ("mtime", Val.vi 2)]

/-- Concrete graph for witnesses: node `A` with self-loop `E`, empty journal. -/
def exDB : DB := ⟨[("A", blobA)], [("E", blobE)], [], 0⟩

/-- The node `A` as a freshly-fetched item. -/
def itemA : Item := ⟨blobA, []⟩

/-- The edge `E` as a freshly-fetched item. -/
def itemE : Item := ⟨blobE, []⟩

/-- An edge whose `startuid` names the edge `E` rather than a node — the
probe for the `Graph.exists` check. -/
def itemDangling : Item :=
  ⟨[("uid", Val.vs "F"), ("kind", Val.vs "L"), ("startuid", Val.vs "E"),
    ("enduid", Val.vs "A"), ("ctime", Val.vi 3), ("mtime", Val.vi 3)], ["uid"]⟩

/-- Specification of the records appended by the incident-edge deletion loop
of `Node.delete(disconnect=True)`: one `-` record per deleted edge, carrying
its blob with `mtime` replaced by the deletion time, sharing the batch `b`,
with consecutive ids from `startId`. -/
def delRecs (edges0 : Table) (b : Option String) (startId : Nat) :
    List (String × Val) → List (Nat × ChangeRec)
  | [] => []
  | q :: rest =>
      (startId, mkDel (dinsert ((oget edges0 q.1).getD []) "mtime" q.2) b) ::
        delRecs edges0 b (startId + 1) rest

/-- No key of the dict starts with an underscore. -/
def noEph (d : Dict) : Bool :=
  d.all (fun p => !(isEph p.1))

/-- The `+` and `-` maps of a journal record carry no underscore keys. -/
def recClean (c : ChangeRec) : Bool :=
  (match c.plus with | some d => noEph d | none => true) &&
  (match c.minus with | some d => noEph d | none => true)

/-- Every persisted blob and every journal record is free of underscore
keys. -/
def dbClean (db : DB) : Bool :=
  db.nodes.all (fun p => noEph p.2) && db.edges.all (fun p => noEph p.2) &&
    db.changes.all (fun p => recClean p.2)

/-- The two dicts agree (pointwise) outside the listed keys.  Used to state
that an in-memory item's dirty-key set is sound: every attribute it disagrees
on with the persisted row is marked changed. -/
def agreeOutside (d1 d2 : Dict) (ck : List String) : Bool :=
  (dkeys d1 ++ dkeys d2).all (fun k => k ∈ ck || dget d1 k == dget d2 k)

/-- Pointwise equality of dicts as a Bool. -/
def dEqB (d1 d2 : Dict) : Bool :=
  (dkeys d1 ++ dkeys d2).all (fun k => dget d1 k == dget d2 k)

/-- A well-formed persisted blob at uid `u`: unique plain keys, the `uid`
attribute is the string `u`, and `kind`/`ctime`/`mtime` are present (every
item the source persists carries these). -/
def blobWF (u : String) (d : Dict) : Bool :=
  nodupKeys d && noEph d && (dget d "uid" == some (Val.vs u)) &&
  (dget d "kind").isSome && (dget d "ctime").isSome && (dget d "mtime").isSome

/-- A well-formed node blob additionally has no `startuid` (the undo path
classifies a `-` record as an edge iff `startuid` is present). -/
def nodeBlobWF (u : String) (d : Dict) : Bool :=
  blobWF u d && !(dmem d "startuid")

/-- A well-formed graph state: duplicate-free uid columns, node and edge
uids disjoint, well-formed node blobs, well-formed edge blobs whose
endpoints are uids of rows of the nodes table, and journal ids below the
autoincrement counter. -/
def dbWF (db : DB) : Bool :=
  (db.nodes.map Prod.fst).Nodup && (db.edges.map Prod.fst).Nodup &&
  db.nodes.all (fun p => !(omem db.edges p.1)) &&
  db.nodes.all (fun p => nodeBlobWF p.1 p.2) &&
  db.edges.all (fun p => blobWF p.1 p.2 && isVs (dget p.2 "startuid") &&
    isVs (dget p.2 "enduid") && omem db.nodes (strAt p.2 "startuid") &&
    omem db.nodes (strAt p.2 "enduid")) &&
  (db.changes.map Prod.fst).all (fun i => i < db.nextId)

/-- The item's `mtime` is marked dirty and actually differs from the stored
value (the source touches `mtime` on every attribute assignment, so any item
with unsaved changes satisfies this). -/
def mtimeDirty (old : Dict) (it : Item) : Bool :=
  "mtime" ∈ it.changedkeys && dget it.data "mtime" != dget old "mtime"

/-- The per-operation side conditions under which the operation is a
well-formed use of the API on state `db`. -/
def opOK (db : DB) : Op → Bool
  | .saveN it =>
      nodeBlobWF (uidOf it.data) (cleandata it.data) &&
      !(omem db.edges (uidOf it.data)) &&
      (match oget db.nodes (uidOf it.data) with
       | none => true
       | some old =>
           agreeOutside (cleandata it.data) old it.changedkeys &&
           (it.changedkeys.isEmpty || mtimeDirty old it))
  | .saveE it =>
      blobWF (uidOf it.data) (cleandata it.data) &&
      isVs (dget (cleandata it.data) "startuid") &&
      isVs (dget (cleandata it.data) "enduid") &&
      omem db.nodes (strAt (cleandata it.data) "startuid") &&
      omem db.nodes (strAt (cleandata it.data) "enduid") &&
      !(omem db.nodes (uidOf it.data)) &&
      (match oget db.edges (uidOf it.data) with
       | none => true
       | some old =>
           agreeOutside (cleandata it.data) old it.changedkeys &&
           (it.changedkeys.isEmpty || mtimeDirty old it))
  | .delN it disconnect freshB perm =>
      (match oget db.nodes (uidOf it.data) with
       | none => false
       | some old => dEqB (cleandata it.data) old) &&
      ((incidentUids db (uidOf it.data)).isEmpty ||
        (disconnect &&
         db.changes.all (fun p => p.2.batch != some freshB) &&
         (perm.map Prod.fst).Nodup &&
         (perm.map Prod.fst).all
           (fun k => k ∈ incidentUids db (uidOf it.data)) &&
         (incidentUids db (uidOf it.data)).all
           (fun k => k ∈ perm.map Prod.fst)))
  | .delE it _ =>
      match oget db.edges (uidOf it.data) with
      | none => false
      | some old => dEqB (cleandata it.data) old

/-- A well-formed run: the state is well formed and the operation's side
conditions hold at every step, and every step succeeds. -/
def opsOK : DB → List Op → Bool
  | db, [] => dbWF db
  | db, op :: ops =>
      dbWF db && opOK db op &&
      (match applyOp db op with
       | .error _ => false
       | .ok db2 => opsOK db2 ops)

/-- Dicts equal at every key other than `mtime`, with `mtime` present in one
iff present in the other: "attribute-wise equality ignoring the `mtime`
value" (the deletion path touches the in-memory `mtime` before journaling,
so the restored value is the deletion time). -/
def bSim (d1 d2 : Dict) : Prop :=
  (∀ k, k ≠ "mtime" → dget d1 k = dget d2 k) ∧
  ((dget d1 "mtime").isSome = (dget d2 "mtime").isSome)

/-- Lifts `bSim` to optional rows: both absent, or both present and similar. -/
def obSim : Option Dict → Option Dict → Prop
  | none, none => True
  | some d1, some d2 => bSim d1 d2
  | _, _ => False

/-- Pointwise similarity of tables. -/
def tSim (t1 t2 : Table) : Prop := ∀ u, obSim (oget t1 u) (oget t2 u)

/-- Duplicate-free uid columns. -/
def tablesNodup (db : DB) : Bool :=
  (db.nodes.map Prod.fst).Nodup && (db.edges.map Prod.fst).Nodup

/-- States with identical journals and similar tables (the relation the undo
path cannot distinguish). -/
def dbSimJ (e1 e2 : DB) : Prop :=
  e1.changes = e2.changes ∧ tSim e1.nodes e2.nodes ∧ tSim e1.edges e2.edges ∧
  tablesNodup e1 = true ∧ tablesNodup e2 = true

/-- Similarity of undo outcomes. -/
def rsim : Except (GErr × DB) DB → Except (GErr × DB) DB → Prop
  | .ok f1, .ok f2 => dbSimJ f1 f2
  | .error (g1, s1), .error (g2, s2) => g1 = g2 ∧ dbSimJ s1 s2
  | _, _ => False

/-- Similarity of single-record undo outcomes. -/
def rsimR : Except GErr DB → Except GErr DB → Prop
  | .ok f1, .ok f2 => dbSimJ f1 f2
  | .error g1, .error g2 => g1 = g2
  | _, _ => False

/- ================================================================
   Theorems
   ================================================================ -/

theorem dget_eq_none_iff (d : Dict) (k : String) :
    dget d k = none ↔ k ∉ d.map Prod.fst := by
  induction d with
  | nil => simp [dget]
  | cons p d ih =>
      obtain ⟨k1, v1⟩ := p
      by_cases h : k1 = k
      · subst h; simp [dget]
      · simp [dget, h, ih, Ne.symm h]

theorem dget_isSome_iff (d : Dict) (k : String) :
    (dget d k).isSome = true ↔ k ∈ d.map Prod.fst := by
  have h := dget_eq_none_iff d k
  cases hd : dget d k with
  | none => simpa using h.1 hd
  | some v =>
      simp only [Option.isSome_some, true_iff]
      by_contra hk
      have := (h.2 hk).symm.trans hd
      simp at this

theorem dget_derase (d : Dict) (k k0 : String) :
    dget (derase d k) k0 = if k0 = k then none else dget d k0 := by
  induction d with
  | nil => simp [derase, dget]
  | cons p d ih =>
      obtain ⟨k1, v1⟩ := p
      by_cases h1 : k1 = k
      · subst h1
        have hst : derase ((k1, v1) :: d) k1 = derase d k1 := by
          simp [derase, List.filter_cons]
        rw [hst, ih]
        by_cases h0 : k0 = k1
        · simp [h0]
        · simp only [dget, if_neg h0, if_neg (fun h2 : k1 = k0 => h0 h2.symm)]
      · have hst : derase ((k1, v1) :: d) k = (k1, v1) :: derase d k := by
          simp [derase, List.filter_cons, h1]
        rw [hst]
        by_cases h2 : k1 = k0
        · subst h2
          simp [dget, fun h3 : k1 = k => h1 h3, Ne.symm h1]
        · simp [dget, h2, ih]

theorem dget_dinsert (d : Dict) (k : String) (v : Val) (k0 : String) :
    dget (dinsert d k v) k0 = if k0 = k then some v else dget d k0 := by
  show dget ((k, v) :: derase d k) k0 = _
  by_cases h : k0 = k
  · subst h; simp [dget]
  · rw [show dget ((k, v) :: derase d k) k0 = dget (derase d k) k0 from by
      simp only [dget, if_neg (fun h1 : k = k0 => h h1.symm)]]
    rw [dget_derase, if_neg h, if_neg h]

theorem dget_ddelkeys (d : Dict) (ks : List String) (k0 : String) :
    dget (ddelkeys d ks) k0 = if k0 ∈ ks then none else dget d k0 := by
  induction d with
  | nil => simp [ddelkeys, dget]
  | cons p d ih =>
      obtain ⟨k1, v1⟩ := p
      by_cases hm : k1 ∈ ks
      · have hst : ddelkeys ((k1, v1) :: d) ks = ddelkeys d ks := by
          simp [ddelkeys, List.filter_cons, hm]
        rw [hst, ih]
        by_cases h0 : k0 ∈ ks
        · simp [h0]
        · have h2 : k1 ≠ k0 := fun h => h0 (h ▸ hm)
          simp [h0, dget, h2]
      · have hst : ddelkeys ((k1, v1) :: d) ks = (k1, v1) :: ddelkeys d ks := by
          simp [ddelkeys, List.filter_cons, hm]
        rw [hst]
        by_cases h2 : k1 = k0
        · subst h2
          simp [dget, hm]
        · simp [dget, h2, ih]

theorem dget_dupdate (d e : Dict) (he : nodupKeys e = true) (k0 : String) :
    dget (dupdate d e) k0 = (dget e k0).or (dget d k0) := by
  induction e generalizing d with
  | nil => simp [dupdate, dget]
  | cons p e ih =>
      obtain ⟨k1, v1⟩ := p
      have he' : (((k1, v1) :: e).map Prod.fst).Nodup := by
        have h2 := he; unfold nodupKeys at h2; exact of_decide_eq_true h2
      rw [List.map_cons, List.nodup_cons] at he'
      obtain ⟨hk1, he2⟩ := he'
      have he1 : nodupKeys e = true := decide_eq_true he2
      have hun : dupdate d ((k1, v1) :: e) = dupdate (dinsert d k1 v1) e := rfl
      rw [hun, ih _ he1, dget_dinsert]
      by_cases h : k0 = k1
      · subst h
        have h0 : dget e k0 = none := (dget_eq_none_iff e k0).2 hk1
        simp [dget, h0]
      · rw [if_neg h]
        rw [show dget ((k1, v1) :: e) k0 = dget e k0 from by
          simp only [dget, if_neg (fun h1 : k1 = k0 => h h1.symm)]]

theorem diffStep_fst (d1 d2 : Dict) (ck : List String) (acc : Dict × Dict) (k : String) :
    (diffStep d1 d2 ck acc k).1 =
      acc.1 ++ ((addSpec d1 d2 ck k).map (fun v => (k, v))).toList := by
  unfold diffStep addSpec
  cases h1 : isEph k
  · by_cases h2 : k ∈ ck
    · simp only [h1, Bool.false_eq_true, if_false, if_pos h2]
      cases hg1 : dget d1 k <;> cases hg2 : dget d2 k <;> simp
      by_cases h3 : ‹Val› = ‹Val› <;> split <;> simp_all
    · simp [h1, h2]
  · simp [h1]

theorem diffStep_snd (d1 d2 : Dict) (ck : List String) (acc : Dict × Dict) (k : String) :
    (diffStep d1 d2 ck acc k).2 =
      acc.2 ++ ((removeSpec d1 d2 ck k).map (fun v => (k, v))).toList := by
  unfold diffStep removeSpec
  cases h1 : isEph k
  · by_cases h2 : k ∈ ck
    · simp only [h1, Bool.false_eq_true, if_false, if_pos h2]
      cases hg1 : dget d1 k <;> cases hg2 : dget d2 k <;> simp
      split <;> simp_all
    · simp [h1, h2]
  · simp [h1]

theorem foldl_diffStep (d1 d2 : Dict) (ck : List String) (ks : List String)
    (acc : Dict × Dict) :
    ks.foldl (diffStep d1 d2 ck) acc =
      (acc.1 ++ ks.filterMap (fun k => (addSpec d1 d2 ck k).map (fun v => (k, v))),
       acc.2 ++ ks.filterMap (fun k => (removeSpec d1 d2 ck k).map (fun v => (k, v)))) := by
  induction ks generalizing acc with
  | nil => simp
  | cons k ks ih =>
      rw [List.foldl_cons, ih]
      refine Prod.ext ?_ ?_
      · show (diffStep d1 d2 ck acc k).1 ++ _ = acc.1 ++ _
        rw [diffStep_fst, List.filterMap_cons]
        cases h : addSpec d1 d2 ck k <;> simp [h]
      · show (diffStep d1 d2 ck acc k).2 ++ _ = acc.2 ++ _
        rw [diffStep_snd, List.filterMap_cons]
        cases h : removeSpec d1 d2 ck k <;> simp [h]

theorem dget_filterMapSpec (f : String → Option Val) (ks : List String)
    (hks : ks.Nodup) (k : String) :
    dget (ks.filterMap (fun k0 => (f k0).map (fun v => (k0, v)))) k =
      if k ∈ ks then f k else none := by
  induction ks with
  | nil => simp [dget]
  | cons k1 ks ih =>
      rw [List.nodup_cons] at hks
      obtain ⟨hk1, hks'⟩ := hks
      cases h : f k1 with
      | none =>
          simp only [List.filterMap_cons, h, Option.map_none']
          rw [ih hks']
          by_cases hm : k = k1
          · subst hm
            simp [hk1, h]
          · simp [hm]
      | some v =>
          simp only [List.filterMap_cons, h, Option.map_some']
          by_cases hm : k1 = k
          · subst hm
            simp [dget, h, hk1]
          · rw [show dget ((k1, v) :: ks.filterMap
                (fun k0 => (f k0).map (fun v => (k0, v)))) k =
                dget (ks.filterMap (fun k0 => (f k0).map (fun v => (k0, v)))) k from by
              simp only [dget, if_neg hm]]
            rw [ih hks']
            by_cases h3 : k ∈ ks
            · simp [h3]
            · rw [if_neg h3,
                if_neg (fun hc : k ∈ k1 :: ks =>
                  (List.mem_cons.1 hc).elim (fun h2 => hm h2.symm) h3)]

theorem keys_filterMapSpec_sub (f : String → Option Val) (ks : List String) (k : String)
    (h : k ∈ (ks.filterMap (fun k0 => (f k0).map (fun v => (k0, v)))).map Prod.fst) :
    k ∈ ks := by
  induction ks with
  | nil => simp at h
  | cons k1 ks ih =>
      cases hf : f k1 with
      | none =>
          simp only [List.filterMap_cons, hf, Option.map_none'] at h
          exact List.mem_cons_of_mem _ (ih h)
      | some v =>
          simp only [List.filterMap_cons, hf, Option.map_some', List.map_cons,
            List.mem_cons] at h
          rcases h with h1 | h1
          · rw [h1]; exact List.mem_cons_self _ _
          · exact List.mem_cons_of_mem _ (ih h1)

theorem nodupKeys_filterMapSpec (f : String → Option Val) (ks : List String)
    (hks : ks.Nodup) :
    nodupKeys (ks.filterMap (fun k0 => (f k0).map (fun v => (k0, v)))) = true := by
  unfold nodupKeys
  apply decide_eq_true
  induction ks with
  | nil => simp
  | cons k1 ks ih =>
      rw [List.nodup_cons] at hks
      obtain ⟨hk1, hks'⟩ := hks
      cases hf : f k1 with
      | none =>
          simp only [List.filterMap_cons, hf, Option.map_none']
          exact ih hks'
      | some v =>
          simp only [List.filterMap_cons, hf, Option.map_some', List.map_cons,
            List.nodup_cons]
          exact ⟨fun hmem => hk1 (keys_filterMapSpec_sub f ks k1 hmem), ih hks'⟩

theorem dget_diffRaw_fst (d1 d2 : Dict) (ck : List String) (k : String) :
    dget (diffRaw d1 d2 ck).1 k = addSpec d1 d2 ck k := by
  unfold diffRaw
  rw [foldl_diffStep]
  show dget ([] ++ _) k = _
  rw [List.nil_append,
    dget_filterMapSpec _ _ (List.nodup_dedup _)]
  by_cases hm : k ∈ (dkeys d1 ++ dkeys d2).dedup
  · rw [if_pos hm]
  · rw [if_neg hm]
    rw [List.mem_dedup, List.mem_append] at hm
    push_neg at hm
    have h1 : dget d1 k = none := by
      rw [dget_eq_none_iff]
      intro hc
      exact hm.1 (by unfold dkeys; rw [List.mem_dedup]; exact hc)
    have h2 : dget d2 k = none := by
      rw [dget_eq_none_iff]
      intro hc
      exact hm.2 (by unfold dkeys; rw [List.mem_dedup]; exact hc)
    unfold addSpec
    rw [h1, h2]
    split <;> simp

theorem dget_diffRaw_snd (d1 d2 : Dict) (ck : List String) (k : String) :
    dget (diffRaw d1 d2 ck).2 k = removeSpec d1 d2 ck k := by
  unfold diffRaw
  rw [foldl_diffStep]
  show dget ([] ++ _) k = _
  rw [List.nil_append,
    dget_filterMapSpec _ _ (List.nodup_dedup _)]
  by_cases hm : k ∈ (dkeys d1 ++ dkeys d2).dedup
  · rw [if_pos hm]
  · rw [if_neg hm]
    rw [List.mem_dedup, List.mem_append] at hm
    push_neg at hm
    have h1 : dget d1 k = none := by
      rw [dget_eq_none_iff]
      intro hc
      exact hm.1 (by unfold dkeys; rw [List.mem_dedup]; exact hc)
    have h2 : dget d2 k = none := by
      rw [dget_eq_none_iff]
      intro hc
      exact hm.2 (by unfold dkeys; rw [List.mem_dedup]; exact hc)
    unfold removeSpec
    rw [h1, h2]
    split <;> simp

theorem nodupKeys_diffRaw_fst (d1 d2 : Dict) (ck : List String) :
    nodupKeys (diffRaw d1 d2 ck).1 = true := by
  unfold diffRaw
  rw [foldl_diffStep]
  show nodupKeys ([] ++ _) = true
  rw [List.nil_append]
  exact nodupKeys_filterMapSpec _ _ (List.nodup_dedup _)

theorem nodupKeys_diffRaw_snd (d1 d2 : Dict) (ck : List String) :
    nodupKeys (diffRaw d1 d2 ck).2 = true := by
  unfold diffRaw
  rw [foldl_diffStep]
  show nodupKeys ([] ++ _) = true
  rw [List.nil_append]
  exact nodupKeys_filterMapSpec _ _ (List.nodup_dedup _)

theorem plainKeys_dget_eph (d : Dict) (hp : plainKeys d = true) (k : String)
    (hk : isEph k = true) : dget d k = none := by
  rw [dget_eq_none_iff]
  intro hc
  obtain ⟨⟨k0, v0⟩, hmem, hfst⟩ := List.mem_map.1 hc
  have := List.all_eq_true.1 hp _ hmem
  simp only at hfst
  subst hfst
  simp [hk] at this

theorem dget_patch_fwd (d1 d2 : Dict) (K : List String) (k : String) :
    dget (patch d1 (diffRaw d1 d2 K).1 (diffRaw d1 d2 K).2 false) k =
      (addSpec d1 d2 K k).or
        (if (removeSpec d1 d2 K k).isSome = true then none else dget d1 k) := by
  show dget (dupdate (ddelkeys d1 ((diffRaw d1 d2 K).2.map Prod.fst))
      (diffRaw d1 d2 K).1) k = _
  rw [dget_dupdate _ _ (nodupKeys_diffRaw_fst d1 d2 K), dget_ddelkeys,
    dget_diffRaw_fst]
  have hiff : (removeSpec d1 d2 K k).isSome = true ↔
      k ∈ (diffRaw d1 d2 K).2.map Prod.fst := by
    rw [← dget_diffRaw_snd d1 d2 K k]
    exact dget_isSome_iff _ _
  by_cases hm : k ∈ (diffRaw d1 d2 K).2.map Prod.fst
  · rw [if_pos hm, if_pos (hiff.2 hm)]
  · rw [if_neg hm, if_neg (fun hc => hm (hiff.1 hc))]

theorem dget_patch_rev (d1 d2 : Dict) (K : List String) (F : Dict) (k : String) :
    dget (patch F (diffRaw d1 d2 K).1 (diffRaw d1 d2 K).2 true) k =
      (removeSpec d1 d2 K k).or
        (if (addSpec d1 d2 K k).isSome = true then none else dget F k) := by
  show dget (dupdate (ddelkeys F ((diffRaw d1 d2 K).1.map Prod.fst))
      (diffRaw d1 d2 K).2) k = _
  rw [dget_dupdate _ _ (nodupKeys_diffRaw_snd d1 d2 K), dget_ddelkeys,
    dget_diffRaw_snd]
  have hiff : (addSpec d1 d2 K k).isSome = true ↔
      k ∈ (diffRaw d1 d2 K).1.map Prod.fst := by
    rw [← dget_diffRaw_fst d1 d2 K k]
    exact dget_isSome_iff _ _
  by_cases hm : k ∈ (diffRaw d1 d2 K).1.map Prod.fst
  · rw [if_pos hm, if_pos (hiff.2 hm)]
  · rw [if_neg hm, if_neg (fun hc => hm (hiff.1 hc))]

/-- C10: for dicts `d1`, `d2` with plain (non-underscore, non-empty) string
keys and any key set `K`, with `c = diff(d1, d2, K)` not the suppressed
mtime-only diff: `patch(d1, c)` equals `d1` updated to agree with `d2` on the
keys of `K` where they differ, and `patch(patch(d1, c), c, reverse=True)`
recovers `d1` (dicts compared extensionally, as Python `==` does). -/
theorem claim_C10_diff_patch_roundtrip (d1 d2 : Dict) (K : List String)
    (h1 : plainKeys d1 = true) (h2 : plainKeys d2 = true)
    (hsup : mtimeOnly (diffRaw d1 d2 K) = false) :
    (∀ k, dget (patch d1 (diff d1 d2 K).1 (diff d1 d2 K).2 false) k =
        if k ∈ K ∧ dget d1 k ≠ dget d2 k then dget d2 k else dget d1 k) ∧
    (∀ k, dget (patch (patch d1 (diff d1 d2 K).1 (diff d1 d2 K).2 false)
        (diff d1 d2 K).1 (diff d1 d2 K).2 true) k = dget d1 k) := by
  have hdiff : diff d1 d2 K = diffRaw d1 d2 K := by
    unfold diff
    simp [hsup]
  rw [hdiff]
  have hcase : ∀ k, (isEph k = true → dget d1 k = none ∧ dget d2 k = none) := by
    intro k hk
    exact ⟨plainKeys_dget_eph d1 h1 k hk, plainKeys_dget_eph d2 h2 k hk⟩
  constructor
  · intro k
    rw [dget_patch_fwd]
    unfold addSpec removeSpec
    cases heph : isEph k with
    | true =>
        obtain ⟨e1, e2⟩ := hcase k heph
        simp [e1, e2]
    | false =>
        by_cases hK : k ∈ K
        · simp only [heph, Bool.false_eq_true, if_false, if_pos hK]
          rcases hg1 : dget d1 k with _ | v1 <;> rcases hg2 : dget d2 k with _ | v2
          · simp [hg1, hg2, hK]
          · simp [hg1, hg2, hK]
          · simp [hg1, hg2, hK]
          · by_cases hv : v1 = v2 <;> simp [hg1, hg2, hK, hv]
        · simp [heph, hK]
  · intro k
    rw [dget_patch_rev, dget_patch_fwd]
    unfold addSpec removeSpec
    cases heph : isEph k with
    | true =>
        obtain ⟨e1, e2⟩ := hcase k heph
        simp [e1, e2]
    | false =>
        by_cases hK : k ∈ K
        · simp only [heph, Bool.false_eq_true, if_false, if_pos hK]
          rcases hg1 : dget d1 k with _ | v1 <;> rcases hg2 : dget d2 k with _ | v2
          · simp [hg1, hg2, hK]
          · simp [hg1, hg2, hK]
          · simp [hg1, hg2, hK]
          · by_cases hv : v1 = v2 <;> simp [hg1, hg2, hK, hv]
        · simp [heph, hK]

theorem oget_nil {α : Type} (u : String) : oget ([] : List (String × α)) u = none := rfl

theorem oget_cons {α : Type} (k1 : String) (o1 : α) (rest : List (String × α))
    (u : String) :
    oget ((k1, o1) :: rest) u = if k1 = u then some o1 else oget rest u := rfl

theorem pyDictSet_nil {α : Type} (k : String) (o : α) :
    pyDictSet ([] : List (String × α)) k o = [(k, o)] := rfl

theorem pyDictSet_cons {α : Type} (k1 : String) (o1 : α) (rest : List (String × α))
    (k : String) (o : α) :
    pyDictSet ((k1, o1) :: rest) k o =
      if k1 = k then (k, o) :: rest else (k1, o1) :: pyDictSet rest k o := rfl

theorem oget_pyDictSet {α : Type} (d : List (String × α)) (k : String) (o : α)
    (u : String) :
    oget (pyDictSet d k o) u = if u = k then some o else oget d u := by
  induction d with
  | nil =>
      rw [pyDictSet_nil, oget_cons]
      by_cases h : u = k
      · rw [if_pos h.symm, if_pos h]
      · rw [if_neg (fun h1 : k = u => h h1.symm), if_neg h]
  | cons p d ih =>
      obtain ⟨k1, o1⟩ := p
      rw [pyDictSet_cons]
      by_cases h1 : k1 = k
      · subst h1
        rw [if_pos rfl, oget_cons, oget_cons]
        by_cases h : u = k1
        · rw [if_pos h.symm, if_pos h]
        · rw [if_neg (fun h2 : k1 = u => h h2.symm), if_neg h,
            if_neg (fun h2 : k1 = u => h h2.symm)]
      · rw [if_neg h1, oget_cons, oget_cons]
        by_cases h2 : k1 = u
        · subst h2
          simp [h1]
        · rw [if_neg h2, if_neg h2, ih]

theorem keys_pyDictSet {α : Type} (d : List (String × α)) (k : String) (o : α) :
    (pyDictSet d k o).map Prod.fst =
      if k ∈ d.map Prod.fst then d.map Prod.fst else d.map Prod.fst ++ [k] := by
  induction d with
  | nil => simp [pyDictSet]
  | cons p d ih =>
      obtain ⟨k1, o1⟩ := p
      by_cases h1 : k1 = k
      · subst h1
        simp [pyDictSet]
      · have hkk1 : ¬ k = k1 := fun h2 => h1 h2.symm
        by_cases hm : k ∈ d.map Prod.fst
        · simp [pyDictSet, h1, ih, hm, hkk1]
        · simp [pyDictSet, h1, ih, hm, hkk1]

theorem pyDictSet_not_mem {α : Type} (d : List (String × α)) (k : String) (o : α)
    (h : k ∉ d.map Prod.fst) : pyDictSet d k o = d ++ [(k, o)] := by
  induction d with
  | nil => simp [pyDictSet]
  | cons p d ih =>
      obtain ⟨k1, o1⟩ := p
      simp only [List.map_cons, List.mem_cons] at h
      push_neg at h
      have hk1 : ¬ k1 = k := fun h2 => h.1 h2.symm
      simp [pyDictSet, hk1, ih h.2]

theorem dedupFirst_cons (k : String) (rest : List String) :
    dedupFirst (k :: rest) = k :: (dedupFirst rest).filter (fun x => decide (x ≠ k)) :=
  rfl

theorem dedupFirst_filter (p : String → Bool) (l : List String) :
    dedupFirst (l.filter p) = (dedupFirst l).filter p := by
  induction l with
  | nil => simp [dedupFirst]
  | cons k rest ih =>
      cases hp : p k with
      | true =>
          rw [List.filter_cons_of_pos hp, dedupFirst_cons, ih, dedupFirst_cons,
            List.filter_cons_of_pos hp, List.filter_filter, List.filter_filter]
          congr 1
          apply List.filter_congr
          intro a _
          exact Bool.and_comm _ _
      | false =>
          rw [List.filter_cons_of_neg (by simp [hp]), ih, dedupFirst_cons,
            List.filter_cons_of_neg (by simp [hp]), List.filter_filter]
          apply List.filter_congr
          intro a _
          by_cases ha : a = k
          · subst ha
            simp [hp]
          · simp [ha]

theorem keys_pyDictFold {α : Type} (uidf : α → String) (items : List α)
    (d : List (String × α)) :
    (items.foldl (fun d o => pyDictSet d (uidf o) o) d).map Prod.fst =
      d.map Prod.fst ++
        dedupFirst ((items.map uidf).filter
          (fun u => decide (u ∉ d.map Prod.fst))) := by
  induction items generalizing d with
  | nil => simp [dedupFirst]
  | cons o items ih =>
      rw [List.foldl_cons, ih]
      by_cases hm : uidf o ∈ d.map Prod.fst
      · rw [keys_pyDictSet, if_pos hm]
        rw [List.map_cons, List.filter_cons_of_neg (by simp [hm])]
      · rw [keys_pyDictSet, if_neg hm]
        rw [List.map_cons, List.filter_cons_of_pos (by simp [hm])]
        show _ = d.map Prod.fst ++
          (uidf o :: (dedupFirst ((items.map uidf).filter
            (fun u => decide (u ∉ d.map Prod.fst)))).filter
              (fun x => decide (x ≠ uidf o)))
        rw [← dedupFirst_filter, List.filter_filter]
        have hfe : ((items.map uidf).filter
            (fun u => decide (u ∉ (d.map Prod.fst ++ [uidf o])))) =
            (items.map uidf).filter
              (fun u => decide (u ≠ uidf o) && decide (u ∉ d.map Prod.fst)) := by
          apply List.filter_congr
          intro a _
          by_cases h1 : a = uidf o
          · subst h1
            simp
          · by_cases h2 : a ∈ d.map Prod.fst <;> simp [h1, h2]
        rw [hfe]
        simp [List.append_assoc]

theorem oget_pyDictFold {α : Type} (uidf : α → String) (items : List α)
    (d : List (String × α)) (u : String) :
    oget (items.foldl (fun d o => pyDictSet d (uidf o) o) d) u =
      ((items.filter (fun o => decide (uidf o = u))).getLast?).or (oget d u) := by
  induction items generalizing d with
  | nil => simp
  | cons o items ih =>
      rw [List.foldl_cons, ih]
      by_cases h : uidf o = u
      · rw [List.filter_cons_of_pos (by simp [h])]
        have hlast : ∀ (l : List α) (x : α), (x :: l).getLast? = l.getLast?.or (some x) := by
          intro l x
          cases l with
          | nil => simp
          | cons b bs =>
              rw [List.getLast?_cons_cons]
              rcases hg : (b :: bs).getLast? with _ | y
              · rw [List.getLast?_eq_none_iff] at hg
                simp at hg
              · simp [hg]
        rw [hlast, Option.or_assoc, oget_pyDictSet, if_pos h.symm]
        simp
      · rw [List.filter_cons_of_neg (by simp [h]), oget_pyDictSet,
          if_neg (fun h1 => h h1.symm)]

theorem dedupFirst_nodup (l : List String) : (dedupFirst l).Nodup := by
  induction l with
  | nil => simp [dedupFirst]
  | cons k rest ih =>
      show (k :: (dedupFirst rest).filter (fun x => decide (x ≠ k))).Nodup
      rw [List.nodup_cons]
      refine ⟨fun hc => ?_, ih.filter _⟩
      have := List.of_mem_filter hc
      simp at this

theorem dedupFirst_sublist (l : List String) : (dedupFirst l).Sublist l := by
  induction l with
  | nil => simp [dedupFirst]
  | cons k rest ih =>
      show (k :: (dedupFirst rest).filter (fun x => decide (x ≠ k))).Sublist (k :: rest)
      exact List.Sublist.cons₂ k ((List.filter_sublist (dedupFirst rest)).trans ih)

theorem dedupFirst_eq_self_of_nodup (l : List String) (h : l.Nodup) :
    dedupFirst l = l := by
  induction l with
  | nil => rfl
  | cons k rest ih =>
      rw [List.nodup_cons] at h
      show k :: (dedupFirst rest).filter (fun x => decide (x ≠ k)) = k :: rest
      rw [ih h.2]
      congr 1
      apply List.filter_eq_self.2
      intro a ha
      simp only [decide_eq_true_eq]
      exact fun hc => h.1 (hc ▸ ha)

theorem nodup_of_dedupFirst_length (l : List String)
    (h : (dedupFirst l).length = l.length) : l.Nodup := by
  have heq : dedupFirst l = l := (dedupFirst_sublist l).eq_of_length h
  rw [← heq]
  exact dedupFirst_nodup l

theorem pyDictFold_of_nodup {α : Type} (uidf : α → String) (items : List α)
    (d : List (String × α)) (hnd : (items.map uidf).Nodup)
    (hdis : ∀ o ∈ items, uidf o ∉ d.map Prod.fst) :
    items.foldl (fun d o => pyDictSet d (uidf o) o) d =
      d ++ items.map (fun o => (uidf o, o)) := by
  induction items generalizing d with
  | nil => simp
  | cons o items ih =>
      rw [List.map_cons, List.nodup_cons] at hnd
      rw [List.foldl_cons,
        pyDictSet_not_mem _ _ _ (hdis o (List.mem_cons_self _ _))]
      rw [ih _ hnd.2]
      · simp
      · intro o2 ho2
        rw [List.map_append]
        simp only [List.mem_append]
        push_neg
        refine ⟨hdis o2 (List.mem_cons_of_mem _ ho2), ?_⟩
        simp only [List.map_cons, List.map_nil, List.mem_singleton]
        exact fun hc => hnd.1 (hc ▸ List.mem_map_of_mem uidf ho2)

theorem mkISet_index {α : Type} (uidf : α → String) (items : List α) :
    (mkISet uidf items).index = pyDictOf uidf items := by
  unfold mkISet
  split <;> rfl

theorem keys_pyDictOf {α : Type} (uidf : α → String) (items : List α) :
    (pyDictOf uidf items).map Prod.fst = dedupFirst (items.map uidf) := by
  unfold pyDictOf
  rw [keys_pyDictFold]
  simp

theorem mkISet_list {α : Type} (uidf : α → String) (items : List α) :
    (mkISet uidf items).list = (pyDictOf uidf items).map Prod.snd := by
  unfold mkISet
  split
  · rfl
  · rename_i hlen
    push_neg at hlen
    have hkeys := keys_pyDictOf uidf items
    have hlen2 : (dedupFirst (items.map uidf)).length = (items.map uidf).length := by
      rw [← hkeys]
      simp only [List.length_map]
      omega
    have hnd : (items.map uidf).Nodup := nodup_of_dedupFirst_length _ hlen2
    show items = _
    unfold pyDictOf
    rw [pyDictFold_of_nodup uidf items [] hnd (by simp)]
    rw [List.nil_append, List.map_map,
      show (Prod.snd ∘ fun o : α => (uidf o, o)) = id from rfl, List.map_id]

theorem pyDictOf_snd_uid {α : Type} (uidf : α → String) (items : List α)
    (d : List (String × α)) (hd : ∀ p ∈ d, uidf p.2 = p.1) :
    ∀ p ∈ items.foldl (fun d o => pyDictSet d (uidf o) o) d, uidf p.2 = p.1 := by
  induction items generalizing d with
  | nil => exact hd
  | cons o items ih =>
      rw [List.foldl_cons]
      apply ih
      intro p hp
      induction d with
      | nil =>
          simp only [pyDictSet, List.mem_singleton] at hp
          rw [hp]
      | cons q d ihd =>
          obtain ⟨k1, o1⟩ := q
          by_cases h1 : k1 = uidf o
          · simp only [pyDictSet, if_pos h1, List.mem_cons] at hp
            rcases hp with hp | hp
            · rw [hp]
            · exact hd _ (List.mem_cons_of_mem _ hp)
          · simp only [pyDictSet, if_neg h1, List.mem_cons] at hp
            rcases hp with hp | hp
            · rw [hp]
              exact hd _ (hp ▸ List.mem_cons_self _ _)
            · exact ihd (fun q hq => hd q (List.mem_cons_of_mem _ hq)) hp

theorem oget_eq_none_iff {α : Type} (d : List (String × α)) (k : String) :
    oget d k = none ↔ k ∉ d.map Prod.fst := by
  induction d with
  | nil => simp [oget]
  | cons p d ih =>
      obtain ⟨k1, v1⟩ := p
      rw [oget_cons]
      by_cases h : k1 = k
      · subst h
        simp
      · rw [if_neg h, ih, List.map_cons]
        constructor
        · intro hk hc
          rcases List.mem_cons.1 hc with h2 | h2
          · exact h h2.symm
          · exact hk h2
        · intro hk h2
          exact hk (List.mem_cons_of_mem _ h2)

theorem oget_isSome_iff {α : Type} (d : List (String × α)) (k : String) :
    (oget d k).isSome = true ↔ k ∈ d.map Prod.fst := by
  have h := oget_eq_none_iff d k
  cases hd : oget d k with
  | none => simpa using h.1 hd
  | some v =>
      simp only [Option.isSome_some, true_iff]
      by_contra hk
      have := (h.2 hk).symm.trans hd
      simp at this

theorem oget_tdel (t : Table) (u u0 : String) :
    oget (tdel t u) u0 = if u0 = u then none else oget t u0 := by
  induction t with
  | nil => simp [tdel, oget]
  | cons p t ih =>
      obtain ⟨u1, b1⟩ := p
      by_cases h1 : u1 = u
      · subst h1
        have hst : tdel ((u1, b1) :: t) u1 = tdel t u1 := by
          simp [tdel, List.filter_cons]
        rw [hst, ih]
        by_cases h0 : u0 = u1
        · simp [h0]
        · simp only [oget_cons, if_neg h0, if_neg (fun h2 : u1 = u0 => h0 h2.symm)]
      · have hst : tdel ((u1, b1) :: t) u = (u1, b1) :: tdel t u := by
          simp [tdel, List.filter_cons, h1]
        rw [hst, oget_cons, oget_cons]
        by_cases h2 : u1 = u0
        · subst h2
          simp [fun h3 : u1 = u => h1 h3, Ne.symm h1]
        · simp [h2, ih]

theorem oget_mem_pair {α : Type} (d : List (String × α)) (k : String) (o : α)
    (h : oget d k = some o) : (k, o) ∈ d := by
  induction d with
  | nil => simp [oget] at h
  | cons p d ih =>
      obtain ⟨k1, o1⟩ := p
      rw [oget_cons] at h
      by_cases h1 : k1 = k
      · rw [if_pos h1] at h
        subst h1
        obtain rfl : o1 = o := by injection h
        exact List.mem_cons_self _ _
      · rw [if_neg h1] at h
        exact List.mem_cons_of_mem _ (ih h)

theorem pyDictOf_of_nodup {α : Type} (uidf : α → String) (items : List α)
    (hnd : (items.map uidf).Nodup) :
    pyDictOf uidf items = items.map (fun o => (uidf o, o)) := by
  unfold pyDictOf
  rw [pyDictFold_of_nodup uidf items [] hnd (by simp), List.nil_append]

theorem mkISet_list_of_nodup {α : Type} (uidf : α → String) (items : List α)
    (hnd : (items.map uidf).Nodup) : (mkISet uidf items).list = items := by
  rw [mkISet_list, pyDictOf_of_nodup uidf items hnd, List.map_map,
    show (Prod.snd ∘ fun o : α => (uidf o, o)) = id from rfl, List.map_id]

theorem oget_map_pair {α : Type} (uidf : α → String) (items : List α) (u : String) :
    oget (items.map (fun o => (uidf o, o))) u =
      items.find? (fun o => decide (uidf o = u)) := by
  induction items with
  | nil => rfl
  | cons o rest ih =>
      rw [List.map_cons, oget_cons, List.find?_cons]
      by_cases h : uidf o = u
      · rw [if_pos h]
        simp [h]
      · rw [if_neg h]
        simp [h, ih]

theorem find?_map_enum {α : Type} (uidf : α → String) (ch : String → α)
    (enum : List String) (hsel : ∀ j ∈ enum, uidf (ch j) = j) (k : String) :
    (enum.map ch).find? (fun o => decide (uidf o = k)) =
      if k ∈ enum then some (ch k) else none := by
  induction enum with
  | nil => simp
  | cons j rest ih =>
      have hj := hsel j (List.mem_cons_self _ _)
      rw [List.map_cons, List.find?_cons]
      by_cases h : j = k
      · subst h
        simp [hj]
      · have hd : decide (uidf (ch j) = k) = false := by
          simp [hj, h]
        rw [hd]
        show List.find? (fun o => decide (uidf o = k)) (List.map ch rest) =
          if k ∈ j :: rest then some (ch k) else none
        rw [ih (fun x hx => hsel x (List.mem_cons_of_mem _ hx))]
        by_cases hm : k ∈ rest
        · rw [if_pos hm, if_pos (List.mem_cons_of_mem _ hm)]
        · rw [if_neg hm,
            if_neg (fun hc : k ∈ j :: rest =>
              (List.mem_cons.1 hc).elim (fun h2 => h h2.symm) hm)]

/-- The central behaviour of `IndexedSet.__or__`, for any admissible iteration
order of the unordered key set: the result enumerates exactly `enum`, one
element per uid, choosing the left operand's element when the uid is present
there and the right operand's element otherwise. -/
theorem orOp_spec {α : Type} (uidf : α → String) (dflt : α) (A B : ISet α)
    (enum : List String)
    (hA : wfISet uidf A = true) (hB : wfISet uidf B = true)
    (hE : validEnum A B enum = true) :
    ((orOp uidf dflt A B enum).list.map uidf = enum) ∧
    ((orOp uidf dflt A B enum).list.length = enum.length) ∧
    (∀ k, oget (orOp uidf dflt A B enum).index k =
      if omem A.index k = true then oget A.index k else oget B.index k) := by
  unfold validEnum at hE
  rw [Bool.and_eq_true, Bool.and_eq_true, Bool.and_eq_true] at hE
  obtain ⟨⟨⟨hnd, hmem⟩, hsubA⟩, hsubB⟩ := hE
  have hnd' : enum.Nodup := of_decide_eq_true hnd
  have hmem' : ∀ j ∈ enum, omem A.index j = true ∨ omem B.index j = true := by
    intro j hj
    have := List.all_eq_true.1 hmem j hj
    rcases Bool.or_eq_true_iff.1 this with h | h
    · exact Or.inl h
    · exact Or.inr h
  have hsubA' : ∀ k, omem A.index k = true → k ∈ enum := by
    intro k hk
    have hk2 := Option.isSome_iff_exists.1 hk
    obtain ⟨o, ho⟩ := hk2
    have := oget_mem_pair _ _ _ ho
    have h2 := List.all_eq_true.1 hsubA k (List.mem_map_of_mem Prod.fst this)
    exact of_decide_eq_true h2
  have hsubB' : ∀ k, omem B.index k = true → k ∈ enum := by
    intro k hk
    obtain ⟨o, ho⟩ := Option.isSome_iff_exists.1 hk
    have := oget_mem_pair _ _ _ ho
    have h2 := List.all_eq_true.1 hsubB k (List.mem_map_of_mem Prod.fst this)
    exact of_decide_eq_true h2
  have hwA : ∀ k o, oget A.index k = some o → uidf o = k := by
    intro k o ho
    have hm := oget_mem_pair _ _ _ ho
    have := List.all_eq_true.1 hA _ hm
    exact of_decide_eq_true this
  have hwB : ∀ k o, oget B.index k = some o → uidf o = k := by
    intro k o ho
    have hm := oget_mem_pair _ _ _ ho
    have := List.all_eq_true.1 hB _ hm
    exact of_decide_eq_true this
  have hyield : conditionalyield dflt enum A.index B.index =
      enum.map (fun k =>
        match oget A.index k with
        | some o => o
        | none => (oget B.index k).getD dflt) := rfl
  have hsel : ∀ j ∈ enum,
      uidf ((fun k =>
        match oget A.index k with
        | some o => o
        | none => (oget B.index k).getD dflt) j) = j := by
    intro j hj
    show uidf (match oget A.index j with
      | some o => o
      | none => (oget B.index j).getD dflt) = j
    rcases hget : oget A.index j with _ | o
    · rcases hmem' j hj with h | h
      · unfold omem at h
        rw [hget] at h
        simp at h
      · obtain ⟨o2, ho2⟩ := Option.isSome_iff_exists.1 h
        rw [ho2]
        exact hwB j o2 ho2
    · exact hwA j o hget
  have hmapuid : (conditionalyield dflt enum A.index B.index).map uidf = enum := by
    rw [hyield, List.map_map]
    have := List.map_congr_left (l := enum)
      (f := uidf ∘ (fun k =>
        match oget A.index k with
        | some o => o
        | none => (oget B.index k).getD dflt))
      (g := id) hsel
    rw [this, List.map_id]
  have hndyield : ((conditionalyield dflt enum A.index B.index).map uidf).Nodup := by
    rw [hmapuid]; exact hnd'
  refine ⟨?_, ?_, ?_⟩
  · show (mkISet uidf _).list.map uidf = enum
    rw [mkISet_list_of_nodup _ _ hndyield, hmapuid]
  · show (mkISet uidf _).list.length = enum.length
    rw [mkISet_list_of_nodup _ _ hndyield, hyield, List.length_map]
  · intro k
    show oget (mkISet uidf _).index k = _
    rw [mkISet_index, pyDictOf_of_nodup _ _ hndyield, oget_map_pair,
      hyield, find?_map_enum uidf _ enum hsel k]
    by_cases hk : k ∈ enum
    · rw [if_pos hk]
      rcases hget : oget A.index k with _ | o
      · have hA0 : omem A.index k = false := by
          unfold omem; rw [hget]; rfl
        rw [hA0]
        simp only [Bool.false_eq_true, if_false]
        rcases hmem' k hk with h | h
        · rw [hA0] at h; exact absurd h (by simp)
        · obtain ⟨o2, ho2⟩ := Option.isSome_iff_exists.1 h
          rw [ho2]
          rfl
      · have hA1 : omem A.index k = true := by
          unfold omem; rw [hget]; rfl
        rw [hA1, if_pos rfl]
    · rw [if_neg hk]
      have hA0 : omem A.index k = false := by
        cases h : omem A.index k
        · rfl
        · exact absurd (hsubA' k h) hk
      have hB0 : omem B.index k = false := by
        cases h : omem B.index k
        · rfl
        · exact absurd (hsubB' k h) hk
      rw [hA0]
      simp only [Bool.false_eq_true, if_false]
      unfold omem at hB0
      exact (Option.not_isSome_iff_eq_none.1 (by simp [hB0])).symm

theorem collectSpec_nil (collect : Option Link) (links : List Link) :
    collectSpec [] collect links = collect.or links.head? := by
  unfold collectSpec
  cases collect <;> simp [Option.or]

theorem parsechainAux_collect (toks : List String) :
    ∀ (seen param : List String) (links : List Link) (collect : Option Link)
      (res : List Link) (copt : Option Link),
      parsechainAux toks seen param links collect = .ok (res, copt) →
      copt = collectSpec toks collect links := by
  induction toks with
  | nil =>
      intro seen param links collect res copt h
      simp only [parsechainAux] at h
      obtain ⟨-, h2⟩ : links.reverse = res ∧ collect.or links.head? = copt := by
        injection h with h1
        injection h1 with ha hb
        exact ⟨ha, hb⟩
      rw [← h2, collectSpec_nil]
  | cons p rest ih =>
      intro seen param links collect res copt h
      simp only [parsechainAux] at h
      rcases htp : tokParse p with _ | ⟨link, b⟩
      · rw [htp] at h
        simp at h
      · rw [htp] at h
        have hcoll : tokenCollectible p = b := by
          unfold tokenCollectible
          rw [htp]
          cases b <;> rfl
        cases b with
        | false =>
            have h2 : (if link.lalias ∈ seen then
                  (Except.error (PErr.dupAlias link.lalias) :
                    Except PErr (List Link × Option Link))
                else parsechainAux rest (link.lalias :: seen) param
                  (link :: links) collect) = .ok (res, copt) := h
            by_cases hseen : link.lalias ∈ seen
            · rw [if_pos hseen] at h2
              simp at h2
            · rw [if_neg hseen] at h2
              have hIH := ih _ _ _ _ _ _ h2
              unfold collectSpec
              rw [List.filter_cons_of_neg (by simp [hcoll])]
              unfold collectSpec at hIH
              by_cases hrest : rest = []
              · subst hrest
                simp only [List.filter_nil, List.getLast?_nil] at hIH ⊢
                cases collect with
                | some c => exact hIH
                | none =>
                    simp only at hIH ⊢
                    rw [hIH]
                    show (link :: links).head? = linkOfTok p
                    unfold linkOfTok
                    rw [htp]
                    rfl
              · have hq : ∃ q, rest.getLast? = some q := by
                  cases hl : rest.getLast? with
                  | none => exact absurd (List.getLast?_eq_none_iff.1 hl) hrest
                  | some q => exact ⟨q, rfl⟩
                obtain ⟨q, hq⟩ := hq
                have hlast : (p :: rest).getLast? = some q := by
                  cases rest with
                  | nil => exact absurd rfl hrest
                  | cons a as => rw [List.getLast?_cons_cons]; exact hq
                rw [hlast]
                rw [hq] at hIH
                exact hIH
        | true =>
            have h2 : (match consumeExtras link.extra param with
                | Except.error e =>
                    (Except.error e : Except PErr (List Link × Option Link))
                | Except.ok param2 =>
                    if link.lalias ∈ seen then .error (.dupAlias link.lalias)
                    else parsechainAux rest (link.lalias :: seen) param2
                      (link :: links) (some link)) = .ok (res, copt) := h
            rcases hce : consumeExtras link.extra param with e | param2
            · rw [hce] at h2
              simp at h2
            · rw [hce] at h2
              have h3 : (if link.lalias ∈ seen then
                    (Except.error (PErr.dupAlias link.lalias) :
                      Except PErr (List Link × Option Link))
                  else parsechainAux rest (link.lalias :: seen) param2
                    (link :: links) (some link)) = .ok (res, copt) := h2
              by_cases hseen : link.lalias ∈ seen
              · rw [if_pos hseen] at h3
                simp at h3
              · rw [if_neg hseen] at h3
                have hIH := ih _ _ _ _ _ _ h3
                unfold collectSpec
                rw [List.filter_cons_of_pos (by simp [hcoll])]
                unfold collectSpec at hIH
                have hlink : linkOfTok p = some link := by
                  unfold linkOfTok
                  rw [htp]
                  rfl
                cases hf : rest.filter tokenCollectible with
                | nil =>
                    rw [hf] at hIH
                    simp only [List.getLast?_nil] at hIH
                    simp only [List.getLast?_singleton]
                    rw [hlink]
                    exact hIH
                | cons q qs =>
                    rw [hf] at hIH
                    rw [List.getLast?_cons_cons]
                    exact hIH

/-- C3 counterexample: a chain with two square-bracketed (collected) tokens
does *not* raise a pattern error — `_parsechain` silently overwrites
`collect`, so the chain `"[a] [b]"` parses successfully and collects the
rightmost bracketed token `b`. -/
theorem claim_C3_counterexample :
    parsechain ["[a]", "[b]"] [] =
      .ok ([⟨.node, "a", none, []⟩, ⟨.node, "b", none, []⟩],
        some ⟨.node, "b", none, []⟩) := rfl

/-- C3 (amended): for every chain whose tokens parse successfully, the
collected link is the last square-bracketed token's link when at least one
bracketed token exists (with no error raised for several bracketed tokens),
and the last token's link when there is none. -/
theorem claim_C3_collect_amended (toks param : List String) (links : List Link)
    (copt : Option Link) (hne : toks ≠ [])
    (h : parsechain toks param = .ok (links, copt)) :
    copt = (match (toks.filter tokenCollectible).getLast? with
      | some p => linkOfTok p
      | none => linkOfTok (toks.getLast (by simpa using hne))) := by
  have := parsechainAux_collect toks [] param [] none links copt h
  rw [this]
  unfold collectSpec
  cases hf : (toks.filter tokenCollectible).getLast? with
  | some p => rfl
  | none =>
      have h1 : toks.getLast? = some (toks.getLast (by simpa using hne)) :=
        List.getLast?_eq_getLast toks (by simpa using hne)
      rw [h1]

/-- Witness for the amended C3 at a concrete two-token chain. -/
theorem claim_C3_witness :
    (["(x)", "[y]"] : List String) ≠ [] ∧
    parsechain ["(x)", "[y]"] [] =
      .ok ([⟨.node, "x", none, []⟩, ⟨.node, "y", none, []⟩],
        some ⟨.node, "y", none, []⟩) ∧
    (some (⟨.node, "y", none, []⟩ : Link) =
      (match ((["(x)", "[y]"] : List String).filter tokenCollectible).getLast? with
       | some p => linkOfTok p
       | none => linkOfTok ((["(x)", "[y]"] : List String).getLast (by decide)))) :=
  ⟨by decide, rfl,
    claim_C3_collect_amended ["(x)", "[y]"]  []
      [⟨.node, "x", none, []⟩, ⟨.node, "y", none, []⟩]
      (some ⟨.node, "y", none, []⟩) (by decide) rfl⟩

/-- C2 counterexample: the source computes the union key set as
`self._index.keys() | other._index.keys()`, an unordered Python set, and
iterates it.  For `A = {a}`, `B = {b}`, the iteration order `["b", "a"]` is an
admissible order of the two-element key set, and the resulting union is
`[b, a]`, not A's elements first — refuting the claimed ordering. -/
theorem claim_C2_counterexample :
    validEnum (mkISet Obj.uid [⟨"a", 0⟩]) (mkISet Obj.uid [⟨"b", 0⟩])
      ["b", "a"] = true ∧
    ¬ ((orOp Obj.uid ⟨"", 0⟩ (mkISet Obj.uid [⟨"a", 0⟩])
        (mkISet Obj.uid [⟨"b", 0⟩]) ["b", "a"]).list =
      (mkISet Obj.uid [⟨"a", 0⟩]).list ++
        ((mkISet Obj.uid [⟨"b", 0⟩]).list.filter
          (fun o => !(omem (mkISet Obj.uid [⟨"a", 0⟩]).index o.uid)))) ∧
    (orOp Obj.uid ⟨"", 0⟩ (mkISet Obj.uid [⟨"a", 0⟩])
      (mkISet Obj.uid [⟨"b", 0⟩]) ["b", "a"]).list = [⟨"b", 0⟩, ⟨"a", 0⟩] := by
  decide

/-- C2 (amended): the union `A | B` contains exactly one element per uid of
the key union, drawn from `A` when the uid is in `A` and from `B` otherwise,
and its length is the number of distinct uids; but its order is the iteration
order of the unordered key set (the parameter `enum`), not necessarily A's
insertion order followed by B's. -/
theorem claim_C2_union_amended (A B : ISet Obj) (enum : List String)
    (hA : wfISet Obj.uid A = true) (hB : wfISet Obj.uid B = true)
    (hE : validEnum A B enum = true) :
    ((orOp Obj.uid ⟨"", 0⟩ A B enum).list.map Obj.uid = enum) ∧
    ((orOp Obj.uid ⟨"", 0⟩ A B enum).list.length = enum.length) ∧
    (∀ k, oget (orOp Obj.uid ⟨"", 0⟩ A B enum).index k =
      if omem A.index k = true then oget A.index k else oget B.index k) :=
  orOp_spec Obj.uid ⟨"", 0⟩ A B enum hA hB hE

/-- Witness for the amended C2 at concrete sets and enumeration. -/
theorem claim_C2_witness :
    (wfISet Obj.uid (mkISet Obj.uid [⟨"a", 0⟩]) = true) ∧
    (wfISet Obj.uid (mkISet Obj.uid [⟨"b", 7⟩]) = true) ∧
    (validEnum (mkISet Obj.uid [⟨"a", 0⟩]) (mkISet Obj.uid [⟨"b", 7⟩])
      ["b", "a"] = true) ∧
    (((orOp Obj.uid ⟨"", 0⟩ (mkISet Obj.uid [⟨"a", 0⟩])
        (mkISet Obj.uid [⟨"b", 7⟩]) ["b", "a"]).list.map Obj.uid = ["b", "a"]) ∧
      ((orOp Obj.uid ⟨"", 0⟩ (mkISet Obj.uid [⟨"a", 0⟩])
        (mkISet Obj.uid [⟨"b", 7⟩]) ["b", "a"]).list.length =
          (["b", "a"] : List String).length) ∧
      (∀ k, oget (orOp Obj.uid ⟨"", 0⟩ (mkISet Obj.uid [⟨"a", 0⟩])
          (mkISet Obj.uid [⟨"b", 7⟩]) ["b", "a"]).index k =
        if omem (mkISet Obj.uid [⟨"a", 0⟩]).index k = true
        then oget (mkISet Obj.uid [⟨"a", 0⟩]).index k
        else oget (mkISet Obj.uid [⟨"b", 7⟩]).index k)) :=
  ⟨by decide, by decide, by decide,
    claim_C2_union_amended _ _ _ (by decide) (by decide) (by decide)⟩

/-- C9 counterexample: `IndexedSet.__init__` builds the index with a dict
comprehension, so a later duplicate *overwrites* the stored object; for
`[⟨u,1⟩, ⟨u,2⟩]` the set keeps `⟨u,2⟩` (the last occurrence), not the
first-occurring item claimed. -/
theorem claim_C9_counterexample :
    (mkISet Obj.uid [⟨"u", 1⟩, ⟨"u", 2⟩]).list = [⟨"u", 2⟩] ∧
    ¬ (mkISet Obj.uid [⟨"u", 1⟩, ⟨"u", 2⟩]).list = [⟨"u", 1⟩] := by
  decide

/-- C9 (amended): constructing an `IndexedSet` from an iterable with
duplicated uids succeeds; for each uid the *last*-occurring item is kept, at
the position of the uid's *first* occurrence, with first-occurrence order
preserved; the list and the index stay in sync. -/
theorem claim_C9_init_amended (items : List Obj)
    (hdup : ¬ (items.map Obj.uid).Nodup) :
    ((mkISet Obj.uid items).list.map Obj.uid = dedupFirst (items.map Obj.uid)) ∧
    (∀ u, oget (mkISet Obj.uid items).index u =
      (items.filter (fun o => decide (o.uid = u))).getLast?) ∧
    ((mkISet Obj.uid items).list = (mkISet Obj.uid items).index.map Prod.snd) := by
  refine ⟨?_, ?_, ?_⟩
  · rw [mkISet_list, List.map_map]
    have hsnd := pyDictOf_snd_uid Obj.uid items [] (by simp)
    have hcong : (pyDictOf Obj.uid items).map (Obj.uid ∘ Prod.snd) =
        (pyDictOf Obj.uid items).map Prod.fst := by
      apply List.map_congr_left
      intro p hp
      exact hsnd p hp
    rw [hcong, keys_pyDictOf]
  · intro u
    rw [mkISet_index]
    unfold pyDictOf
    rw [oget_pyDictFold, oget_nil, Option.or_none]
  · rw [mkISet_list, mkISet_index]

/-- Witness for the amended C9 at a concrete duplicate-bearing list. -/
theorem claim_C9_witness :
    (¬ (([⟨"u", 1⟩, ⟨"u", 2⟩] : List Obj).map Obj.uid).Nodup) ∧
    (((mkISet Obj.uid [⟨"u", 1⟩, ⟨"u", 2⟩]).list.map Obj.uid =
        dedupFirst (([⟨"u", 1⟩, ⟨"u", 2⟩] : List Obj).map Obj.uid)) ∧
      (∀ u, oget (mkISet Obj.uid [⟨"u", 1⟩, ⟨"u", 2⟩]).index u =
        (([⟨"u", 1⟩, ⟨"u", 2⟩] : List Obj).filter
          (fun o => decide (o.uid = u))).getLast?) ∧
      ((mkISet Obj.uid [⟨"u", 1⟩, ⟨"u", 2⟩]).list =
        (mkISet Obj.uid [⟨"u", 1⟩, ⟨"u", 2⟩]).index.map Prod.snd)) :=
  ⟨by decide, claim_C9_init_amended _ (by decide)⟩

/-- C4 counterexample: `Graph.exists` consults the nodes table *and then the
edges table*, so an edge whose `startuid` is the uid of an existing *edge*
row (here `E`), absent from `nodes`, saves successfully and changes the
edges table — no `MissingNodeRef` is raised. -/
theorem claim_C4_counterexample :
    omem exDB.nodes "E" = false ∧
    strAt itemDangling.data "startuid" = "E" ∧
    saveEdgeFn exDB itemDangling false none true =
      .ok ⟨exDB.nodes, [("E", blobE), ("F", itemDangling.data)],
        [(0, mkAdd itemDangling.data none)], 1⟩ ∧
    ¬ ([("E", blobE), ("F", itemDangling.data)] : Table) = exDB.edges :=
  ⟨by decide, by decide, rfl, by decide⟩

/-- C4 (amended): an edge save (on a changed or forced edge) whose `startuid`
or `enduid` is the uid of no existing row in the nodes table *nor in the
edges table* raises `MissingNodeRef`, with no state change (the error return
carries no modified database). -/
theorem claim_C4_missing_ref_amended (db : DB) (it : Item) (force : Bool)
    (batch : Option String) (setchange : Bool)
    (hch : force = true ∨ it.changedkeys ≠ [])
    (hmiss : (omem db.nodes (strAt it.data "startuid") = false ∧
        omem db.edges (strAt it.data "startuid") = false) ∨
      (omem db.nodes (strAt it.data "enduid") = false ∧
        omem db.edges (strAt it.data "enduid") = false)) :
    saveEdgeFn db it force batch setchange = .error .missingNodeRef := by
  unfold saveEdgeFn
  have hguard : (!force && it.changedkeys.isEmpty) = false := by
    rcases hch with h | h
    · rw [h]; rfl
    · have : it.changedkeys.isEmpty = false := by
        cases hk : it.changedkeys with
        | nil => exact absurd hk h
        | cons a l => rfl
      rw [this, Bool.and_false]
  rw [hguard]
  simp only [Bool.false_eq_true, if_false]
  rcases hs : dbExists db (strAt it.data "startuid") with _ | _
  · rfl
  · have hend : dbExists db (strAt it.data "enduid") = false := by
      rcases hmiss with ⟨h1, h2⟩ | ⟨h1, h2⟩
      · unfold dbExists at hs
        rw [h1, h2] at hs
        simp at hs
      · unfold dbExists
        rw [h1, h2]
        rfl
    rw [hend]
    rfl

/-- Witness for the amended C4: saving an edge whose startuid names no row
at all fails with `MissingNodeRef`. -/
theorem claim_C4_witness :
    ((false : Bool) = true ∨ (["uid"] : List String) ≠ []) ∧
    ((omem exDB.nodes "ZZ" = false ∧ omem exDB.edges "ZZ" = false) ∨
      (omem exDB.nodes "A" = false ∧ omem exDB.edges "A" = false)) ∧
    saveEdgeFn exDB
      ⟨[("uid", Val.vs "F"), ("kind", Val.vs "L"), ("startuid", Val.vs "ZZ"),
        ("enduid", Val.vs "A"), ("ctime", Val.vi 3), ("mtime", Val.vi 3)], ["uid"]⟩
      false none true = .error .missingNodeRef :=
  ⟨Or.inr (by decide), Or.inl ⟨by decide, by decide⟩,
    claim_C4_missing_ref_amended exDB
      ⟨[("uid", Val.vs "F"), ("kind", Val.vs "L"), ("startuid", Val.vs "ZZ"),
        ("enduid", Val.vs "A"), ("ctime", Val.vi 3), ("mtime", Val.vi 3)], ["uid"]⟩
      false none true (Or.inr (by decide)) (Or.inl ⟨by decide, by decide⟩)⟩

theorem filterMap_single_support (f : String → Option Val) (k0 : String)
    (hf : ∀ k, k ≠ k0 → f k = none) (ks : List String) (hnd : ks.Nodup) :
    ks.filterMap (fun k => (f k).map (fun v => (k, v))) =
      if k0 ∈ ks then
        (match f k0 with
         | some v => [(k0, v)]
         | none => [])
      else [] := by
  induction ks with
  | nil => simp
  | cons k ks ih =>
      rw [List.nodup_cons] at hnd
      by_cases hk : k = k0
      · subst hk
        have htail : ks.filterMap (fun k => (f k).map (fun v => (k, v))) = [] := by
          rw [ih hnd.2, if_neg hnd.1]
        cases hfk : f k with
        | none =>
            simp only [List.filterMap_cons, hfk, Option.map_none']
            rw [htail, if_pos (List.mem_cons_self _ _)]
        | some v =>
            simp only [List.filterMap_cons, hfk, Option.map_some']
            rw [htail, if_pos (List.mem_cons_self _ _)]
      · have hfk : f k = none := hf k hk
        simp only [List.filterMap_cons, hfk, Option.map_none']
        rw [ih hnd.2]
        by_cases hm : k0 ∈ ks
        · rw [if_pos hm, if_pos (List.mem_cons_of_mem _ hm)]
        · rw [if_neg hm,
            if_neg (fun hc : k0 ∈ k :: ks =>
              (List.mem_cons.1 hc).elim (fun h2 => hk h2.symm) hm)]

theorem diff_mtime_only (old data : Dict) (ck : List String)
    (hmtold : dmem old "mtime" = true) (hmtnew : dmem data "mtime" = true)
    (honly : ∀ k ∈ ck, isEph k = false → k ≠ "mtime" → dget old k = dget data k) :
    diff old data ck = ([], []) := by
  have hAn : ∀ k, k ≠ "mtime" → addSpec old data ck k = none := by
    intro k hk
    unfold addSpec
    cases heph : isEph k with
    | true => simp
    | false =>
        simp only [Bool.false_eq_true, if_false]
        by_cases hck : k ∈ ck
        · rw [if_pos hck, honly k hck heph hk]
          cases dget data k with
          | none => rfl
          | some v => simp
        · rw [if_neg hck]
  have hRn : ∀ k, k ≠ "mtime" → removeSpec old data ck k = none := by
    intro k hk
    unfold removeSpec
    cases heph : isEph k with
    | true => simp
    | false =>
        simp only [Bool.false_eq_true, if_false]
        by_cases hck : k ∈ ck
        · rw [if_pos hck, honly k hck heph hk]
          cases dget data k with
          | none => rfl
          | some v => simp
        · rw [if_neg hck]
  have hU : diffRaw old data ck =
      ((dkeys old ++ dkeys data).dedup.filterMap
        (fun k => (addSpec old data ck k).map (fun v => (k, v))),
       (dkeys old ++ dkeys data).dedup.filterMap
        (fun k => (removeSpec old data ck k).map (fun v => (k, v)))) := by
    unfold diffRaw
    rw [foldl_diffStep]
    simp
  have hmemU : "mtime" ∈ (dkeys old ++ dkeys data).dedup := by
    rw [List.mem_dedup, List.mem_append]
    left
    unfold dkeys
    rw [List.mem_dedup]
    exact (dget_isSome_iff old "mtime").1 hmtold
  have hA := filterMap_single_support (addSpec old data ck) "mtime" hAn
    (dkeys old ++ dkeys data).dedup (List.nodup_dedup _)
  have hR := filterMap_single_support (removeSpec old data ck) "mtime" hRn
    (dkeys old ++ dkeys data).dedup (List.nodup_dedup _)
  rw [if_pos hmemU] at hA hR
  obtain ⟨vo, hgo⟩ := Option.isSome_iff_exists.1 hmtold
  obtain ⟨vd, hgd⟩ := Option.isSome_iff_exists.1 hmtnew
  have hiff : (addSpec old data ck "mtime").isSome =
      (removeSpec old data ck "mtime").isSome := by
    unfold addSpec removeSpec
    rw [hgo, hgd]
    have heph : isEph "mtime" = false := by decide
    rw [heph]
    simp only [Bool.false_eq_true, if_false]
    by_cases hck : "mtime" ∈ ck
    · rw [if_pos hck, if_pos hck]
      by_cases hv : vo = vd
      · simp [hv]
      · simp [hv]
    · rw [if_neg hck, if_neg hck]
  rcases haddm : addSpec old data ck "mtime" with _ | va <;>
    rcases hremm : removeSpec old data ck "mtime" with _ | vr
  · rw [haddm] at hA
    rw [hremm] at hR
    have hA2 : (dkeys old ++ dkeys data).dedup.filterMap
        (fun k => (addSpec old data ck k).map (fun v => (k, v))) = [] := hA
    have hR2 : (dkeys old ++ dkeys data).dedup.filterMap
        (fun k => (removeSpec old data ck k).map (fun v => (k, v))) = [] := hR
    have hdr : diffRaw old data ck = ([], []) := by
      rw [hU, hA2, hR2]
    show (if mtimeOnly (diffRaw old data ck) then (([], []) : Dict × Dict)
      else diffRaw old data ck) = ([], [])
    rw [hdr]
    rfl
  · rw [haddm, hremm] at hiff
    simp at hiff
  · rw [haddm, hremm] at hiff
    simp at hiff
  · rw [haddm] at hA
    rw [hremm] at hR
    have hA2 : (dkeys old ++ dkeys data).dedup.filterMap
        (fun k => (addSpec old data ck k).map (fun v => (k, v))) =
        [("mtime", va)] := hA
    have hR2 : (dkeys old ++ dkeys data).dedup.filterMap
        (fun k => (removeSpec old data ck k).map (fun v => (k, v))) =
        [("mtime", vr)] := hR
    have hdr : diffRaw old data ck = ([("mtime", va)], [("mtime", vr)]) := by
      rw [hU, hA2, hR2]
    have hone : mtimeOnly ([("mtime", va)], [("mtime", vr)]) = true := rfl
    show (if mtimeOnly (diffRaw old data ck) then (([], []) : Dict × Dict)
      else diffRaw old data ck) = ([], [])
    rw [hdr, hone]
    rfl

/-- C5: a save with `setchange=true` whose only difference from the persisted
state among the dirty, non-underscore keys is the value of `mtime` appends no
change record — for a node save, and for an edge save whenever it returns
(the diff reduces to the suppressed mtime-only case, so `addchange` writes
nothing). -/
theorem claim_C5_mtime_only_save (db : DB) (it : Item) (force : Bool)
    (batch : Option String) (fl : Bool) (old : Dict)
    (hfound : getuid db (uidOf it.data) = some (fl, old))
    (hmtold : dmem old "mtime" = true) (hmtnew : dmem it.data "mtime" = true)
    (honly : ∀ k ∈ it.changedkeys, isEph k = false → k ≠ "mtime" →
      dget old k = dget it.data k) :
    ((saveNodeFn db it force batch true).changes = db.changes) ∧
    (∀ r, saveEdgeFn db it force batch true = .ok r → r.changes = db.changes) := by
  have hdiff := diff_mtime_only old it.data it.changedkeys hmtold hmtnew honly
  have hmod : mkModify old it.data it.changedkeys batch = none := by
    unfold mkModify
    rw [hdiff]
    rfl
  constructor
  · unfold saveNodeFn
    cases hguard : (!force && it.changedkeys.isEmpty) with
    | true => rfl
    | false =>
        simp only [Bool.false_eq_true, if_false]
        rw [hfound]
        show (appendChange
            { db with nodes := pyDictSet db.nodes (uidOf it.data) (cleandata it.data) }
            (mkModify old it.data it.changedkeys batch)).changes = db.changes
        rw [hmod]
        rfl
  · intro r hr
    unfold saveEdgeFn at hr
    cases hguard : (!force && it.changedkeys.isEmpty) with
    | true =>
        rw [hguard] at hr
        simp only [if_true] at hr
        injection hr with h2
        rw [← h2]
    | false =>
        rw [hguard] at hr
        simp only [Bool.false_eq_true, if_false] at hr
        cases hs : dbExists db (strAt it.data "startuid") with
        | false =>
            rw [hs] at hr
            simp at hr
        | true =>
            rw [hs] at hr
            cases he : dbExists db (strAt it.data "enduid") with
            | false =>
                rw [he] at hr
                simp at hr
            | true =>
                rw [he] at hr
                simp only [Bool.not_true, Bool.false_eq_true, if_false] at hr
                rw [hfound] at hr
                have hr3 : Except.ok (appendChange
                    { db with edges := (pyDictSet db.edges (uidOf it.data) (cleandata it.data)) }
                    (mkModify old it.data it.changedkeys batch)) =
                    (Except.ok r : Except GErr DB) := hr
                rw [hmod] at hr3
                injection hr3 with h2
                rw [← h2]
                rfl

/-- Witness for C5: touching only `mtime` on the persisted node `A` and
saving appends nothing to the journal. -/
theorem claim_C5_witness :
    getuid exDB "A" = some (true, blobA) ∧
    dmem blobA "mtime" = true ∧
    dmem [("uid", Val.vs "A"), ("kind", Val.vs "P"), ("ctime", Val.vi 1),
      ("mtime", Val.vi 77)] "mtime" = true ∧
    ((saveNodeFn exDB
        ⟨[("uid", Val.vs "A"), ("kind", Val.vs "P"), ("ctime", Val.vi 1),
          ("mtime", Val.vi 77)], ["mtime"]⟩ false none true).changes =
      exDB.changes) := by
  refine ⟨by decide, by decide, by decide, ?_⟩
  have h := claim_C5_mtime_only_save exDB
    ⟨[("uid", Val.vs "A"), ("kind", Val.vs "P"), ("ctime", Val.vi 1),
      ("mtime", Val.vi 77)], ["mtime"]⟩ false none true blobA
    (by decide) (by decide) (by decide)
    (by
      intro k hk h1 h2
      exact absurd (by simpa using hk) h2)
  exact h.1

theorem oget_filterKeys {α : Type} (t : List (String × α)) (S : List String)
    (u0 : String) :
    oget (t.filter (fun p => decide (p.1 ∉ S))) u0 =
      if u0 ∈ S then none else oget t u0 := by
  induction t with
  | nil => simp [oget]
  | cons p t ih =>
      obtain ⟨u1, b1⟩ := p
      by_cases hm : u1 ∈ S
      · rw [List.filter_cons_of_neg (by simp [hm])]
        rw [ih]
        by_cases h0 : u0 ∈ S
        · rw [if_pos h0, if_pos h0]
        · have h2 : ¬ u1 = u0 := fun h => h0 (h ▸ hm)
          rw [if_neg h0, if_neg h0, oget_cons, if_neg h2]
      · rw [List.filter_cons_of_pos (by simp [hm])]
        rw [oget_cons, oget_cons]
        by_cases h2 : u1 = u0
        · subst h2
          rw [if_pos rfl, if_pos rfl, if_neg hm]
        · rw [if_neg h2, if_neg h2, ih]

theorem delRecs_cons (t : Table) (b : Option String) (s : Nat)
    (q : String × Val) (rest : List (String × Val)) :
    delRecs t b s (q :: rest) =
      (s, mkDel (dinsert ((oget t q.1).getD []) "mtime" q.2) b) ::
        delRecs t b (s + 1) rest := rfl

theorem delRecs_congr (t1 t2 : Table) (b : Option String) (s : Nat)
    (l : List (String × Val)) (h : ∀ q ∈ l, oget t1 q.1 = oget t2 q.1) :
    delRecs t1 b s l = delRecs t2 b s l := by
  induction l generalizing s with
  | nil => rfl
  | cons q rest ih =>
      unfold delRecs
      rw [h q (List.mem_cons_self _ _),
        ih (s + 1) (fun q2 hq2 => h q2 (List.mem_cons_of_mem _ hq2))]

theorem delRecs_batch (t : Table) (b : Option String) (s : Nat)
    (l : List (String × Val)) :
    ∀ q ∈ delRecs t b s l, q.2.batch = b := by
  induction l generalizing s with
  | nil => intro q hq; simp [delRecs] at hq
  | cons p rest ih =>
      intro q hq
      unfold delRecs at hq
      rcases List.mem_cons.1 hq with h | h
      · rw [h]; rfl
      · exact ih (s + 1) q h

theorem delRecs_length (t : Table) (b : Option String) (s : Nat)
    (l : List (String × Val)) :
    (delRecs t b s l).length = l.length := by
  induction l generalizing s with
  | nil => rfl
  | cons p rest ih =>
      unfold delRecs
      rw [List.length_cons, List.length_cons, ih (s + 1)]

/-- The incident-edge deletion loop of `Node.delete(disconnect=True)` with
`setchange=true`: for a duplicate-free list of present edge uids, the fold
removes exactly those rows and appends one batched deletion record per edge
(with the blob's `mtime` replaced by the deletion time). -/
theorem foldDelEdges (perm : List (String × Val)) (db : DB) (b : Option String)
    (hnd : (perm.map Prod.fst).Nodup)
    (hmem : ∀ q ∈ perm, omem db.edges q.1 = true)
    (hwf : ∀ p ∈ db.edges, uidOf p.2 = p.1) :
    perm.foldl (delEdgeStep b true) db =
      DB.mk db.nodes
        (db.edges.filter (fun p => decide (p.1 ∉ perm.map Prod.fst)))
        (db.changes ++ delRecs db.edges b db.nextId perm)
        (db.nextId + perm.length) := by
  induction perm generalizing db with
  | nil =>
      simp only [List.foldl_nil, List.map_nil, delRecs, List.append_nil,
        List.length_nil, Nat.add_zero]
      have hfe : db.edges.filter (fun p => decide (p.1 ∉ ([] : List String))) =
          db.edges := by
        apply List.filter_eq_self.2
        intro a _
        simp
      rw [hfe]
  | cons q rest ih =>
      have hq := hmem q (List.mem_cons_self _ _)
      obtain ⟨blob, hblob⟩ := Option.isSome_iff_exists.1 hq
      have huid : uidOf blob = q.1 := hwf _ (oget_mem_pair _ _ _ hblob)
      have hstep : delEdgeStep b true db q =
          DB.mk db.nodes (tdel db.edges q.1)
            (db.changes ++ [(db.nextId, mkDel (dinsert blob "mtime" q.2) b)])
            (db.nextId + 1) := by
        unfold delEdgeStep
        rw [hblob]
        show deleteEdgeFn db ⟨blob, []⟩ b true q.2 = _
        show appendChange
          (DB.mk db.nodes (tdel db.edges (uidOf blob)) db.changes db.nextId)
          (some (mkDel (dinsert blob "mtime" q.2) b)) = _
        rw [huid]
        rfl
      rw [List.foldl_cons, hstep]
      rw [List.map_cons, List.nodup_cons] at hnd
      have hmem2 : ∀ q2 ∈ rest,
          omem (tdel db.edges q.1) q2.1 = true := by
        intro q2 hq2
        unfold omem
        rw [oget_tdel,
          if_neg (fun hc : q2.1 = q.1 =>
            hnd.1 (hc ▸ List.mem_map_of_mem Prod.fst hq2))]
        exact hmem q2 (List.mem_cons_of_mem _ hq2)
      have hwf2 : ∀ p ∈ tdel db.edges q.1, uidOf p.2 = p.1 := by
        intro p hp
        exact hwf p (List.mem_of_mem_filter hp)
      rw [ih (DB.mk db.nodes (tdel db.edges q.1)
          (db.changes ++ [(db.nextId, mkDel (dinsert blob "mtime" q.2) b)])
          (db.nextId + 1)) hnd.2 hmem2 hwf2]
      have hrecs : delRecs (tdel db.edges q.1) b (db.nextId + 1) rest =
          delRecs db.edges b (db.nextId + 1) rest := by
        apply delRecs_congr
        intro q2 hq2
        rw [oget_tdel,
          if_neg (fun hc : q2.1 = q.1 =>
            hnd.1 (hc ▸ List.mem_map_of_mem Prod.fst hq2))]
      have hedges : (tdel db.edges q.1).filter
          (fun p => decide (p.1 ∉ rest.map Prod.fst)) =
          db.edges.filter
            (fun p => decide (p.1 ∉ (q :: rest).map Prod.fst)) := by
        unfold tdel
        rw [List.filter_filter]
        apply List.filter_congr
        intro p _
        rw [List.map_cons]
        by_cases h1 : p.1 = q.1
        · simp [h1]
        · by_cases h2 : p.1 ∈ rest.map Prod.fst <;> simp [h1, h2]
      rw [hrecs, hedges]
      show DB.mk _ _ _ _ = DB.mk _ _ _ _
      congr 1
      · rw [List.append_assoc, delRecs_cons, hblob, Option.getD_some,
          List.singleton_append]
      · show db.nextId + 1 + rest.length = db.nextId + (q :: rest).length
        rw [List.length_cons]
        omega

/-- C6: deleting a node with at least one incident edge and
`disconnect=false` raises `StillConnected` and deletes nothing; with
`disconnect=true` the node and exactly its incident edges are removed, and
(with `setchange=true`) every appended change record carries the one shared
fresh batch uid. -/
theorem claim_C6_node_delete (db : DB) (it : Item) (freshB : String)
    (perm : List (String × Val))
    (hndE : (db.edges.map Prod.fst).Nodup)
    (hwfE : ∀ p ∈ db.edges, uidOf p.2 = p.1)
    (hinc : incidentUids db (uidOf it.data) ≠ [])
    (hperm : List.Perm (perm.map Prod.fst) (incidentUids db (uidOf it.data))) :
    (deleteNodeFn db it false none true freshB perm = .error .stillConnected) ∧
    (∀ r, deleteNodeFn db it true none true freshB perm = .ok r →
      ((∀ u, oget r.nodes u =
          if u = uidOf it.data then none else oget db.nodes u) ∧
       (∀ u, oget r.edges u =
          if u ∈ incidentUids db (uidOf it.data) then none else oget db.edges u) ∧
       (∀ q ∈ r.changes, q ∈ db.changes ∨ q.2.batch = some freshB) ∧
       r.changes.length = db.changes.length + perm.length + 1)) := by
  have hie : (incidentUids db (uidOf it.data)).isEmpty = false := by
    cases hl : incidentUids db (uidOf it.data) with
    | nil => exact absurd hl hinc
    | cons a l => rfl
  have hndP : (perm.map Prod.fst).Nodup := by
    refine hperm.nodup_iff.2 ?_
    have hsub : (incidentUids db (uidOf it.data)).Sublist
        (db.edges.map Prod.fst) := by
      unfold incidentUids
      exact List.Sublist.map Prod.fst (List.filter_sublist _)
    exact hsub.nodup hndE
  have hmemP : ∀ q ∈ perm, omem db.edges q.1 = true := by
    intro q hq
    have h1 : q.1 ∈ incidentUids db (uidOf it.data) :=
      hperm.mem_iff.1 (List.mem_map_of_mem Prod.fst hq)
    have h2 : q.1 ∈ db.edges.map Prod.fst := by
      unfold incidentUids at h1
      obtain ⟨p, hp, hfst⟩ := List.mem_map.1 h1
      exact hfst ▸ List.mem_map_of_mem Prod.fst (List.mem_of_mem_filter hp)
    exact (oget_isSome_iff _ _).2 h2
  constructor
  · unfold deleteNodeFn
    simp only [hie, Bool.false_eq_true, if_false]
  · intro r hr
    unfold deleteNodeFn at hr
    simp only [hie, Bool.false_eq_true, if_false, if_true,
      Option.isNone_none, Bool.and_self, Bool.and_true, eq_self_iff_true,
      Except.ok.injEq] at hr
    rw [foldDelEdges perm db (some freshB) hndP hmemP hwfE] at hr
    subst hr
    refine ⟨?_, ?_, ?_, ?_⟩
    · intro u
      show oget (tdel db.nodes (uidOf it.data)) u = _
      rw [oget_tdel]
    · intro u
      show oget (db.edges.filter
        (fun p => decide (p.1 ∉ perm.map Prod.fst))) u = _
      rw [oget_filterKeys]
      by_cases hm : u ∈ incidentUids db (uidOf it.data)
      · rw [if_pos (hperm.mem_iff.2 hm), if_pos hm]
      · rw [if_neg (fun hc => hm (hperm.mem_iff.1 hc)), if_neg hm]
    · intro q hq
      have hq2 : q ∈ db.changes ++
          delRecs db.edges (some freshB) db.nextId perm ++
          [((db.nextId + perm.length : Nat), mkDel it.data (some freshB))] := hq
      rw [List.append_assoc, List.mem_append] at hq2
      rcases hq2 with h | h
      · exact Or.inl h
      · right
        rcases List.mem_append.1 h with h2 | h2
        · exact delRecs_batch _ _ _ _ q h2
        · rw [List.mem_singleton.1 h2]
          rfl
    · show (db.changes ++ delRecs db.edges (some freshB) db.nextId perm ++
        [((db.nextId + perm.length : Nat), mkDel it.data (some freshB))]).length = _
      rw [List.length_append, List.length_append, delRecs_length]
      simp

/-- Witness for C6 at the concrete graph with the self-loop. -/
theorem claim_C6_witness :
    ((exDB.edges.map Prod.fst).Nodup) ∧
    (∀ p ∈ exDB.edges, uidOf p.2 = p.1) ∧
    (incidentUids exDB (uidOf itemA.data) ≠ []) ∧
    (List.Perm (([("E", Val.vi 50)] : List (String × Val)).map Prod.fst)
      (incidentUids exDB (uidOf itemA.data))) ∧
    ((deleteNodeFn exDB itemA false none true "B1" [("E", Val.vi 50)] =
        .error .stillConnected) ∧
      (∀ r, deleteNodeFn exDB itemA true none true "B1" [("E", Val.vi 50)] =
          .ok r →
        ((∀ u, oget r.nodes u =
            if u = uidOf itemA.data then none else oget exDB.nodes u) ∧
         (∀ u, oget r.edges u =
            if u ∈ incidentUids exDB (uidOf itemA.data) then none
            else oget exDB.edges u) ∧
         (∀ q ∈ r.changes, q ∈ exDB.changes ∨ q.2.batch = some "B1") ∧
         r.changes.length = exDB.changes.length +
           ([("E", Val.vi 50)] : List (String × Val)).length + 1))) :=
  ⟨by decide, by decide, by decide, by decide,
    claim_C6_node_delete exDB itemA "B1" [("E", Val.vi 50)]
      (by decide) (by decide) (by decide) (by decide)⟩

/-- Witness for C10 at a concrete pair of dicts. -/
theorem claim_C10_witness :
    plainKeys [("uid", Val.vs "u1"), ("a", Val.vi 1), ("mtime", Val.vi 5)] = true ∧
    plainKeys [("uid", Val.vs "u1"), ("a", Val.vi 2), ("b", Val.vi 3),
      ("mtime", Val.vi 9)] = true ∧
    mtimeOnly (diffRaw [("uid", Val.vs "u1"), ("a", Val.vi 1), ("mtime", Val.vi 5)]
      [("uid", Val.vs "u1"), ("a", Val.vi 2), ("b", Val.vi 3), ("mtime", Val.vi 9)]
      ["a", "b", "mtime"]) = false ∧
    ((∀ k, dget (patch [("uid", Val.vs "u1"), ("a", Val.vi 1), ("mtime", Val.vi 5)]
        (diff [("uid", Val.vs "u1"), ("a", Val.vi 1), ("mtime", Val.vi 5)]
          [("uid", Val.vs "u1"), ("a", Val.vi 2), ("b", Val.vi 3), ("mtime", Val.vi 9)]
          ["a", "b", "mtime"]).1
        (diff [("uid", Val.vs "u1"), ("a", Val.vi 1), ("mtime", Val.vi 5)]
          [("uid", Val.vs "u1"), ("a", Val.vi 2), ("b", Val.vi 3), ("mtime", Val.vi 9)]
          ["a", "b", "mtime"]).2 false) k =
        if k ∈ ["a", "b", "mtime"] ∧
            dget [("uid", Val.vs "u1"), ("a", Val.vi 1), ("mtime", Val.vi 5)] k ≠
            dget [("uid", Val.vs "u1"), ("a", Val.vi 2), ("b", Val.vi 3),
              ("mtime", Val.vi 9)] k
        then dget [("uid", Val.vs "u1"), ("a", Val.vi 2), ("b", Val.vi 3),
          ("mtime", Val.vi 9)] k
        else dget [("uid", Val.vs "u1"), ("a", Val.vi 1), ("mtime", Val.vi 5)] k)) := by
  refine ⟨by decide, by decide, by decide, ?_⟩
  exact (claim_C10_diff_patch_roundtrip _ _ _ (by decide) (by decide) (by decide)).1

theorem mkISet_length {α : Type} (uidf : α → String) (items : List α) :
    (mkISet uidf items).index.length = (mkISet uidf items).list.length := by
  unfold mkISet
  by_cases h : items.length ≠ (pyDictOf uidf items).length
  · rw [if_pos h]
    show (pyDictOf uidf items).length =
      ((pyDictOf uidf items).map Prod.snd).length
    rw [List.length_map]
  · rw [if_neg h]
    push_neg at h
    exact h.symm

theorem wfISet_mkISet {α : Type} (uidf : α → String) (items : List α) :
    wfISet uidf (mkISet uidf items) = true := by
  unfold wfISet
  rw [mkISet_index]
  apply List.all_eq_true.2
  intro p hp
  apply decide_eq_true
  exact pyDictOf_snd_uid uidf items []
    (fun q hq => absurd hq (List.not_mem_nil q)) p hp

theorem mem_dedupFirst (l : List String) (x : String) :
    x ∈ dedupFirst l ↔ x ∈ l := by
  induction l with
  | nil => exact Iff.rfl
  | cons k rest ih =>
      rw [dedupFirst_cons]
      constructor
      · intro h
        rcases List.mem_cons.1 h with h | h
        · exact h ▸ List.mem_cons_self _ _
        · exact List.mem_cons_of_mem _ (ih.1 (List.mem_of_mem_filter h))
      · intro h
        rcases List.mem_cons.1 h with h | h
        · exact h ▸ List.mem_cons_self _ _
        · by_cases hx : x = k
          · exact hx ▸ List.mem_cons_self _ _
          · exact List.mem_cons_of_mem _
              (List.mem_filter.2 ⟨ih.2 h, decide_eq_true hx⟩)

theorem omem_pyDictOf {α : Type} (uidf : α → String) (items : List α)
    (k : String) :
    (omem (pyDictOf uidf items) k = true) ↔ k ∈ items.map uidf := by
  unfold omem
  rw [oget_isSome_iff, keys_pyDictOf, mem_dedupFirst]

/-- C7: `bothE()` is the uid-wise union of `inE()` and `outE()` — pointwise
the left operand's element when present, else the right's, with membership
the disjunction of the two — and `bothE(COUNT=True)` is the cardinality of
that union, which equals the number of incident edge rows, so a self-loop
(a row matched by both fetches) is counted once, not twice. -/
theorem claim_C7_bothE (db : DB) (u : String) (enum : List String)
    (hndE : (db.edges.map Prod.fst).Nodup)
    (hwfE : ∀ p ∈ db.edges, uidOf p.2 = p.1)
    (hE : validEnum (fetchInE db u) (fetchOutE db u) enum = true) :
    (∀ k, oget (bothEFn db u enum).index k =
        (if omem (fetchInE db u).index k = true
         then oget (fetchInE db u).index k
         else oget (fetchOutE db u).index k)) ∧
    (∀ k, omem (bothEFn db u enum).index k =
        (omem (fetchInE db u).index k || omem (fetchOutE db u).index k)) ∧
    bothECount db u enum = (incidentUids db u).length := by
  obtain ⟨hmap, hlen, hpt⟩ := orOp_spec uidOf [] (fetchInE db u)
    (fetchOutE db u) enum (wfISet_mkISet _ _) (wfISet_mkISet _ _) hE
  have hmapIn : ((db.edges.filter
        (fun p => strAt p.2 "enduid" = u)).map Prod.snd).map uidOf =
      (db.edges.filter (fun p => strAt p.2 "enduid" = u)).map Prod.fst := by
    rw [List.map_map]
    apply List.map_congr_left
    intro p hp
    exact hwfE p (List.mem_of_mem_filter hp)
  have hmapOut : ((db.edges.filter
        (fun p => strAt p.2 "startuid" = u)).map Prod.snd).map uidOf =
      (db.edges.filter (fun p => strAt p.2 "startuid" = u)).map Prod.fst := by
    rw [List.map_map]
    apply List.map_congr_left
    intro p hp
    exact hwfE p (List.mem_of_mem_filter hp)
  have hInIff : ∀ k, (omem (fetchInE db u).index k = true) ↔
      k ∈ (db.edges.filter (fun p => strAt p.2 "enduid" = u)).map Prod.fst := by
    intro k
    show (omem (mkISet uidOf ((db.edges.filter
      (fun p => strAt p.2 "enduid" = u)).map Prod.snd)).index k = true) ↔ _
    rw [mkISet_index, omem_pyDictOf, hmapIn]
  have hOutIff : ∀ k, (omem (fetchOutE db u).index k = true) ↔
      k ∈ (db.edges.filter
        (fun p => strAt p.2 "startuid" = u)).map Prod.fst := by
    intro k
    show (omem (mkISet uidOf ((db.edges.filter
      (fun p => strAt p.2 "startuid" = u)).map Prod.snd)).index k = true) ↔ _
    rw [mkISet_index, omem_pyDictOf, hmapOut]
  have hIncIff : ∀ k, k ∈ incidentUids db u ↔
      (k ∈ (db.edges.filter
          (fun p => strAt p.2 "startuid" = u)).map Prod.fst ∨
       k ∈ (db.edges.filter
          (fun p => strAt p.2 "enduid" = u)).map Prod.fst) := by
    intro k
    unfold incidentUids
    simp only [List.mem_map, List.mem_filter, Bool.or_eq_true]
    constructor
    · rintro ⟨p, ⟨hp, hcond⟩, rfl⟩
      rcases hcond with h | h
      · exact Or.inl ⟨p, ⟨hp, h⟩, rfl⟩
      · exact Or.inr ⟨p, ⟨hp, h⟩, rfl⟩
    · rintro (⟨p, ⟨hp, h⟩, rfl⟩ | ⟨p, ⟨hp, h⟩, rfl⟩)
      · exact ⟨p, ⟨hp, Or.inl h⟩, rfl⟩
      · exact ⟨p, ⟨hp, Or.inr h⟩, rfl⟩
  refine ⟨hpt, ?_, ?_⟩
  · intro k
    show (oget (orOp uidOf [] (fetchInE db u)
        (fetchOutE db u) enum).index k).isSome =
      (omem (fetchInE db u).index k || omem (fetchOutE db u).index k)
    rw [hpt k]
    by_cases hm : omem (fetchInE db u).index k = true
    · rw [if_pos hm, hm, Bool.true_or]
      exact hm
    · rw [if_neg hm]
      have hm2 : omem (fetchInE db u).index k = false := by
        cases h2 : omem (fetchInE db u).index k
        · rfl
        · exact absurd h2 hm
      rw [hm2, Bool.false_or]
      rfl
  · show (bothEFn db u enum).index.length = (incidentUids db u).length
    have h1 : (bothEFn db u enum).index.length =
        (orOp uidOf [] (fetchInE db u) (fetchOutE db u) enum).list.length := by
      show (orOp uidOf [] (fetchInE db u) (fetchOutE db u) enum).index.length = _
      unfold orOp
      exact mkISet_length _ _
    rw [h1, hlen]
    have hndI : (incidentUids db u).Nodup := by
      unfold incidentUids
      exact (List.Sublist.map Prod.fst (List.filter_sublist _)).nodup hndE
    unfold validEnum at hE
    rw [Bool.and_eq_true, Bool.and_eq_true, Bool.and_eq_true] at hE
    obtain ⟨⟨⟨hnd, hmemE⟩, hsubA⟩, hsubB⟩ := hE
    have hndEn : enum.Nodup := of_decide_eq_true hnd
    have hperm : List.Perm enum (incidentUids db u) := by
      refine (List.perm_ext_iff_of_nodup hndEn hndI).2 ?_
      intro k
      rw [hIncIff k]
      constructor
      · intro hk
        have h2 := List.all_eq_true.1 hmemE k hk
        rw [Bool.or_eq_true] at h2
        rcases h2 with h | h
        · exact Or.inr ((hInIff k).1 h)
        · exact Or.inl ((hOutIff k).1 h)
      · intro hk
        rcases hk with h | h
        · have hB2 : omem (fetchOutE db u).index k = true := (hOutIff k).2 h
          obtain ⟨o, ho⟩ := Option.isSome_iff_exists.1 hB2
          exact of_decide_eq_true (List.all_eq_true.1 hsubB k
            (List.mem_map_of_mem Prod.fst (oget_mem_pair _ _ _ ho)))
        · have hA2 : omem (fetchInE db u).index k = true := (hInIff k).2 h
          obtain ⟨o, ho⟩ := Option.isSome_iff_exists.1 hA2
          exact of_decide_eq_true (List.all_eq_true.1 hsubA k
            (List.mem_map_of_mem Prod.fst (oget_mem_pair _ _ _ ho)))
    exact hperm.length_eq

/-- Witness for C7 at the concrete graph with the self-loop: the edge `E`
appears in both `inE` and `outE` of node `A`, yet the count is 1. -/
theorem claim_C7_witness :
    ((exDB.edges.map Prod.fst).Nodup) ∧
    (∀ p ∈ exDB.edges, uidOf p.2 = p.1) ∧
    (validEnum (fetchInE exDB "A") (fetchOutE exDB "A") ["E"] = true) ∧
    ((∀ k, oget (bothEFn exDB "A" ["E"]).index k =
        (if omem (fetchInE exDB "A").index k = true
         then oget (fetchInE exDB "A").index k
         else oget (fetchOutE exDB "A").index k)) ∧
     (∀ k, omem (bothEFn exDB "A" ["E"]).index k =
        (omem (fetchInE exDB "A").index k ||
          omem (fetchOutE exDB "A").index k)) ∧
     bothECount exDB "A" ["E"] = (incidentUids exDB "A").length) :=
  ⟨by decide, by decide, by decide,
    claim_C7_bothE exDB "A" ["E"] (by decide) (by decide) (by decide)⟩

theorem noEph_cleandata (d : Dict) : noEph (cleandata d) = true := by
  apply List.all_eq_true.2
  intro p hp
  unfold cleandata at hp
  exact (List.mem_filter.1 hp).2

theorem addSpec_eph (d1 d2 : Dict) (ck : List String) (k : String)
    (he : isEph k = true) : addSpec d1 d2 ck k = none := by
  unfold addSpec
  rw [if_pos he]

theorem removeSpec_eph (d1 d2 : Dict) (ck : List String) (k : String)
    (he : isEph k = true) : removeSpec d1 d2 ck k = none := by
  unfold removeSpec
  rw [if_pos he]

theorem noEph_filterMapSpec (f : String → Option Val) (ks : List String)
    (hf : ∀ k, isEph k = true → f k = none) :
    noEph (ks.filterMap (fun k0 => (f k0).map (fun v => (k0, v)))) = true := by
  apply List.all_eq_true.2
  intro p hp
  obtain ⟨k0, hk0, hmap⟩ := List.mem_filterMap.1 hp
  cases hfk : f k0 with
  | none =>
      rw [hfk] at hmap
      cases hmap
  | some v =>
      rw [hfk, Option.map_some'] at hmap
      injection hmap with h2
      rw [← h2]
      have hfalse : isEph k0 = false := by
        cases hv : isEph k0
        · rfl
        · rw [hf k0 hv] at hfk
          cases hfk
      show (!(isEph k0)) = true
      rw [hfalse]
      rfl

theorem noEph_diffRaw_fst (d1 d2 : Dict) (ck : List String) :
    noEph (diffRaw d1 d2 ck).1 = true := by
  unfold diffRaw
  rw [foldl_diffStep]
  show noEph ([] ++ _) = true
  rw [List.nil_append]
  exact noEph_filterMapSpec _ _ (addSpec_eph d1 d2 ck)

theorem noEph_diffRaw_snd (d1 d2 : Dict) (ck : List String) :
    noEph (diffRaw d1 d2 ck).2 = true := by
  unfold diffRaw
  rw [foldl_diffStep]
  show noEph ([] ++ _) = true
  rw [List.nil_append]
  exact noEph_filterMapSpec _ _ (removeSpec_eph d1 d2 ck)

theorem noEph_diff_fst (d1 d2 : Dict) (ck : List String) :
    noEph (diff d1 d2 ck).1 = true := by
  show noEph (if mtimeOnly (diffRaw d1 d2 ck) then (([], []) : Dict × Dict)
    else diffRaw d1 d2 ck).1 = true
  by_cases h : mtimeOnly (diffRaw d1 d2 ck) = true
  · rw [if_pos h]
    rfl
  · rw [if_neg h]
    exact noEph_diffRaw_fst d1 d2 ck

theorem noEph_diff_snd (d1 d2 : Dict) (ck : List String) :
    noEph (diff d1 d2 ck).2 = true := by
  show noEph (if mtimeOnly (diffRaw d1 d2 ck) then (([], []) : Dict × Dict)
    else diffRaw d1 d2 ck).2 = true
  by_cases h : mtimeOnly (diffRaw d1 d2 ck) = true
  · rw [if_pos h]
    rfl
  · rw [if_neg h]
    exact noEph_diffRaw_snd d1 d2 ck

theorem recClean_fields (u : String) (p m : Option Dict) (b : Option String)
    (hp : ∀ d, p = some d → noEph d = true)
    (hm : ∀ d, m = some d → noEph d = true) :
    recClean ⟨u, p, m, b⟩ = true := by
  unfold recClean
  rw [Bool.and_eq_true]
  constructor
  · cases p with
    | none => rfl
    | some d => exact hp d rfl
  · cases m with
    | none => rfl
    | some d => exact hm d rfl

theorem recClean_mkAdd (new : Dict) (b : Option String) :
    recClean (mkAdd new b) = true := by
  apply recClean_fields
  · intro d hd
    injection hd with h2
    rw [← h2]
    exact noEph_cleandata new
  · intro d hd
    cases hd

theorem recClean_mkDel (old : Dict) (b : Option String) :
    recClean (mkDel old b) = true := by
  apply recClean_fields
  · intro d hd
    cases hd
  · intro d hd
    injection hd with h2
    rw [← h2]
    exact noEph_cleandata old

theorem recClean_mkModify (old new : Dict) (ck : List String) (b : Option String)
    (r : ChangeRec) (h : mkModify old new ck b = some r) : recClean r = true := by
  have h1 : (if (diff old new ck).1.length = 0 ∧ (diff old new ck).2.length = 0
      then none
      else some (ChangeRec.mk (uidOf new)
        (if (diff old new ck).1.length = 0 then none else some (diff old new ck).1)
        (if (diff old new ck).2.length = 0 then none else some (diff old new ck).2)
        b)) = some r := h
  split at h1
  · cases h1
  · injection h1 with h2
    rw [← h2]
    apply recClean_fields
    · intro d hd
      by_cases hl : (diff old new ck).1.length = 0
      · rw [if_pos hl] at hd
        cases hd
      · rw [if_neg hl] at hd
        injection hd with h3
        rw [← h3]
        exact noEph_diff_fst old new ck
    · intro d hd
      by_cases hl : (diff old new ck).2.length = 0
      · rw [if_pos hl] at hd
        cases hd
      · rw [if_neg hl] at hd
        injection hd with h3
        rw [← h3]
        exact noEph_diff_snd old new ck

theorem all_pyDictSet {α : Type} (p : String × α → Bool) (d : List (String × α))
    (k : String) (o : α) (hd : d.all p = true) (ho : p (k, o) = true) :
    (pyDictSet d k o).all p = true := by
  induction d with
  | nil =>
      show ([(k, o)]).all p = true
      rw [List.all_cons, ho]
      rfl
  | cons q rest ih =>
      obtain ⟨k1, o1⟩ := q
      rw [List.all_cons, Bool.and_eq_true] at hd
      show (if k1 = k then (k, o) :: rest
        else (k1, o1) :: pyDictSet rest k o).all p = true
      by_cases h : k1 = k
      · rw [if_pos h, List.all_cons, ho, hd.2]
        rfl
      · rw [if_neg h, List.all_cons, hd.1, ih hd.2]
        rfl

theorem dbClean_iff (db : DB) : dbClean db = true ↔
    (db.nodes.all (fun p => noEph p.2) = true ∧
     db.edges.all (fun p => noEph p.2) = true ∧
     db.changes.all (fun p => recClean p.2) = true) := by
  unfold dbClean
  rw [Bool.and_eq_true, Bool.and_eq_true]
  tauto

theorem dbClean_appendChange (db : DB) (c : Option ChangeRec)
    (hdb : dbClean db = true)
    (hc : ∀ r, c = some r → recClean r = true) :
    dbClean (appendChange db c) = true := by
  cases c with
  | none => exact hdb
  | some r =>
      rw [dbClean_iff] at hdb ⊢
      obtain ⟨h1, h2, h3⟩ := hdb
      refine ⟨h1, h2, ?_⟩
      show (db.changes ++ [(db.nextId, r)]).all (fun p => recClean p.2) = true
      rw [List.all_append, h3]
      simp [hc r rfl]

theorem dbClean_saveNode (db : DB) (it : Item) (force : Bool) (b : Option String)
    (setchange : Bool) (hdb : dbClean db = true) :
    dbClean (saveNodeFn db it force b setchange) = true := by
  have hdb2 : dbClean { db with
      nodes := pyDictSet db.nodes (uidOf it.data) (cleandata it.data) } = true := by
    rw [dbClean_iff] at hdb ⊢
    obtain ⟨hn, he, hc⟩ := hdb
    exact ⟨all_pyDictSet _ _ _ _ hn (noEph_cleandata it.data), he, hc⟩
  unfold saveNodeFn
  by_cases h1 : (!force && it.changedkeys.isEmpty) = true
  · rw [if_pos h1]
    exact hdb
  · rw [if_neg h1]
    cases hg : getuid db (uidOf it.data) with
    | none =>
        cases setchange
        · simp only [Bool.false_eq_true, if_false]
          exact hdb2
        · simp only [eq_self_iff_true, if_true, hg]
          refine dbClean_appendChange _ _ hdb2 ?_
          intro r hr
          injection hr with h2
          rw [← h2]
          exact recClean_mkAdd it.data b
    | some pr =>
        obtain ⟨fl, old⟩ := pr
        cases setchange
        · simp only [Bool.false_eq_true, if_false]
          exact hdb2
        · simp only [eq_self_iff_true, if_true, hg]
          exact dbClean_appendChange _ _ hdb2
            (fun r hr => recClean_mkModify old it.data it.changedkeys b r hr)

theorem dbClean_saveEdge (db : DB) (it : Item) (force : Bool) (b : Option String)
    (setchange : Bool) (db2 : DB) (hdb : dbClean db = true)
    (h : saveEdgeFn db it force b setchange = .ok db2) :
    dbClean db2 = true := by
  have hdb2 : dbClean { db with
      edges := pyDictSet db.edges (uidOf it.data) (cleandata it.data) } = true := by
    rw [dbClean_iff] at hdb ⊢
    obtain ⟨hn, he, hc⟩ := hdb
    exact ⟨hn, all_pyDictSet _ _ _ _ he (noEph_cleandata it.data), hc⟩
  unfold saveEdgeFn at h
  by_cases h1 : (!force && it.changedkeys.isEmpty) = true
  · rw [if_pos h1] at h
    injection h with h2
    rw [← h2]
    exact hdb
  · rw [if_neg h1] at h
    by_cases h2 : (!(dbExists db (strAt it.data "startuid"))) = true
    · rw [if_pos h2] at h
      cases h
    · rw [if_neg h2] at h
      by_cases h3 : (!(dbExists db (strAt it.data "enduid"))) = true
      · rw [if_pos h3] at h
        cases h
      · rw [if_neg h3] at h
        simp only [Except.ok.injEq] at h
        rw [← h]
        cases hg : getuid db (uidOf it.data) with
        | none =>
            cases setchange
            · simp only [Bool.false_eq_true, if_false]
              exact hdb2
            · simp only [eq_self_iff_true, if_true, hg]
              refine dbClean_appendChange _ _ hdb2 ?_
              intro r hr
              injection hr with h4
              rw [← h4]
              exact recClean_mkAdd it.data b
        | some pr =>
            obtain ⟨fl, old⟩ := pr
            cases setchange
            · simp only [Bool.false_eq_true, if_false]
              exact hdb2
            · simp only [eq_self_iff_true, if_true, hg]
              exact dbClean_appendChange _ _ hdb2
                (fun r hr => recClean_mkModify old it.data it.changedkeys b r hr)

theorem dbClean_deleteEdge (db : DB) (it : Item) (b : Option String)
    (setchange : Bool) (t : Val) (hdb : dbClean db = true) :
    dbClean (deleteEdgeFn db it b setchange t) = true := by
  have hdb2 : dbClean { db with edges := tdel db.edges (uidOf it.data) } = true := by
    rw [dbClean_iff] at hdb ⊢
    obtain ⟨hn, he, hc⟩ := hdb
    refine ⟨hn, ?_, hc⟩
    apply List.all_eq_true.2
    intro p hp
    exact List.all_eq_true.1 he p (List.mem_of_mem_filter hp)
  unfold deleteEdgeFn
  cases setchange
  · simp only [Bool.false_eq_true, if_false]
    exact hdb2
  · simp only [eq_self_iff_true, if_true]
    refine dbClean_appendChange _ _ hdb2 ?_
    intro r hr
    injection hr with h2
    rw [← h2]
    exact recClean_mkDel _ b

theorem dbClean_delEdgeStep (b : Option String) (setchange : Bool) (db : DB)
    (q : String × Val) (hdb : dbClean db = true) :
    dbClean (delEdgeStep b setchange db q) = true := by
  unfold delEdgeStep
  cases hg : oget db.edges q.1 with
  | none => exact hdb
  | some blob => exact dbClean_deleteEdge db ⟨blob, []⟩ b setchange q.2 hdb

theorem dbClean_foldDel (b : Option String) (setchange : Bool)
    (perm : List (String × Val)) (db : DB) (hdb : dbClean db = true) :
    dbClean (perm.foldl (delEdgeStep b setchange) db) = true := by
  induction perm generalizing db with
  | nil => exact hdb
  | cons q rest ih =>
      rw [List.foldl_cons]
      exact ih _ (dbClean_delEdgeStep b setchange db q hdb)

theorem dbClean_deleteNode (db : DB) (it : Item) (disconnect : Bool)
    (b : Option String) (setchange : Bool) (freshB : String)
    (perm : List (String × Val)) (db2 : DB) (hdb : dbClean db = true)
    (h : deleteNodeFn db it disconnect b setchange freshB perm = .ok db2) :
    dbClean db2 = true := by
  have htdel : ∀ d : DB, dbClean d = true →
      dbClean { d with nodes := tdel d.nodes (uidOf it.data) } = true := by
    intro d hd
    rw [dbClean_iff] at hd ⊢
    obtain ⟨hn, he, hc⟩ := hd
    refine ⟨?_, he, hc⟩
    apply List.all_eq_true.2
    intro p hp
    exact List.all_eq_true.1 hn p (List.mem_of_mem_filter hp)
  unfold deleteNodeFn at h
  by_cases hie : (incidentUids db (uidOf it.data)).isEmpty = true
  · rw [if_pos hie] at h
    simp only [Except.ok.injEq] at h
    rw [← h]
    cases setchange
    · simp only [Bool.false_eq_true, if_false]
      exact htdel db hdb
    · simp only [eq_self_iff_true, if_true]
      refine dbClean_appendChange _ _ (htdel db hdb) ?_
      intro r hr
      injection hr with h2
      rw [← h2]
      exact recClean_mkDel it.data b
  · rw [if_neg hie] at h
    cases disconnect
    · simp only [Bool.false_eq_true, if_false] at h
      cases h
    · simp only [eq_self_iff_true, if_true, Except.ok.injEq] at h
      rw [← h]
      cases setchange
      · simp only [Bool.false_eq_true, if_false, Bool.false_and]
        exact htdel _ (dbClean_foldDel _ _ perm db hdb)
      · simp only [eq_self_iff_true, if_true]
        refine dbClean_appendChange _ _ (htdel _ (dbClean_foldDel _ _ perm db hdb)) ?_
        intro r hr
        injection hr with h2
        rw [← h2]
        exact recClean_mkDel it.data _

theorem dbClean_applyOp (db : DB) (op : Op) (db2 : DB)
    (hdb : dbClean db = true) (h : applyOp db op = .ok db2) :
    dbClean db2 = true := by
  cases op with
  | saveN it =>
      injection h with h2
      rw [← h2]
      exact dbClean_saveNode db it false none true hdb
  | saveE it => exact dbClean_saveEdge db it false none true db2 hdb h
  | delN it disc freshB perm =>
      exact dbClean_deleteNode db it disc none true freshB perm db2 hdb h
  | delE it t =>
      injection h with h2
      rw [← h2]
      exact dbClean_deleteEdge db it none true t hdb

/-- C8: starting from a graph whose persisted node and edge blobs and whose
journal records are free of underscore-prefixed keys, every sequence of
saves and deletes preserves this; so no save or delete ever writes an
underscore key to a persisted blob or into the `+`/`-` map of a change
record (the blob is passed through `cleandata`, and `diff` skips
underscore keys). -/
theorem claim_C8_no_ephemeral (db : DB) (ops : List Op) (db2 : DB)
    (hdb : dbClean db = true) (hrun : runOps db ops = .ok db2) :
    dbClean db2 = true := by
  induction ops generalizing db with
  | nil =>
      injection hrun with h2
      rw [← h2]
      exact hdb
  | cons op ops ih =>
      unfold runOps at hrun
      cases hap : applyOp db op with
      | error e =>
          rw [hap] at hrun
          exact Except.noConfusion hrun
      | ok db3 =>
          rw [hap] at hrun
          exact ih db3 (dbClean_applyOp db op db3 hdb hap) hrun

/-- Witness for C8: delete the self-loop edge of the concrete graph; the
resulting graph and its journal record are clean. -/
theorem claim_C8_witness :
    dbClean exDB = true ∧
    runOps exDB [Op.delE itemE (Val.vi 9)] =
      .ok (DB.mk [("A", blobA)] []
        [(0, ChangeRec.mk "E" none
          (some [("mtime", Val.vi 9), ("uid", Val.vs "E"), ("kind", Val.vs "L"),
            ("startuid", Val.vs "A"), ("enduid", Val.vs "A"),
            ("ctime", Val.vi 2)]) none)] 1) ∧
    dbClean (DB.mk [("A", blobA)] []
      [(0, ChangeRec.mk "E" none
        (some [("mtime", Val.vi 9), ("uid", Val.vs "E"), ("kind", Val.vs "L"),
          ("startuid", Val.vs "A"), ("enduid", Val.vs "A"),
          ("ctime", Val.vi 2)]) none)] 1) = true :=
  ⟨by decide, rfl,
    claim_C8_no_ephemeral exDB [Op.delE itemE (Val.vi 9)] _ (by decide) rfl⟩

theorem dget_cleandata (d : Dict) (k : String) :
    dget (cleandata d) k = if isEph k then none else dget d k := by
  induction d with
  | nil =>
      show (none : Option Val) = if isEph k then none else none
      split <;> rfl
  | cons p d ih =>
      obtain ⟨k1, v1⟩ := p
      unfold cleandata at ih ⊢
      rw [List.filter_cons]
      by_cases h1 : isEph k1 = true
      · rw [if_neg (by simp [h1])]
        rw [ih]
        by_cases h2 : isEph k = true
        · rw [if_pos h2, if_pos h2]
        · rw [if_neg h2, if_neg h2]
          show dget d k = if k1 = k then some v1 else dget d k
          rw [if_neg (fun hc : k1 = k => h2 (hc ▸ h1))]
      · have h1f : (!(isEph (k1, v1).1)) = true := by
          show (!(isEph k1)) = true
          cases hv : isEph k1
          · rfl
          · exact absurd hv h1
        rw [if_pos h1f]
        show (if k1 = k then some v1
          else dget (List.filter (fun p => !(isEph p.1)) d) k) = _
        by_cases h2 : k1 = k
        · subst h2
          rw [if_pos rfl]

          have h1f2 : isEph k1 = false := by
            cases hv : isEph k1
            · rfl
            · exact absurd hv h1
          rw [if_neg (fun hc => h1 hc)]
          show _ = if k1 = k1 then some v1 else dget d k1
          rw [if_pos rfl]
        · rw [if_neg h2, ih]
          by_cases h3 : isEph k = true
          · rw [if_pos h3, if_pos h3]
          · rw [if_neg h3, if_neg h3]
            show dget d k = if k1 = k then some v1 else dget d k
            rw [if_neg h2]

theorem isEph_mtime : isEph "mtime" = false := by decide

theorem bSim_refl (d : Dict) : bSim d d :=
  ⟨fun _ _ => rfl, rfl⟩

theorem bSim_trans {d1 d2 d3 : Dict} (h12 : bSim d1 d2) (h23 : bSim d2 d3) :
    bSim d1 d3 :=
  ⟨fun k hk => (h12.1 k hk).trans (h23.1 k hk), h12.2.trans h23.2⟩

theorem obSim_refl (o : Option Dict) : obSim o o := by
  cases o with
  | none => trivial
  | some d => exact bSim_refl d

theorem obSim_trans {o1 o2 o3 : Option Dict} (h12 : obSim o1 o2)
    (h23 : obSim o2 o3) : obSim o1 o3 := by
  cases o1 with
  | none =>
      cases o2 with
      | none => exact h23
      | some d2 => exact False.elim h12
  | some d1 =>
      cases o2 with
      | none => exact False.elim h12
      | some d2 =>
          cases o3 with
          | none => exact False.elim h23
          | some d3 => exact bSim_trans h12 h23

theorem tSim_refl (t : Table) : tSim t t := fun _ => obSim_refl _

theorem tSim_trans {t1 t2 t3 : Table} (h12 : tSim t1 t2) (h23 : tSim t2 t3) :
    tSim t1 t3 := fun u => obSim_trans (h12 u) (h23 u)

theorem tSim_omem {t1 t2 : Table} (h : tSim t1 t2) (u : String) :
    omem t1 u = omem t2 u := by
  have h2 := h u
  unfold omem
  cases hg1 : oget t1 u <;> cases hg2 : oget t2 u <;>
    rw [hg1, hg2] at h2 <;> first | rfl | exact absurd h2 (by intro h3; exact h3)

theorem mem_dkeys (d : Dict) (k : String) :
    k ∈ dkeys d ↔ k ∈ d.map Prod.fst := by
  unfold dkeys
  exact List.mem_dedup

theorem dEqB_dget {d1 d2 : Dict} (h : dEqB d1 d2 = true) (k : String) :
    dget d1 k = dget d2 k := by
  by_cases hm : k ∈ dkeys d1 ++ dkeys d2
  · have h2 := List.all_eq_true.1 h k hm
    exact eq_of_beq h2
  · rw [List.mem_append] at hm
    push_neg at hm
    have h1 : dget d1 k = none := by
      rw [dget_eq_none_iff]
      intro hc
      exact hm.1 ((mem_dkeys d1 k).2 hc)
    have h2 : dget d2 k = none := by
      rw [dget_eq_none_iff]
      intro hc
      exact hm.2 ((mem_dkeys d2 k).2 hc)
    rw [h1, h2]

theorem agreeOutside_dget {d1 d2 : Dict} {ck : List String}
    (h : agreeOutside d1 d2 ck = true) (k : String) (hk : k ∉ ck) :
    dget d1 k = dget d2 k := by
  by_cases hm : k ∈ dkeys d1 ++ dkeys d2
  · have h2 := List.all_eq_true.1 h k hm
    rw [Bool.or_eq_true] at h2
    rcases h2 with h2 | h2
    · exact absurd (of_decide_eq_true h2) hk
    · exact eq_of_beq h2
  · rw [List.mem_append] at hm
    push_neg at hm
    have h1 : dget d1 k = none := by
      rw [dget_eq_none_iff]
      intro hc
      exact hm.1 ((mem_dkeys d1 k).2 hc)
    have h2 : dget d2 k = none := by
      rw [dget_eq_none_iff]
      intro hc
      exact hm.2 ((mem_dkeys d2 k).2 hc)
    rw [h1, h2]

theorem dupdate_congr_at (e : Dict) (d1 d2 : Dict) (k : String)
    (h : dget d1 k = dget d2 k) :
    dget (dupdate d1 e) k = dget (dupdate d2 e) k := by
  induction e generalizing d1 d2 with
  | nil => exact h
  | cons p e ih =>
      obtain ⟨k1, v1⟩ := p
      show dget (dupdate (dinsert d1 k1 v1) e) k =
        dget (dupdate (dinsert d2 k1 v1) e) k
      apply ih
      rw [dget_dinsert, dget_dinsert]
      by_cases h2 : k = k1
      · rw [if_pos h2, if_pos h2]
      · rw [if_neg h2, if_neg h2, h]

theorem dupdate_congr_isSome (e : Dict) (d1 d2 : Dict) (k : String)
    (h : (dget d1 k).isSome = (dget d2 k).isSome) :
    (dget (dupdate d1 e) k).isSome = (dget (dupdate d2 e) k).isSome := by
  induction e generalizing d1 d2 with
  | nil => exact h
  | cons p e ih =>
      obtain ⟨k1, v1⟩ := p
      show (dget (dupdate (dinsert d1 k1 v1) e) k).isSome =
        (dget (dupdate (dinsert d2 k1 v1) e) k).isSome
      apply ih
      rw [dget_dinsert, dget_dinsert]
      by_cases h2 : k = k1
      · rw [if_pos h2, if_pos h2]
      · rw [if_neg h2, if_neg h2, h]

theorem bSim_patch {b1 b2 : Dict} (p m : Dict) (h : bSim b1 b2) :
    bSim (patch b1 p m true) (patch b2 p m true) := by
  constructor
  · intro k hk
    show dget (dupdate (ddelkeys b1 (p.map Prod.fst)) m) k =
      dget (dupdate (ddelkeys b2 (p.map Prod.fst)) m) k
    apply dupdate_congr_at
    rw [dget_ddelkeys, dget_ddelkeys]
    by_cases h2 : k ∈ p.map Prod.fst
    · rw [if_pos h2, if_pos h2]
    · rw [if_neg h2, if_neg h2, h.1 k hk]
  · show (dget (dupdate (ddelkeys b1 (p.map Prod.fst)) m) "mtime").isSome =
      (dget (dupdate (ddelkeys b2 (p.map Prod.fst)) m) "mtime").isSome
    apply dupdate_congr_isSome
    rw [dget_ddelkeys, dget_ddelkeys]
    by_cases h2 : "mtime" ∈ p.map Prod.fst
    · rw [if_pos h2, if_pos h2]
    · rw [if_neg h2, if_neg h2, h.2]

theorem bSim_cleandata {d1 d2 : Dict} (h : bSim d1 d2) :
    bSim (cleandata d1) (cleandata d2) := by
  constructor
  · intro k hk
    rw [dget_cleandata, dget_cleandata]
    by_cases h2 : isEph k = true
    · rw [if_pos h2, if_pos h2]
    · rw [if_neg h2, if_neg h2, h.1 k hk]
  · rw [dget_cleandata, dget_cleandata, isEph_mtime]
    show (dget d1 "mtime").isSome = (dget d2 "mtime").isSome
    exact h.2

theorem dget_cleandata_of_plain (d : Dict) (k : String) (hk : isEph k = false) :
    dget (cleandata d) k = dget d k := by
  rw [dget_cleandata, hk]
  rfl

theorem tSim_pyDictSet {t1 t2 : Table} {b1 b2 : Dict} (u : String)
    (ht : tSim t1 t2) (hb : bSim b1 b2) :
    tSim (pyDictSet t1 u b1) (pyDictSet t2 u b2) := by
  intro u0
  rw [oget_pyDictSet, oget_pyDictSet]
  by_cases h : u0 = u
  · rw [if_pos h, if_pos h]
    exact hb
  · rw [if_neg h, if_neg h]
    exact ht u0

theorem tSim_tdel {t1 t2 : Table} (u : String) (ht : tSim t1 t2) :
    tSim (tdel t1 u) (tdel t2 u) := by
  intro u0
  rw [oget_tdel, oget_tdel]
  by_cases h : u0 = u
  · rw [if_pos h, if_pos h]
    trivial
  · rw [if_neg h, if_neg h]
    exact ht u0

theorem nodup_pyDictSet {α : Type} (d : List (String × α)) (k : String) (o : α)
    (h : (d.map Prod.fst).Nodup) : ((pyDictSet d k o).map Prod.fst).Nodup := by
  rw [keys_pyDictSet]
  by_cases hm : k ∈ d.map Prod.fst
  · rw [if_pos hm]
    exact h
  · rw [if_neg hm]
    rw [List.nodup_append]
    exact ⟨h, List.nodup_singleton k, by simpa using hm⟩

theorem nodup_tdel (t : Table) (u : String) (h : (t.map Prod.fst).Nodup) :
    ((tdel t u).map Prod.fst).Nodup :=
  (List.Sublist.map Prod.fst (List.filter_sublist t)).nodup h

theorem obSim_none_right {o1 o2 : Option Dict} (h : obSim o1 o2)
    (h1 : o1 = none) : o2 = none := by
  subst h1
  cases o2 with
  | none => rfl
  | some d => exact False.elim h

theorem obSim_some_right {o1 o2 : Option Dict} {b1 : Dict} (h : obSim o1 o2)
    (h1 : o1 = some b1) : ∃ b2, o2 = some b2 ∧ bSim b1 b2 := by
  subst h1
  cases o2 with
  | none => exact False.elim h
  | some d => exact ⟨d, rfl, h⟩

theorem strAt_congr {b1 b2 : Dict} (h : bSim b1 b2) (k : String)
    (hk : k ≠ "mtime") : strAt b1 k = strAt b2 k := by
  unfold strAt
  rw [h.1 k hk]

theorem uidOf_congr {b1 b2 : Dict} (h : bSim b1 b2) : uidOf b1 = uidOf b2 := by
  unfold uidOf
  rw [h.1 "uid" (by decide)]

theorem oget_of_mem_nodup {α : Type} {t : List (String × α)} {u : String}
    {b : α} (hnd : (t.map Prod.fst).Nodup) (hm : (u, b) ∈ t) :
    oget t u = some b := by
  induction t with
  | nil => cases hm
  | cons p rest ih =>
      obtain ⟨k1, b1⟩ := p
      rw [List.map_cons, List.nodup_cons] at hnd
      rw [oget_cons]
      rcases List.mem_cons.1 hm with h1 | h1
      · injection h1 with h2 h3
        rw [if_pos h2.symm]
        rw [h3]
      · by_cases h2 : k1 = u
        · subst h2
          exact absurd (List.mem_map_of_mem Prod.fst h1) hnd.1
        · rw [if_neg h2]
          exact ih hnd.2 h1

theorem incidentUids_nil_iff (db : DB) (u : String)
    (hnd : (db.edges.map Prod.fst).Nodup) :
    incidentUids db u = [] ↔
      (∀ u0 b, oget db.edges u0 = some b →
        ¬(strAt b "startuid" = u ∨ strAt b "enduid" = u)) := by
  unfold incidentUids
  rw [List.map_eq_nil_iff, List.filter_eq_nil_iff]
  constructor
  · intro h u0 b hg hc
    have hm := oget_mem_pair _ _ _ hg
    have := h (u0, b) hm
    apply this
    rcases hc with hc | hc
    · simp [hc]
    · simp [hc]
  · intro h p hp hc
    have hg := oget_of_mem_nodup hnd (show (p.1, p.2) ∈ db.edges from hp)
    apply h p.1 p.2 hg
    rw [Bool.or_eq_true] at hc
    rcases hc with hc | hc
    · exact Or.inl (of_decide_eq_true hc)
    · exact Or.inr (of_decide_eq_true hc)

theorem incidentUids_isEmpty_congr (e1 e2 : DB) (u : String)
    (hnd1 : (e1.edges.map Prod.fst).Nodup)
    (hnd2 : (e2.edges.map Prod.fst).Nodup)
    (ht : tSim e1.edges e2.edges) :
    (incidentUids e1 u).isEmpty = (incidentUids e2 u).isEmpty := by
  have key : ∀ a b : DB, (a.edges.map Prod.fst).Nodup →
      (b.edges.map Prod.fst).Nodup → tSim a.edges b.edges →
      incidentUids a u = [] → incidentUids b u = [] := by
    intro a b hna hnb hab hnil
    rw [incidentUids_nil_iff b u hnb]
    rw [incidentUids_nil_iff a u hna] at hnil
    intro u0 b2 hg2 hc
    cases hg1 : oget a.edges u0 with
    | none =>
        have h2 := hab u0
        rw [hg1, hg2] at h2
        exact False.elim h2
    | some b1 =>
        have h2 := hab u0
        rw [hg1, hg2] at h2
        apply hnil u0 b1 hg1
        rw [strAt_congr h2 "startuid" (by decide),
          strAt_congr h2 "enduid" (by decide)]
        exact hc
  have hsym : tSim e2.edges e1.edges := by
    intro u0
    have h2 := ht u0
    cases hg1 : oget e1.edges u0 <;> cases hg2 : oget e2.edges u0 <;>
      rw [hg1, hg2] at h2
    · trivial
    · exact False.elim h2
    · exact False.elim h2
    · exact ⟨fun k hk => (h2.1 k hk).symm, h2.2.symm⟩
  cases hie1 : (incidentUids e1 u).isEmpty
  · cases hie2 : (incidentUids e2 u).isEmpty
    · rfl
    · have h3 := key e2 e1 hnd2 hnd1 hsym (List.isEmpty_iff.1 hie2)
      rw [h3] at hie1
      exact absurd hie1 (by decide)
  · have h3 := key e1 e2 hnd1 hnd2 ht (List.isEmpty_iff.1 hie1)
    rw [h3]
    rfl

theorem tSim_symm {t1 t2 : Table} (h : tSim t1 t2) : tSim t2 t1 := by
  intro u0
  have h2 := h u0
  cases hg1 : oget t1 u0 <;> cases hg2 : oget t2 u0 <;> rw [hg1, hg2] at h2
  · trivial
  · exact False.elim h2
  · exact False.elim h2
  · exact ⟨fun k hk => (h2.1 k hk).symm, h2.2.symm⟩

theorem tablesNodup_iff (db : DB) : tablesNodup db = true ↔
    ((db.nodes.map Prod.fst).Nodup ∧ (db.edges.map Prod.fst).Nodup) := by
  unfold tablesNodup
  rw [Bool.and_eq_true, decide_eq_true_eq, decide_eq_true_eq]

theorem saveNodeFn_nosc (db : DB) (it : Item) (force : Bool) (b : Option String) :
    saveNodeFn db it force b false =
      if !force && it.changedkeys.isEmpty then db
      else { db with
        nodes := pyDictSet db.nodes (uidOf it.data) (cleandata it.data) } := by
  unfold saveNodeFn
  by_cases h : (!force && it.changedkeys.isEmpty) = true
  · rw [if_pos h, if_pos h]
  · rw [if_neg h, if_neg h]
    rfl

theorem saveEdgeFn_nosc (db : DB) (it : Item) (force : Bool) (b : Option String) :
    saveEdgeFn db it force b false =
      if !force && it.changedkeys.isEmpty then .ok db
      else if !(dbExists db (strAt it.data "startuid")) then
        .error .missingNodeRef
      else if !(dbExists db (strAt it.data "enduid")) then
        .error .missingNodeRef
      else .ok { db with
        edges := pyDictSet db.edges (uidOf it.data) (cleandata it.data) } := by
  unfold saveEdgeFn
  by_cases h1 : (!force && it.changedkeys.isEmpty) = true
  · rw [if_pos h1, if_pos h1]
  · rw [if_neg h1, if_neg h1]
    by_cases h2 : (!(dbExists db (strAt it.data "startuid"))) = true
    · rw [if_pos h2, if_pos h2]
    · rw [if_neg h2, if_neg h2]
      by_cases h3 : (!(dbExists db (strAt it.data "enduid"))) = true
      · rw [if_pos h3, if_pos h3]
      · rw [if_neg h3, if_neg h3]
        rfl

theorem lastchanges_congr {e1 e2 : DB} (h : e1.changes = e2.changes) :
    lastchanges e1 = lastchanges e2 := by
  unfold lastchanges
  rw [h]

theorem dbSimJ_removeChange {e1 e2 : DB} (i : Nat) (h : dbSimJ e1 e2) :
    dbSimJ (removeChange e1 i) (removeChange e2 i) := by
  obtain ⟨hc, hn, he, h1, h2⟩ := h
  exact ⟨by show e1.changes.filter _ = e2.changes.filter _; rw [hc],
    hn, he,
    by rw [tablesNodup_iff] at h1 ⊢; exact h1,
    by rw [tablesNodup_iff] at h2 ⊢; exact h2⟩

theorem getuid_sim (e1 e2 : DB) (u : String) (hn : tSim e1.nodes e2.nodes)
    (he : tSim e1.edges e2.edges) :
    (getuid e1 u = none ∧ getuid e2 u = none) ∨
    (∃ f b1 b2, getuid e1 u = some (f, b1) ∧ getuid e2 u = some (f, b2) ∧
      bSim b1 b2) := by
  unfold getuid
  cases hg1 : oget e1.nodes u with
  | some b1 =>
      obtain ⟨b2, hg2, hb⟩ := obSim_some_right (hn u) hg1
      rw [hg2]
      exact Or.inr ⟨true, b1, b2, rfl, rfl, hb⟩
  | none =>
      rw [obSim_none_right (hn u) hg1]
      cases hge1 : oget e1.edges u with
      | some b1 =>
          obtain ⟨b2, hge2, hb⟩ := obSim_some_right (he u) hge1
          rw [hge2]
          exact Or.inr ⟨false, b1, b2, rfl, rfl, hb⟩
      | none =>
          rw [obSim_none_right (he u) hge1]
          exact Or.inl ⟨rfl, rfl⟩

theorem undoRec_plus_only (db : DB) (cu : String) (p : Dict) (cb : Option String) :
    undoRec db ⟨cu, some p, none, cb⟩ =
      (match getuid db cu with
       | none => .error .notFound
       | some (true, _) =>
           if (incidentUids db cu).isEmpty then
             .ok { db with nodes := tdel db.nodes cu }
           else .error .stillConnected
       | some (false, _) => .ok { db with edges := tdel db.edges cu }) := rfl

theorem undoRec_minus_only (db : DB) (cu : String) (m : Dict) (cb : Option String) :
    undoRec db ⟨cu, none, some m, cb⟩ =
      (if dmem m "startuid" then
        if (dget m "kind").isNone then .error .invalidKind
        else if (dget m "enduid").isNone then .error .invalidKind
        else if (dget m "uid").isNone || (dget m "ctime").isNone ||
            (dget m "mtime").isNone then .error .badRecord
        else saveEdgeFn db ⟨m, dkeys m⟩ false none false
      else
        if (dget m "kind").isNone then .error .invalidKind
        else if (dget m "uid").isNone || (dget m "ctime").isNone ||
            (dget m "mtime").isNone then .error .badRecord
        else .ok (saveNodeFn db ⟨m, dkeys m⟩ false none false)) := rfl

theorem undoRec_both (db : DB) (cu : String) (p m : Dict) (cb : Option String) :
    undoRec db ⟨cu, some p, some m, cb⟩ =
      (match getuid db cu with
       | none => .error .notFound
       | some (true, blob) =>
           .ok (saveNodeFn db ⟨patch blob p m true, []⟩ true none false)
       | some (false, blob) =>
           saveEdgeFn db ⟨patch blob p m true, []⟩ true none false) := rfl

theorem undoRec_neither (db : DB) (cu : String) (cb : Option String) :
    undoRec db ⟨cu, none, none, cb⟩ = .error .unknownUndo := rfl

theorem saveNodeFn_sim (e1 e2 : DB) (it1 it2 : Item) (force : Bool)
    (hd : bSim it1.data it2.data) (hck : it1.changedkeys = it2.changedkeys)
    (hsim : dbSimJ e1 e2) :
    dbSimJ (saveNodeFn e1 it1 force none false)
      (saveNodeFn e2 it2 force none false) := by
  obtain ⟨hc, hn, he, hnd1, hnd2⟩ := hsim
  have hnd1' := (tablesNodup_iff e1).1 hnd1
  have hnd2' := (tablesNodup_iff e2).1 hnd2
  rw [saveNodeFn_nosc, saveNodeFn_nosc, hck]
  by_cases h1 : (!force && it2.changedkeys.isEmpty) = true
  · rw [if_pos h1, if_pos h1]
    exact ⟨hc, hn, he, hnd1, hnd2⟩
  · rw [if_neg h1, if_neg h1]
    have hu : uidOf it1.data = uidOf it2.data := uidOf_congr hd
    refine ⟨hc, ?_, he, ?_, ?_⟩
    · rw [hu]
      exact tSim_pyDictSet _ hn (bSim_cleandata hd)
    · exact (tablesNodup_iff _).2
        ⟨nodup_pyDictSet _ _ _ hnd1'.1, hnd1'.2⟩
    · exact (tablesNodup_iff _).2
        ⟨nodup_pyDictSet _ _ _ hnd2'.1, hnd2'.2⟩

theorem saveEdgeFn_sim (e1 e2 : DB) (it1 it2 : Item) (force : Bool)
    (hd : bSim it1.data it2.data) (hck : it1.changedkeys = it2.changedkeys)
    (hsim : dbSimJ e1 e2) :
    rsimR (saveEdgeFn e1 it1 force none false)
      (saveEdgeFn e2 it2 force none false) := by
  obtain ⟨hc, hn, he, hnd1, hnd2⟩ := hsim
  have hnd1' := (tablesNodup_iff e1).1 hnd1
  have hnd2' := (tablesNodup_iff e2).1 hnd2
  rw [saveEdgeFn_nosc, saveEdgeFn_nosc, hck]
  by_cases h1 : (!force && it2.changedkeys.isEmpty) = true
  · rw [if_pos h1, if_pos h1]
    exact ⟨hc, hn, he, hnd1, hnd2⟩
  · rw [if_neg h1, if_neg h1]
    have hex1 : dbExists e1 (strAt it1.data "startuid") =
        dbExists e2 (strAt it2.data "startuid") := by
      rw [strAt_congr hd "startuid" (by decide)]
      unfold dbExists
      rw [tSim_omem hn, tSim_omem he]
    have hex2 : dbExists e1 (strAt it1.data "enduid") =
        dbExists e2 (strAt it2.data "enduid") := by
      rw [strAt_congr hd "enduid" (by decide)]
      unfold dbExists
      rw [tSim_omem hn, tSim_omem he]
    by_cases h2 : (!(dbExists e1 (strAt it1.data "startuid"))) = true
    · have h2' : (!(dbExists e2 (strAt it2.data "startuid"))) = true := by
        rw [← hex1]; exact h2
      rw [if_pos h2, if_pos h2']
      rfl
    · have h2' : ¬(!(dbExists e2 (strAt it2.data "startuid"))) = true := by
        rw [← hex1]; exact h2
      rw [if_neg h2, if_neg h2']
      by_cases h3 : (!(dbExists e1 (strAt it1.data "enduid"))) = true
      · have h3' : (!(dbExists e2 (strAt it2.data "enduid"))) = true := by
          rw [← hex2]; exact h3
        rw [if_pos h3, if_pos h3']
        rfl
      · have h3' : ¬(!(dbExists e2 (strAt it2.data "enduid"))) = true := by
          rw [← hex2]; exact h3
        rw [if_neg h3, if_neg h3']
        have hu : uidOf it1.data = uidOf it2.data := uidOf_congr hd
        show dbSimJ _ _
        refine ⟨hc, hn, ?_, ?_, ?_⟩
        · rw [hu]
          exact tSim_pyDictSet _ he (bSim_cleandata hd)
        · exact (tablesNodup_iff _).2
            ⟨hnd1'.1, nodup_pyDictSet _ _ _ hnd1'.2⟩
        · exact (tablesNodup_iff _).2
            ⟨hnd2'.1, nodup_pyDictSet _ _ _ hnd2'.2⟩

theorem undoRec_sim (e1 e2 : DB) (c : ChangeRec) (h : dbSimJ e1 e2) :
    rsimR (undoRec e1 c) (undoRec e2 c) := by
  obtain ⟨hc, hn, he, hnd1, hnd2⟩ := h
  have hnd1' := (tablesNodup_iff e1).1 hnd1
  have hnd2' := (tablesNodup_iff e2).1 hnd2
  obtain ⟨cu, cp, cm, cb⟩ := c
  cases cp with
  | some p =>
      cases cm with
      | none =>
          rw [undoRec_plus_only, undoRec_plus_only]
          rcases getuid_sim e1 e2 cu hn he with ⟨hg1, hg2⟩ |
            ⟨f, b1, b2, hg1, hg2, hb⟩
          · rw [hg1, hg2]
            rfl
          · rw [hg1, hg2]
            cases f
            · show dbSimJ { e1 with edges := tdel e1.edges cu }
                { e2 with edges := tdel e2.edges cu }
              exact ⟨hc, hn, tSim_tdel cu he,
                (tablesNodup_iff _).2 ⟨hnd1'.1, nodup_tdel _ _ hnd1'.2⟩,
                (tablesNodup_iff _).2 ⟨hnd2'.1, nodup_tdel _ _ hnd2'.2⟩⟩
            · have hie := incidentUids_isEmpty_congr e1 e2 cu hnd1'.2 hnd2'.2 he
              by_cases h1 : (incidentUids e1 cu).isEmpty = true
              · rw [if_pos h1, if_pos (hie.symm.trans h1)]
                show dbSimJ { e1 with nodes := tdel e1.nodes cu }
                  { e2 with nodes := tdel e2.nodes cu }
                exact ⟨hc, tSim_tdel cu hn, he,
                  (tablesNodup_iff _).2 ⟨nodup_tdel _ _ hnd1'.1, hnd1'.2⟩,
                  (tablesNodup_iff _).2 ⟨nodup_tdel _ _ hnd2'.1, hnd2'.2⟩⟩
              · rw [if_neg h1, if_neg (fun hcon => h1 (hie.trans hcon))]
                rfl
      | some m =>
          rw [undoRec_both, undoRec_both]
          rcases getuid_sim e1 e2 cu hn he with ⟨hg1, hg2⟩ |
            ⟨f, b1, b2, hg1, hg2, hb⟩
          · rw [hg1, hg2]
            rfl
          · rw [hg1, hg2]
            cases f
            · exact saveEdgeFn_sim e1 e2 ⟨patch b1 p m true, []⟩
                ⟨patch b2 p m true, []⟩ true (bSim_patch p m hb) rfl
                ⟨hc, hn, he, hnd1, hnd2⟩
            · show dbSimJ _ _
              exact saveNodeFn_sim e1 e2 ⟨patch b1 p m true, []⟩
                ⟨patch b2 p m true, []⟩ true (bSim_patch p m hb) rfl
                ⟨hc, hn, he, hnd1, hnd2⟩
  | none =>
      cases cm with
      | none =>
          rw [undoRec_neither, undoRec_neither]
          rfl
      | some m =>
          rw [undoRec_minus_only, undoRec_minus_only]
          by_cases h1 : dmem m "startuid" = true
          · rw [if_pos h1, if_pos h1]
            by_cases h2 : (dget m "kind").isNone = true
            · rw [if_pos h2, if_pos h2]
              rfl
            · rw [if_neg h2, if_neg h2]
              by_cases h3 : (dget m "enduid").isNone = true
              · rw [if_pos h3, if_pos h3]
                rfl
              · rw [if_neg h3, if_neg h3]
                by_cases h4 : ((dget m "uid").isNone || (dget m "ctime").isNone ||
                    (dget m "mtime").isNone) = true
                · rw [if_pos h4, if_pos h4]
                  rfl
                · rw [if_neg h4, if_neg h4]
                  exact saveEdgeFn_sim e1 e2 ⟨m, dkeys m⟩ ⟨m, dkeys m⟩ false
                    (bSim_refl m) rfl ⟨hc, hn, he, hnd1, hnd2⟩
          · rw [if_neg h1, if_neg h1]
            by_cases h2 : (dget m "kind").isNone = true
            · rw [if_pos h2, if_pos h2]
              rfl
            · rw [if_neg h2, if_neg h2]
              by_cases h4 : ((dget m "uid").isNone || (dget m "ctime").isNone ||
                  (dget m "mtime").isNone) = true
              · rw [if_pos h4, if_pos h4]
                rfl
              · rw [if_neg h4, if_neg h4]
                show dbSimJ _ _
                exact saveNodeFn_sim e1 e2 ⟨m, dkeys m⟩ ⟨m, dkeys m⟩ false
                  (bSim_refl m) rfl ⟨hc, hn, he, hnd1, hnd2⟩

theorem undoChunk_sim (l : List (Nat × ChangeRec)) (e1 e2 : DB)
    (h : dbSimJ e1 e2) : rsim (undoChunk e1 l) (undoChunk e2 l) := by
  induction l generalizing e1 e2 with
  | nil => exact h
  | cons q rest ih =>
      obtain ⟨i, c⟩ := q
      show rsim (match undoRec e1 c with
          | .error e => .error (e, e1)
          | .ok db2 => undoChunk (removeChange db2 i) rest)
        (match undoRec e2 c with
          | .error e => .error (e, e2)
          | .ok db2 => undoChunk (removeChange db2 i) rest)
      have hr := undoRec_sim e1 e2 c h
      cases hu1 : undoRec e1 c with
      | error g1 =>
          cases hu2 : undoRec e2 c with
          | error g2 =>
              rw [hu1, hu2] at hr
              exact ⟨hr, h⟩
          | ok f2 =>
              rw [hu1, hu2] at hr
              exact False.elim hr
      | ok f1 =>
          cases hu2 : undoRec e2 c with
          | error g2 =>
              rw [hu1, hu2] at hr
              exact False.elim hr
          | ok f2 =>
              rw [hu1, hu2] at hr
              exact ih (removeChange f1 i) (removeChange f2 i)
                (dbSimJ_removeChange i hr)

theorem undoStep_sim (e1 e2 : DB) (h : dbSimJ e1 e2) :
    rsim (undoStep e1) (undoStep e2) := by
  unfold undoStep
  rw [lastchanges_congr h.1]
  exact undoChunk_sim _ e1 e2 h

theorem undoFuel_sim (n : Nat) (e1 e2 : DB) (h : dbSimJ e1 e2) :
    rsim (undoFuel n e1) (undoFuel n e2) := by
  induction n generalizing e1 e2 with
  | zero => exact h
  | succ n ih =>
      show rsim (if e1.changes.isEmpty then .ok e1
          else match undoStep e1 with
            | .error e => .error e
            | .ok db2 => undoFuel n db2)
        (if e2.changes.isEmpty then .ok e2
          else match undoStep e2 with
            | .error e => .error e
            | .ok db2 => undoFuel n db2)
      by_cases hie : e2.changes.isEmpty = true
      · have hie1 : e1.changes.isEmpty = true := by rw [h.1]; exact hie
        rw [if_pos hie1, if_pos hie]
        exact h
      · have hie1 : ¬ e1.changes.isEmpty = true := by rw [h.1]; exact hie
        rw [if_neg hie1, if_neg hie]
        have hs := undoStep_sim e1 e2 h
        cases hu1 : undoStep e1 with
        | error g1 =>
            cases hu2 : undoStep e2 with
            | error g2 =>
                rw [hu1, hu2] at hs
                obtain ⟨g1a, s1⟩ := g1
                obtain ⟨g2a, s2⟩ := g2
                exact ⟨hs.1, hs.2⟩
            | ok f2 =>
                rw [hu1, hu2] at hs
                exact False.elim hs
        | ok f1 =>
            cases hu2 : undoStep e2 with
            | error g2 =>
                rw [hu1, hu2] at hs
                exact False.elim hs
            | ok f2 =>
                rw [hu1, hu2] at hs
                exact ih f1 f2 hs

theorem undoFuel_mono : ∀ (m : Nat) (db f : DB), undoFuel m db = .ok f →
    f.changes = [] → ∀ m2, m ≤ m2 → undoFuel m2 db = .ok f := by
  intro m
  induction m with
  | zero =>
      intro db f h hf m2 hm
      injection h with h2
      subst h2
      cases m2 with
      | zero => rfl
      | succ m3 =>
          show (if db.changes.isEmpty then Except.ok db
            else match undoStep db with
              | .error e => .error e
              | .ok db2 => undoFuel m3 db2) = .ok db
          rw [hf]
          rfl
  | succ m ih =>
      intro db f h hf m2 hm
      have h2 : (if db.changes.isEmpty then Except.ok db
          else match undoStep db with
            | .error e => .error e
            | .ok db2 => undoFuel m db2) = .ok f := h
      by_cases hie : db.changes.isEmpty = true
      · rw [if_pos hie] at h2
        injection h2 with h3
        subst h3
        cases m2 with
        | zero => rfl
        | succ m3 =>
            show (if db.changes.isEmpty then Except.ok db
              else match undoStep db with
                | .error e => .error e
                | .ok db2 => undoFuel m3 db2) = .ok db
            rw [if_pos hie]
      · rw [if_neg hie] at h2
        cases m2 with
        | zero => exact absurd (Nat.le_zero.1 hm) (Nat.succ_ne_zero m)
        | succ m3 =>
            show (if db.changes.isEmpty then Except.ok db
              else match undoStep db with
                | .error e => .error e
                | .ok db2 => undoFuel m3 db2) = .ok f
            rw [if_neg hie]
            cases hu : undoStep db with
            | error g =>
                rw [hu] at h2
                exact absurd h2 (fun hc => Except.noConfusion hc)
            | ok db2 =>
                rw [hu] at h2
                show undoFuel m3 db2 = .ok f
                exact ih db2 f h2 hf m3 (Nat.succ_le_succ_iff.1 hm)

theorem undoChunk_append (l1 l2 : List (Nat × ChangeRec)) (db : DB) :
    undoChunk db (l1 ++ l2) =
      match undoChunk db l1 with
      | .error e => .error e
      | .ok db2 => undoChunk db2 l2 := by
  induction l1 generalizing db with
  | nil => rfl
  | cons q rest ih =>
      obtain ⟨i, c⟩ := q
      show (match undoRec db c with
        | Except.error e => Except.error (e, db)
        | Except.ok db2 => undoChunk (removeChange db2 i) (rest ++ l2)) =
        (match (match undoRec db c with
          | Except.error e => Except.error (e, db)
          | Except.ok db2 => undoChunk (removeChange db2 i) rest) with
        | Except.error e => Except.error e
        | Except.ok db2 => undoChunk db2 l2)
      cases hu : undoRec db c with
      | error g => rfl
      | ok db2 =>
          show undoChunk (removeChange db2 i) (rest ++ l2) =
            (match undoChunk (removeChange db2 i) rest with
            | Except.error e => Except.error e
            | Except.ok db3 => undoChunk db3 l2)
          rw [ih]

theorem blobWF_iff (u : String) (d : Dict) : blobWF u d = true ↔
    (nodupKeys d = true ∧ noEph d = true ∧ dget d "uid" = some (Val.vs u) ∧
     (dget d "kind").isSome = true ∧ (dget d "ctime").isSome = true ∧
     (dget d "mtime").isSome = true) := by
  unfold blobWF
  rw [Bool.and_eq_true, Bool.and_eq_true, Bool.and_eq_true, Bool.and_eq_true,
    Bool.and_eq_true]
  constructor
  · rintro ⟨⟨⟨⟨⟨h1, h2⟩, h3⟩, h4⟩, h5⟩, h6⟩
    exact ⟨h1, h2, eq_of_beq h3, h4, h5, h6⟩
  · rintro ⟨h1, h2, h3, h4, h5, h6⟩
    exact ⟨⟨⟨⟨⟨h1, h2⟩, beq_iff_eq.2 h3⟩, h4⟩, h5⟩, h6⟩

theorem dbWF_iff (db : DB) : dbWF db = true ↔
    ((db.nodes.map Prod.fst).Nodup ∧ (db.edges.map Prod.fst).Nodup ∧
     (∀ p ∈ db.nodes, omem db.edges p.1 = false) ∧
     (∀ p ∈ db.nodes, nodeBlobWF p.1 p.2 = true) ∧
     (∀ p ∈ db.edges, blobWF p.1 p.2 = true ∧
       isVs (dget p.2 "startuid") = true ∧ isVs (dget p.2 "enduid") = true ∧
       omem db.nodes (strAt p.2 "startuid") = true ∧
       omem db.nodes (strAt p.2 "enduid") = true) ∧
     (∀ p ∈ db.changes, p.1 < db.nextId)) := by
  unfold dbWF
  rw [Bool.and_eq_true, Bool.and_eq_true, Bool.and_eq_true, Bool.and_eq_true,
    Bool.and_eq_true]
  constructor
  · rintro ⟨⟨⟨⟨⟨h1, h2⟩, h3⟩, h4⟩, h5⟩, h6⟩
    refine ⟨of_decide_eq_true h1, of_decide_eq_true h2, ?_, ?_, ?_, ?_⟩
    · intro p hp
      have := List.all_eq_true.1 h3 p hp
      cases hv : omem db.edges p.1
      · rfl
      · rw [hv] at this
        exact absurd this (by decide)
    · exact fun p hp => List.all_eq_true.1 h4 p hp
    · intro p hp
      have h7 := List.all_eq_true.1 h5 p hp
      rw [Bool.and_eq_true, Bool.and_eq_true, Bool.and_eq_true,
        Bool.and_eq_true] at h7
      exact ⟨h7.1.1.1.1, h7.1.1.1.2, h7.1.1.2, h7.1.2, h7.2⟩
    · intro p hp
      have h7 := List.all_eq_true.1 h6 p.1 (List.mem_map_of_mem Prod.fst hp)
      exact of_decide_eq_true h7
  · rintro ⟨h1, h2, h3, h4, h5, h6⟩
    refine ⟨⟨⟨⟨⟨decide_eq_true h1, decide_eq_true h2⟩, ?_⟩, ?_⟩, ?_⟩, ?_⟩
    · apply List.all_eq_true.2
      intro p hp
      rw [h3 p hp]
      rfl
    · exact List.all_eq_true.2 h4
    · apply List.all_eq_true.2
      intro p hp
      obtain ⟨g1, g2, g3, g4, g5⟩ := h5 p hp
      rw [Bool.and_eq_true, Bool.and_eq_true, Bool.and_eq_true,
        Bool.and_eq_true]
      exact ⟨⟨⟨⟨g1, g2⟩, g3⟩, g4⟩, g5⟩
    · apply List.all_eq_true.2
      intro i hi
      obtain ⟨p, hp, hfst⟩ := List.mem_map.1 hi
      exact decide_eq_true (hfst ▸ h6 p hp)

theorem dget_none_of_noEph {d : Dict} (h : noEph d = true) {k : String}
    (hk : isEph k = true) : dget d k = none := by
  rw [dget_eq_none_iff]
  intro hm
  obtain ⟨p, hp, hfst⟩ := List.mem_map.1 hm
  have h2 := List.all_eq_true.1 h p hp
  rw [hfst] at h2
  rw [hk] at h2
  cases h2

theorem dkeys_isEmpty_false {d : Dict} (h : (dget d "uid").isSome = true) :
    (dkeys d).isEmpty = false := by
  have hm : "uid" ∈ dkeys d := (mem_dkeys d _).2 ((dget_isSome_iff d _).1 h)
  cases hd : dkeys d with
  | nil => rw [hd] at hm; cases hm
  | cons a l => rfl

theorem getuid_of_node {db : DB} {u : String} {b : Dict}
    (h : oget db.nodes u = some b) : getuid db u = some (true, b) := by
  unfold getuid
  rw [h]

theorem getuid_of_edge {db : DB} {u : String} {b : Dict}
    (h1 : oget db.nodes u = none) (h2 : oget db.edges u = some b) :
    getuid db u = some (false, b) := by
  unfold getuid
  rw [h1, h2]

theorem getuid_of_none {db : DB} {u : String}
    (h1 : oget db.nodes u = none) (h2 : oget db.edges u = none) :
    getuid db u = none := by
  unfold getuid
  rw [h1, h2]

theorem filter_ids_append {ch : List (Nat × ChangeRec)} {i : Nat}
    (r : ChangeRec) (h : ∀ p ∈ ch, p.1 ≠ i) :
    (ch ++ [(i, r)]).filter (fun p => decide (p.1 ≠ i)) = ch := by
  rw [List.filter_append]
  have h1 : ch.filter (fun p => decide (p.1 ≠ i)) = ch :=
    List.filter_eq_self.2 (fun p hp => decide_eq_true (h p hp))
  have h2 : ([(i, r)] : List (Nat × ChangeRec)).filter
      (fun p => decide (p.1 ≠ i)) = [] := by
    simp
  rw [h1, h2, List.append_nil]

theorem lastchanges_single (db : DB) (ch : List (Nat × ChangeRec)) (i : Nat)
    (r : ChangeRec) (hch : db.changes = ch ++ [(i, r)]) (hb : r.batch = none) :
    lastchanges db = [(i, r)] := by
  unfold lastchanges
  rw [hch, List.getLast?_concat]
  show (match r.batch with
    | none => [(i, r)]
    | some b => (ch ++ [(i, r)]).filter
        (fun p => decide (p.2.batch = some b))) = [(i, r)]
  rw [hb]

theorem deleteEdgeFn_eq (db : DB) (it : Item) (b : Option String) (t : Val) :
    deleteEdgeFn db it b true t =
      DB.mk db.nodes (tdel db.edges (uidOf it.data))
        (db.changes ++ [(db.nextId, mkDel (dinsert it.data "mtime" t) b)])
        (db.nextId + 1) := rfl

theorem saveNodeFn_sc (db : DB) (it : Item) (force : Bool) (b : Option String) :
    saveNodeFn db it force b true =
      if !force && it.changedkeys.isEmpty then db
      else
        match getuid db (uidOf it.data) with
        | none => appendChange
            { db with nodes := (pyDictSet db.nodes (uidOf it.data)
                (cleandata it.data)) } (some (mkAdd it.data b))
        | some (_, old) => appendChange
            { db with nodes := (pyDictSet db.nodes (uidOf it.data)
                (cleandata it.data)) } (mkModify old it.data it.changedkeys b) := by
  unfold saveNodeFn
  by_cases h : (!force && it.changedkeys.isEmpty) = true
  · rw [if_pos h, if_pos h]
  · rw [if_neg h, if_neg h]
    rfl

theorem saveEdgeFn_sc (db : DB) (it : Item) (force : Bool) (b : Option String) :
    saveEdgeFn db it force b true =
      if !force && it.changedkeys.isEmpty then .ok db
      else if !(dbExists db (strAt it.data "startuid")) then
        .error .missingNodeRef
      else if !(dbExists db (strAt it.data "enduid")) then
        .error .missingNodeRef
      else .ok (
        match getuid db (uidOf it.data) with
        | none => appendChange
            { db with edges := (pyDictSet db.edges (uidOf it.data)
                (cleandata it.data)) } (some (mkAdd it.data b))
        | some (_, old) => appendChange
            { db with edges := (pyDictSet db.edges (uidOf it.data)
                (cleandata it.data)) } (mkModify old it.data it.changedkeys b)) := by
  unfold saveEdgeFn
  by_cases h1 : (!force && it.changedkeys.isEmpty) = true
  · rw [if_pos h1, if_pos h1]
  · rw [if_neg h1, if_neg h1]
    by_cases h2 : (!(dbExists db (strAt it.data "startuid"))) = true
    · rw [if_pos h2, if_pos h2]
    · rw [if_neg h2, if_neg h2]
      by_cases h3 : (!(dbExists db (strAt it.data "enduid"))) = true
      · rw [if_pos h3, if_pos h3]
      · rw [if_neg h3, if_neg h3]
        rfl

theorem isSome_of_isVs {o : Option Val} (h : isVs o = true) : o.isSome = true := by
  cases o with
  | none => cases h
  | some v => rfl

theorem isNone_false_of_isSome {α : Type} {o : Option α}
    (h : o.isSome = true) : o.isNone = false := by
  cases o with
  | none => cases h
  | some v => rfl

theorem dget_restored_edge (d : Dict) (t : Val) (k : String) :
    dget (cleandata (dinsert d "mtime" t)) k =
      if isEph k then none else if k = "mtime" then some t else dget d k := by
  rw [dget_cleandata]
  by_cases h1 : isEph k = true
  · rw [if_pos h1, if_pos h1]
  · rw [if_neg h1, if_neg h1, dget_dinsert]

theorem invert_delE (db db2 : DB) (it : Item) (t : Val)
    (hwf : dbWF db = true) (hok : opOK db (.delE it t) = true)
    (happ : applyOp db (.delE it t) = .ok db2) :
    ∃ db3, undoStep db2 = .ok db3 ∧ db3.changes = db.changes ∧
      tSim db3.nodes db.nodes ∧ tSim db3.edges db.edges ∧
      tablesNodup db3 = true ∧
      db2.changes.length = db.changes.length + 1 := by
  obtain ⟨hndN, hndE, hdisj, hnodes, hedges, hids⟩ := (dbWF_iff db).1 hwf
  have hok2 : (match oget db.edges (uidOf it.data) with
    | none => false
    | some old => dEqB (cleandata it.data) old) = true := hok
  cases hold : oget db.edges (uidOf it.data) with
  | none =>
      rw [hold] at hok2
      cases hok2
  | some old =>
      rw [hold] at hok2
      have heq : dEqB (cleandata it.data) old = true := hok2
      obtain ⟨hbwf, hvs1, hvs2, hom1, hom2⟩ :=
        hedges (uidOf it.data, old) (oget_mem_pair _ _ _ hold)
      obtain ⟨hndK, hclean, huid, hkind, hctime, hmtime⟩ :=
        (blobWF_iff _ _).1 hbwf
      have hdb2 : db2 = DB.mk db.nodes (tdel db.edges (uidOf it.data))
          (db.changes ++ [(db.nextId,
            mkDel (dinsert it.data "mtime" t) none)])
          (db.nextId + 1) := by
        have h1 : applyOp db (.delE it t) =
            .ok (deleteEdgeFn db it none true t) := rfl
        rw [h1] at happ
        injection happ with h2
        rw [← h2, deleteEdgeFn_eq]
      subst hdb2
      have hmk : ∀ k, dget (cleandata (dinsert it.data "mtime" t)) k =
          if k = "mtime" then some t else dget old k := by
        intro k
        rw [dget_restored_edge]
        by_cases h1 : isEph k = true
        · rw [if_pos h1]
          have h2 : ¬ k = "mtime" := fun hc => by
            rw [hc] at h1
            exact absurd h1 (by decide)
          rw [if_neg h2, dget_none_of_noEph hclean h1]
        · rw [if_neg h1]
          by_cases h2 : k = "mtime"
          · rw [if_pos h2, if_pos h2]
          · rw [if_neg h2, if_neg h2]
            have h3 : dget (cleandata it.data) k = dget it.data k :=
              dget_cleandata_of_plain it.data k
                (by cases hv : isEph k; rfl; exact absurd hv h1)
            rw [← h3]
            exact dEqB_dget heq k
      have hrec0 : mkDel (dinsert it.data "mtime" t) none =
          ChangeRec.mk (uidOf (dinsert it.data "mtime" t)) none
            (some (cleandata (dinsert it.data "mtime" t))) none := rfl
      have hlast : lastchanges (DB.mk db.nodes
          (tdel db.edges (uidOf it.data))
          (db.changes ++ [(db.nextId,
            mkDel (dinsert it.data "mtime" t) none)])
          (db.nextId + 1)) =
          [(db.nextId, mkDel (dinsert it.data "mtime" t) none)] :=
        lastchanges_single _ db.changes db.nextId _ rfl rfl
      have hm_start : dget (cleandata (dinsert it.data "mtime" t)) "startuid" =
          dget old "startuid" := by
        rw [hmk "startuid"]
        rfl
      have hm_end : dget (cleandata (dinsert it.data "mtime" t)) "enduid" =
          dget old "enduid" := by
        rw [hmk "enduid"]
        rfl
      have hm_uid : dget (cleandata (dinsert it.data "mtime" t)) "uid" =
          some (Val.vs (uidOf it.data)) := by
        rw [hmk "uid"]
        exact huid
      have hm_kind : dget (cleandata (dinsert it.data "mtime" t)) "kind" =
          dget old "kind" := by
        rw [hmk "kind"]
        rfl
      have hm_ctime : dget (cleandata (dinsert it.data "mtime" t)) "ctime" =
          dget old "ctime" := by
        rw [hmk "ctime"]
        rfl
      have hm_mtime : dget (cleandata (dinsert it.data "mtime" t)) "mtime" =
          some t := by
        rw [hmk "mtime"]
        rfl
      have hrec : undoRec (DB.mk db.nodes (tdel db.edges (uidOf it.data))
          (db.changes ++ [(db.nextId,
            mkDel (dinsert it.data "mtime" t) none)])
          (db.nextId + 1)) (mkDel (dinsert it.data "mtime" t) none) =
          saveEdgeFn (DB.mk db.nodes (tdel db.edges (uidOf it.data))
            (db.changes ++ [(db.nextId,
              mkDel (dinsert it.data "mtime" t) none)])
            (db.nextId + 1))
            ⟨cleandata (dinsert it.data "mtime" t),
             dkeys (cleandata (dinsert it.data "mtime" t))⟩ false none false := by
        rw [hrec0, undoRec_minus_only]
        rw [if_pos (show dmem (cleandata (dinsert it.data "mtime" t))
          "startuid" = true from by
            unfold dmem
            rw [hm_start]
            exact isSome_of_isVs hvs1)]
        rw [if_neg (show ¬ (dget (cleandata (dinsert it.data "mtime" t))
            "kind").isNone = true from by
          rw [hm_kind, isNone_false_of_isSome hkind]
          exact Bool.false_ne_true)]
        rw [if_neg (show ¬ (dget (cleandata (dinsert it.data "mtime" t))
            "enduid").isNone = true from by
          rw [hm_end, isNone_false_of_isSome (isSome_of_isVs hvs2)]
          exact Bool.false_ne_true)]
        rw [if_neg (show ¬ ((dget (cleandata (dinsert it.data "mtime" t))
            "uid").isNone ||
            (dget (cleandata (dinsert it.data "mtime" t)) "ctime").isNone ||
            (dget (cleandata (dinsert it.data "mtime" t)) "mtime").isNone) =
            true from by
          rw [hm_uid, hm_ctime, hm_mtime,
            isNone_false_of_isSome hctime]
          exact Bool.false_ne_true)]
      have hsave : saveEdgeFn (DB.mk db.nodes (tdel db.edges (uidOf it.data))
            (db.changes ++ [(db.nextId,
              mkDel (dinsert it.data "mtime" t) none)])
            (db.nextId + 1))
            ⟨cleandata (dinsert it.data "mtime" t),
             dkeys (cleandata (dinsert it.data "mtime" t))⟩ false none false =
          .ok (DB.mk db.nodes
            (pyDictSet (tdel db.edges (uidOf it.data)) (uidOf it.data)
              (cleandata (cleandata (dinsert it.data "mtime" t))))
            (db.changes ++ [(db.nextId,
              mkDel (dinsert it.data "mtime" t) none)])
            (db.nextId + 1)) := by
        rw [saveEdgeFn_nosc]
        rw [if_neg (show ¬ (!false &&
            (dkeys (cleandata (dinsert it.data "mtime" t))).isEmpty) = true
          from by
            rw [show (!false) = true from rfl, Bool.true_and,
              dkeys_isEmpty_false (by rw [hm_uid]; rfl)]
            exact Bool.false_ne_true)]
        rw [if_neg (show ¬ (!(dbExists (DB.mk db.nodes
            (tdel db.edges (uidOf it.data))
            (db.changes ++ [(db.nextId,
              mkDel (dinsert it.data "mtime" t) none)])
            (db.nextId + 1))
            (strAt (cleandata (dinsert it.data "mtime" t)) "startuid"))) = true
          from by
            have hs : strAt (cleandata (dinsert it.data "mtime" t)) "startuid" =
                strAt old "startuid" := by
              unfold strAt
              rw [hm_start]
            rw [hs]
            unfold dbExists
            show (!(omem db.nodes (strAt old "startuid") ||
              omem (tdel db.edges (uidOf it.data)) (strAt old "startuid"))) = true → False
            rw [hom1, Bool.true_or]
            intro hc
            exact absurd hc (by decide))]
        rw [if_neg (show ¬ (!(dbExists (DB.mk db.nodes
            (tdel db.edges (uidOf it.data))
            (db.changes ++ [(db.nextId,
              mkDel (dinsert it.data "mtime" t) none)])
            (db.nextId + 1))
            (strAt (cleandata (dinsert it.data "mtime" t)) "enduid"))) = true
          from by
            have hs : strAt (cleandata (dinsert it.data "mtime" t)) "enduid" =
                strAt old "enduid" := by
              unfold strAt
              rw [hm_end]
            rw [hs]
            unfold dbExists
            show (!(omem db.nodes (strAt old "enduid") ||
              omem (tdel db.edges (uidOf it.data)) (strAt old "enduid"))) = true → False
            rw [hom2, Bool.true_or]
            intro hc
            exact absurd hc (by decide))]
        have huidm : uidOf (cleandata (dinsert it.data "mtime" t)) =
            uidOf it.data := by
          unfold uidOf
          rw [hm_uid]
          rfl
        rw [huidm]
      refine ⟨DB.mk db.nodes
        (pyDictSet (tdel db.edges (uidOf it.data)) (uidOf it.data)
          (cleandata (cleandata (dinsert it.data "mtime" t))))
        db.changes (db.nextId + 1), ?_, rfl, ?_, ?_, ?_, ?_⟩
      · unfold undoStep
        rw [hlast, List.reverse_singleton]
        show (match undoRec (DB.mk db.nodes (tdel db.edges (uidOf it.data))
            (db.changes ++ [(db.nextId,
              mkDel (dinsert it.data "mtime" t) none)])
            (db.nextId + 1)) (mkDel (dinsert it.data "mtime" t) none) with
          | Except.error e => Except.error (e, (DB.mk db.nodes
              (tdel db.edges (uidOf it.data))
              (db.changes ++ [(db.nextId,
                mkDel (dinsert it.data "mtime" t) none)])
              (db.nextId + 1)))
          | Except.ok dbr => undoChunk (removeChange dbr db.nextId) []) = _
        rw [hrec, hsave]
        show Except.ok (removeChange (DB.mk db.nodes
          (pyDictSet (tdel db.edges (uidOf it.data)) (uidOf it.data)
            (cleandata (cleandata (dinsert it.data "mtime" t))))
          (db.changes ++ [(db.nextId,
            mkDel (dinsert it.data "mtime" t) none)])
          (db.nextId + 1)) db.nextId) = _
        unfold removeChange
        rw [show (DB.mk db.nodes
          (pyDictSet (tdel db.edges (uidOf it.data)) (uidOf it.data)
            (cleandata (cleandata (dinsert it.data "mtime" t))))
          (db.changes ++ [(db.nextId,
            mkDel (dinsert it.data "mtime" t) none)])
          (db.nextId + 1)).changes =
          db.changes ++ [(db.nextId,
            mkDel (dinsert it.data "mtime" t) none)] from rfl]
        rw [filter_ids_append _ (fun p hp => Nat.ne_of_lt (hids p hp))]
      · exact tSim_refl db.nodes
      · intro u0
        show obSim (oget (pyDictSet (tdel db.edges (uidOf it.data))
          (uidOf it.data)
          (cleandata (cleandata (dinsert it.data "mtime" t)))) u0)
          (oget db.edges u0)
        rw [oget_pyDictSet]
        by_cases h1 : u0 = uidOf it.data
        · rw [if_pos h1, h1, hold]
          constructor
          · intro k hk
            rw [dget_cleandata]
            by_cases h2 : isEph k = true
            · rw [if_pos h2, dget_none_of_noEph hclean h2]
            · rw [if_neg h2, hmk k, if_neg hk]
          · rw [dget_cleandata, isEph_mtime]
            show (dget (cleandata (dinsert it.data "mtime" t)) "mtime").isSome = _
            rw [hm_mtime, hmtime]
            rfl
        · rw [if_neg h1, oget_tdel, if_neg h1]
          exact obSim_refl _
      · rw [tablesNodup_iff]
        exact ⟨hndN, nodup_pyDictSet _ _ _ (nodup_tdel _ _ hndE)⟩
      · show (db.changes ++ [(db.nextId,
          mkDel (dinsert it.data "mtime" t) none)]).length = _
        rw [List.length_append]
        rfl

theorem removeSpec_some {d1 d2 : Dict} {ck : List String} {k : String} {v : Val}
    (h : removeSpec d1 d2 ck k = some v) : dget d1 k = some v := by
  unfold removeSpec at h
  by_cases h1 : isEph k = true
  · rw [if_pos h1] at h
    cases h
  · rw [if_neg h1] at h
    by_cases h2 : k ∈ ck
    · rw [if_pos h2] at h
      cases hg1 : dget d1 k with
      | none =>
          cases hg2 : dget d2 k with
          | none =>
              rw [hg1, hg2] at h
              cases h
          | some v2 =>
              rw [hg1, hg2] at h
              cases h
      | some v1 =>
          cases hg2 : dget d2 k with
          | none =>
              rw [hg1, hg2] at h
              have h4 : (some v1 : Option Val) = some v := h
              exact h4
          | some v2 =>
              rw [hg1, hg2] at h
              have h4 : (if v1 ≠ v2 then some v1
                else (none : Option Val)) = some v := h
              by_cases h3 : v1 ≠ v2
              · rw [if_pos h3] at h4
                exact h4
              · rw [if_neg h3] at h4
                cases h4
    · rw [if_neg h2] at h
      cases h

theorem addSpec_some_removeSpec_none {d1 d2 : Dict} {ck : List String}
    {k : String} (ha : (addSpec d1 d2 ck k).isSome = true)
    (hr : removeSpec d1 d2 ck k = none) : dget d1 k = none := by
  unfold addSpec at ha
  unfold removeSpec at hr
  by_cases h1 : isEph k = true
  · rw [if_pos h1] at ha
    cases ha
  · rw [if_neg h1] at ha
    rw [if_neg h1] at hr
    by_cases h2 : k ∈ ck
    · rw [if_pos h2] at ha
      rw [if_pos h2] at hr
      cases hg1 : dget d1 k with
      | none => rfl
      | some v1 =>
          cases hg2 : dget d2 k with
          | none =>
              rw [hg1, hg2] at ha
              cases ha
          | some v2 =>
              rw [hg1, hg2] at ha hr
              have ha4 : ((if v1 ≠ v2 then some v2
                else (none : Option Val))).isSome = true := ha
              have hr4 : (if v1 ≠ v2 then some v1
                else (none : Option Val)) = none := hr
              by_cases h3 : v1 ≠ v2
              · rw [if_pos h3] at hr4
                cases hr4
              · rw [if_neg h3] at ha4
                cases ha4
    · rw [if_neg h2] at ha
      cases ha

theorem spec_none_values {d1 d2 : Dict} {ck : List String} {k : String}
    (h1 : isEph k = false) (h2 : k ∈ ck)
    (ha : addSpec d1 d2 ck k = none) (hr : removeSpec d1 d2 ck k = none) :
    dget d1 k = dget d2 k := by
  unfold addSpec at ha
  unfold removeSpec at hr
  have h1n : ¬ isEph k = true := fun hc => by rw [h1] at hc; cases hc
  rw [if_neg h1n, if_pos h2] at ha
  rw [if_neg h1n, if_pos h2] at hr
  cases hg1 : dget d1 k with
  | none =>
      cases hg2 : dget d2 k with
      | none => rfl
      | some v2 =>
          rw [hg1, hg2] at ha
          cases ha
  | some v1 =>
      cases hg2 : dget d2 k with
      | none =>
          rw [hg1, hg2] at hr
          cases hr
      | some v2 =>
          rw [hg1, hg2] at ha
          have ha4 : (if v1 ≠ v2 then some v2
            else (none : Option Val)) = none := ha
          by_cases h3 : v1 ≠ v2
          · rw [if_pos h3] at ha4
            cases ha4
          · push_neg at h3
            rw [h3]

theorem dget_singleton_mtime {d : Dict} (hlen : d.length = 1)
    (hmem : dmem d "mtime" = true) {k : String} (hk : k ≠ "mtime") :
    dget d k = none := by
  cases d with
  | nil => rfl
  | cons p rest =>
      cases rest with
      | nil =>
          obtain ⟨k1, v1⟩ := p
          unfold dmem at hmem
          have hk1 : k1 = "mtime" := by
            by_contra hc
            have h2 : dget [(k1, v1)] "mtime" = none := by
              show (if k1 = "mtime" then some v1 else dget [] "mtime") = none
              rw [if_neg hc]
              rfl
            rw [h2] at hmem
            cases hmem
          show (if k1 = k then some v1 else dget [] k) = none
          rw [if_neg (fun hc : k1 = k => hk (hc ▸ hk1.symm ▸ rfl))]
          rfl
      | cons q rest2 => cases hlen

theorem silent_specs {old new : Dict} {ck : List String}
    (hmod : mkModify old new ck none = none) :
    ∀ k, k ≠ "mtime" →
      addSpec old new ck k = none ∧ removeSpec old new ck k = none := by
  intro k hk
  have h1 : (if ((diff old new ck).1.length = 0 ∧
      (diff old new ck).2.length = 0) then (none : Option ChangeRec)
      else some (ChangeRec.mk (uidOf new)
        (if (diff old new ck).1.length = 0 then none else some (diff old new ck).1)
        (if (diff old new ck).2.length = 0 then none else some (diff old new ck).2)
        none)) = none := hmod
  by_cases h2 : ((diff old new ck).1.length = 0 ∧ (diff old new ck).2.length = 0)
  · have hd1 : (diff old new ck).1 = [] := List.length_eq_zero.1 h2.1
    have hd2 : (diff old new ck).2 = [] := List.length_eq_zero.1 h2.2
    by_cases hsup : mtimeOnly (diffRaw old new ck) = true
    · have hup1 : (diffRaw old new ck).2.length = 1 ∧
          dmem (diffRaw old new ck).2 "mtime" = true ∧
          (diffRaw old new ck).1.length = 1 ∧
          dmem (diffRaw old new ck).1 "mtime" = true := by
        unfold mtimeOnly at hsup
        rw [Bool.and_eq_true, Bool.and_eq_true, Bool.and_eq_true] at hsup
        exact ⟨of_decide_eq_true hsup.1.1.1, hsup.1.1.2,
          of_decide_eq_true hsup.1.2, hsup.2⟩
      constructor
      · rw [← dget_diffRaw_fst]
        exact dget_singleton_mtime hup1.2.2.1 hup1.2.2.2 hk
      · rw [← dget_diffRaw_snd]
        exact dget_singleton_mtime hup1.1 hup1.2.1 hk
    · have hde : diff old new ck = diffRaw old new ck := by
        show (if mtimeOnly (diffRaw old new ck) then (([], []) : Dict × Dict)
          else diffRaw old new ck) = _
        rw [if_neg hsup]
      rw [hde] at hd1 hd2
      constructor
      · rw [← dget_diffRaw_fst, hd1]
        rfl
      · rw [← dget_diffRaw_snd, hd2]
        rfl
  · rw [if_neg h2] at h1
    cases h1

theorem mkModify_some_shape {old new : Dict} {ck : List String} {r : ChangeRec}
    (hr : mkModify old new ck none = some r)
    {v1 v2 : Val}
    (hrm : removeSpec old new ck "mtime" = some v1)
    (had : addSpec old new ck "mtime" = some v2) :
    mtimeOnly (diffRaw old new ck) = false ∧
    r = ChangeRec.mk (uidOf new) (some (diffRaw old new ck).1)
      (some (diffRaw old new ck).2) none := by
  have hsup : mtimeOnly (diffRaw old new ck) = false := by
    cases hs : mtimeOnly (diffRaw old new ck)
    · rfl
    · exfalso
      have hde : diff old new ck = ([], []) := by
        show (if mtimeOnly (diffRaw old new ck) then (([], []) : Dict × Dict)
          else diffRaw old new ck) = _
        rw [if_pos hs]
      have h1 : (if ((diff old new ck).1.length = 0 ∧
          (diff old new ck).2.length = 0) then (none : Option ChangeRec)
          else some (ChangeRec.mk (uidOf new)
            (if (diff old new ck).1.length = 0 then none
              else some (diff old new ck).1)
            (if (diff old new ck).2.length = 0 then none
              else some (diff old new ck).2)
            none)) = some r := hr
      rw [hde] at h1
      rw [if_pos ⟨rfl, rfl⟩] at h1
      cases h1
  have hde : diff old new ck = diffRaw old new ck := by
    show (if mtimeOnly (diffRaw old new ck) then (([], []) : Dict × Dict)
      else diffRaw old new ck) = _
    rw [if_neg (by rw [hsup]; exact Bool.false_ne_true)]
  have hne1 : (diffRaw old new ck).1.length ≠ 0 := by
    intro hc
    have h2 : (diffRaw old new ck).1 = [] := List.length_eq_zero.1 hc
    have h3 := dget_diffRaw_fst old new ck "mtime"
    rw [h2, had] at h3
    cases h3
  have hne2 : (diffRaw old new ck).2.length ≠ 0 := by
    intro hc
    have h2 : (diffRaw old new ck).2 = [] := List.length_eq_zero.1 hc
    have h3 := dget_diffRaw_snd old new ck "mtime"
    rw [h2, hrm] at h3
    cases h3
  refine ⟨hsup, ?_⟩
  have h1 : (if ((diff old new ck).1.length = 0 ∧
      (diff old new ck).2.length = 0) then (none : Option ChangeRec)
      else some (ChangeRec.mk (uidOf new)
        (if (diff old new ck).1.length = 0 then none
          else some (diff old new ck).1)
        (if (diff old new ck).2.length = 0 then none
          else some (diff old new ck).2)
        none)) = some r := hr
  rw [hde] at h1
  rw [if_neg (fun hc => hne1 hc.1), if_neg hne1, if_neg hne2] at h1
  exact (Option.some.inj h1).symm

theorem patch_rev_eq_old (old new bl : Dict) (ck : List String)
    (hagree : agreeOutside bl old ck = true)
    (hbl : ∀ k0, isEph k0 = false → dget bl k0 = dget new k0)
    (k : String) (heph : isEph k = false) :
    dget (patch bl (diffRaw old new ck).1 (diffRaw old new ck).2 true) k =
      dget old k := by
  rw [dget_patch_rev]
  cases hr : removeSpec old new ck k with
  | some v =>
      rw [(removeSpec_some hr : dget old k = some v)]
      rfl
  | none =>
      cases ha : (addSpec old new ck k).isSome with
      | true =>
          rw [(addSpec_some_removeSpec_none ha hr : dget old k = none)]
          rw [if_pos rfl]
          rfl
      | false =>
          rw [if_neg (show ¬ false = true by decide)]
          show dget bl k = dget old k
          by_cases hck : k ∈ ck
          · have hsv := spec_none_values heph hck
              (Option.not_isSome_iff_eq_none.1 (by rw [ha]; exact
                Bool.false_ne_true)) hr
            rw [hbl k heph, ← hsv]
          · exact agreeOutside_dget hagree k hck

theorem patch_rev_mtime (old new bl : Dict) (ck : List String) {v : Val}
    (hrs : removeSpec old new ck "mtime" = some v) :
    dget (patch bl (diffRaw old new ck).1 (diffRaw old new ck).2 true)
      "mtime" = some v := by
  rw [dget_patch_rev, hrs]
  rfl

theorem patch_rev_uid (old new bl : Dict) (ck : List String) (u : String)
    (holdu : dget old "uid" = some (Val.vs u))
    (hblu : dget bl "uid" = some (Val.vs u)) :
    dget (patch bl (diffRaw old new ck).1 (diffRaw old new ck).2 true)
      "uid" = some (Val.vs u) := by
  rw [dget_patch_rev]
  cases hr : removeSpec old new ck "uid" with
  | some v =>
      have h2 := removeSpec_some hr
      rw [holdu] at h2
      rw [← Option.some.inj h2]
      rfl
  | none =>
      cases ha : (addSpec old new ck "uid").isSome with
      | true =>
          have h2 := addSpec_some_removeSpec_none ha hr
          rw [holdu] at h2
          cases h2
      | false =>
          rw [if_neg (show ¬ false = true by decide)]
          exact hblu

theorem omem_false_oget_none {α : Type} {t : List (String × α)} {u : String}
    (h : omem t u = false) : oget t u = none := by
  unfold omem at h
  cases hg : oget t u with
  | none => rfl
  | some b =>
      rw [hg] at h
      cases h

theorem undoStep_single (X Y : DB) (ch : List (Nat × ChangeRec)) (i : Nat)
    (r : ChangeRec) (hch : X.changes = ch ++ [(i, r)]) (hb : r.batch = none)
    (hr : undoRec X r = .ok Y) : undoStep X = .ok (removeChange Y i) := by
  unfold undoStep
  rw [lastchanges_single X ch i r hch hb, List.reverse_singleton]
  show (match undoRec X r with
    | Except.error e => Except.error (e, X)
    | Except.ok dbr => undoChunk (removeChange dbr i) []) = _
  rw [hr]
  rfl

theorem invert_saveN (db db2 : DB) (it : Item)
    (hwf : dbWF db = true) (hok : opOK db (.saveN it) = true)
    (happ : applyOp db (.saveN it) = .ok db2) :
    (db2.changes = db.changes ∧ tSim db2.nodes db.nodes ∧
     tSim db2.edges db.edges ∧ tablesNodup db2 = true) ∨
    (∃ db3, undoStep db2 = .ok db3 ∧ db3.changes = db.changes ∧
      tSim db3.nodes db.nodes ∧ tSim db3.edges db.edges ∧
      tablesNodup db3 = true ∧
      db2.changes.length = db.changes.length + 1) := by
  obtain ⟨hndN, hndE, hdisj, hnodes, hedges, hids⟩ := (dbWF_iff db).1 hwf
  have hok2 : (nodeBlobWF (uidOf it.data) (cleandata it.data) &&
      !(omem db.edges (uidOf it.data)) &&
      (match oget db.nodes (uidOf it.data) with
       | none => true
       | some old =>
           agreeOutside (cleandata it.data) old it.changedkeys &&
           (it.changedkeys.isEmpty || mtimeDirty old it))) = true := hok
  rw [Bool.and_eq_true, Bool.and_eq_true] at hok2
  obtain ⟨⟨hbw, hnoe⟩, hmatch⟩ := hok2
  have hbw2 : blobWF (uidOf it.data) (cleandata it.data) = true ∧
      (!(dmem (cleandata it.data) "startuid")) = true := by
    have h := hbw
    unfold nodeBlobWF at h
    rw [Bool.and_eq_true] at h
    exact h
  obtain ⟨hndbl, hcleanbl, hbluid, hblkind, hblctime, hblmtime⟩ :=
    (blobWF_iff _ _).1 hbw2.1
  have hEnone : oget db.edges (uidOf it.data) = none := by
    apply omem_false_oget_none
    cases hv : omem db.edges (uidOf it.data)
    · rfl
    · rw [hv] at hnoe
      cases hnoe
  have happ2 : db2 = saveNodeFn db it false none true := by
    have h1 : applyOp db (.saveN it) =
        .ok (saveNodeFn db it false none true) := rfl
    rw [h1] at happ
    exact (Except.ok.inj happ).symm
  rw [saveNodeFn_sc] at happ2
  have hcond : (!false && it.changedkeys.isEmpty) = it.changedkeys.isEmpty := by
    rw [show (!false) = true from rfl, Bool.true_and]
  rw [hcond] at happ2
  by_cases hemp : it.changedkeys.isEmpty = true
  · rw [if_pos hemp] at happ2
    subst happ2
    exact Or.inl ⟨rfl, tSim_refl _, tSim_refl _,
      (tablesNodup_iff _).2 ⟨hndN, hndE⟩⟩
  · rw [if_neg hemp] at happ2
    cases hold : oget db.nodes (uidOf it.data) with
    | none =>
        -- fresh add
        rw [getuid_of_none hold hEnone] at happ2
        have happ3 : db2 = DB.mk
            (pyDictSet db.nodes (uidOf it.data) (cleandata it.data)) db.edges
            (db.changes ++ [(db.nextId, mkAdd it.data none)])
            (db.nextId + 1) := happ2
        subst happ3
        have hg2 : oget (DB.mk
            (pyDictSet db.nodes (uidOf it.data) (cleandata it.data)) db.edges
            (db.changes ++ [(db.nextId, mkAdd it.data none)])
            (db.nextId + 1)).nodes (uidOf it.data) =
            some (cleandata it.data) := by
          show oget (pyDictSet db.nodes (uidOf it.data) (cleandata it.data))
            (uidOf it.data) = some (cleandata it.data)
          rw [oget_pyDictSet, if_pos rfl]
        have hinc : incidentUids (DB.mk
            (pyDictSet db.nodes (uidOf it.data) (cleandata it.data)) db.edges
            (db.changes ++ [(db.nextId, mkAdd it.data none)])
            (db.nextId + 1)) (uidOf it.data) = [] := by
          rw [incidentUids_nil_iff (DB.mk
            (pyDictSet db.nodes (uidOf it.data) (cleandata it.data)) db.edges
            (db.changes ++ [(db.nextId, mkAdd it.data none)])
            (db.nextId + 1)) (uidOf it.data) hndE]
          intro u0 b hg hc
          obtain ⟨hbwf2, hvs1, hvs2, hom1, hom2⟩ :=
            hedges (u0, b) (oget_mem_pair _ _ _ hg)
          rcases hc with hc | hc
          · have h2 : omem db.nodes (uidOf it.data) = true := hc ▸ hom1
            unfold omem at h2
            rw [hold] at h2
            cases h2
          · have h2 : omem db.nodes (uidOf it.data) = true := hc ▸ hom2
            unfold omem at h2
            rw [hold] at h2
            cases h2
        have hie : (incidentUids (DB.mk
            (pyDictSet db.nodes (uidOf it.data) (cleandata it.data)) db.edges
            (db.changes ++ [(db.nextId, mkAdd it.data none)])
            (db.nextId + 1)) (uidOf it.data)).isEmpty = true := by
          rw [hinc]
          rfl
        have hrec : undoRec (DB.mk
            (pyDictSet db.nodes (uidOf it.data) (cleandata it.data)) db.edges
            (db.changes ++ [(db.nextId, mkAdd it.data none)])
            (db.nextId + 1)) (mkAdd it.data none) = .ok (DB.mk
            (tdel (pyDictSet db.nodes (uidOf it.data) (cleandata it.data))
              (uidOf it.data)) db.edges
            (db.changes ++ [(db.nextId, mkAdd it.data none)])
            (db.nextId + 1)) := by
          show undoRec _ (ChangeRec.mk (uidOf it.data)
            (some (cleandata it.data)) none none) = _
          rw [undoRec_plus_only, getuid_of_node hg2, if_pos hie]
        have hstep := undoStep_single _ _ db.changes db.nextId
          (mkAdd it.data none) rfl rfl hrec
        refine Or.inr ⟨_, hstep, ?_, ?_, tSim_refl _, ?_, ?_⟩
        · show ((db.changes ++ [(db.nextId, mkAdd it.data none)]).filter
            (fun p => decide (p.1 ≠ db.nextId))) = db.changes
          rw [filter_ids_append _ (fun p hp => Nat.ne_of_lt (hids p hp))]
        · intro u0
          show obSim (oget (tdel (pyDictSet db.nodes (uidOf it.data)
            (cleandata it.data)) (uidOf it.data)) u0) (oget db.nodes u0)
          rw [oget_tdel]
          by_cases h1 : u0 = uidOf it.data
          · rw [if_pos h1, h1, hold]
            trivial
          · rw [if_neg h1, oget_pyDictSet, if_neg h1]
            exact obSim_refl _
        · rw [tablesNodup_iff]
          exact ⟨nodup_tdel _ _ (nodup_pyDictSet _ _ _ hndN), hndE⟩
        · show (db.changes ++ [(db.nextId, mkAdd it.data none)]).length = _
          rw [List.length_append]
          rfl
    | some old =>
        -- modify
        rw [getuid_of_node hold] at happ2
        have happ2b : db2 = appendChange
            (DB.mk (pyDictSet db.nodes (uidOf it.data) (cleandata it.data))
              db.edges db.changes db.nextId)
            (mkModify old it.data it.changedkeys none) := happ2
        have hmatch2 : (agreeOutside (cleandata it.data) old it.changedkeys &&
            (it.changedkeys.isEmpty || mtimeDirty old it)) = true := by
          have h := hmatch
          rw [hold] at h
          exact h
        rw [Bool.and_eq_true, Bool.or_eq_true] at hmatch2
        obtain ⟨hagree, hdirty0⟩ := hmatch2
        have hdirty : mtimeDirty old it = true := by
          rcases hdirty0 with h | h
          · exact absurd h hemp
          · exact h
        have hdirty2 : "mtime" ∈ it.changedkeys ∧
            dget it.data "mtime" ≠ dget old "mtime" := by
          have h := hdirty
          unfold mtimeDirty at h
          rw [Bool.and_eq_true] at h
          exact ⟨of_decide_eq_true h.1, bne_iff_ne.1 h.2⟩
        obtain ⟨holdnd, holdclean, holduid, holdkind, holdctime, holdmtime⟩ :=
          (blobWF_iff _ _).1 (by
            have h := hnodes (uidOf it.data, old) (oget_mem_pair _ _ _ hold)
            unfold nodeBlobWF at h
            rw [Bool.and_eq_true] at h
            exact h.1)
        obtain ⟨v1, hv1⟩ := Option.isSome_iff_exists.1 holdmtime
        have hnewm : dget it.data "mtime" = dget (cleandata it.data) "mtime" :=
          (dget_cleandata_of_plain it.data "mtime" isEph_mtime).symm
        obtain ⟨v2, hv2⟩ := Option.isSome_iff_exists.1 hblmtime
        have hv2a : dget it.data "mtime" = some v2 := by rw [hnewm, hv2]
        have hvne : v1 ≠ v2 := by
          intro hc
          apply hdirty2.2
          rw [hv2a, hv1, hc]
        have hrs : removeSpec old it.data it.changedkeys "mtime" = some v1 := by
          unfold removeSpec
          rw [if_neg (show ¬ isEph "mtime" = true by decide),
            if_pos hdirty2.1, hv1, hv2a]
          show (if v1 ≠ v2 then some v1 else none) = some v1
          rw [if_pos hvne]
        have has : addSpec old it.data it.changedkeys "mtime" = some v2 := by
          unfold addSpec
          rw [if_neg (show ¬ isEph "mtime" = true by decide),
            if_pos hdirty2.1, hv1, hv2a]
          show (if v1 ≠ v2 then some v2 else none) = some v2
          rw [if_pos hvne]
        cases hmod : mkModify old it.data it.changedkeys none with
        | none =>
            rw [hmod] at happ2b
            have happ3 : db2 = DB.mk
                (pyDictSet db.nodes (uidOf it.data) (cleandata it.data))
                db.edges db.changes db.nextId := happ2b
            subst happ3
            refine Or.inl ⟨rfl, ?_, tSim_refl _, ?_⟩
            · intro u0
              show obSim (oget (pyDictSet db.nodes (uidOf it.data)
                (cleandata it.data)) u0) (oget db.nodes u0)
              rw [oget_pyDictSet]
              by_cases h1 : u0 = uidOf it.data
              · rw [if_pos h1, h1, hold]
                constructor
                · intro k hkm
                  by_cases heph : isEph k = true
                  · rw [dget_none_of_noEph hcleanbl heph,
                      dget_none_of_noEph holdclean heph]
                  · have hephf : isEph k = false := by
                      cases hv : isEph k
                      · rfl
                      · exact absurd hv heph
                    obtain ⟨hA, hR⟩ := silent_specs hmod k hkm
                    by_cases hck : k ∈ it.changedkeys
                    · have h2 := spec_none_values hephf hck hA hR
                      rw [dget_cleandata_of_plain it.data k hephf, ← h2]
                    · exact agreeOutside_dget hagree k hck
                · rw [hv2, hv1]
                  rfl
              · rw [if_neg h1]
                exact obSim_refl _
            · rw [tablesNodup_iff]
              exact ⟨nodup_pyDictSet _ _ _ hndN, hndE⟩
        | some r =>
            obtain ⟨hsup, hrshape⟩ := mkModify_some_shape hmod hrs has
            rw [hmod] at happ2b
            subst hrshape
            have happ3 : db2 = DB.mk
                (pyDictSet db.nodes (uidOf it.data) (cleandata it.data))
                db.edges
                (db.changes ++ [(db.nextId, ChangeRec.mk (uidOf it.data)
                  (some (diffRaw old it.data it.changedkeys).1)
                  (some (diffRaw old it.data it.changedkeys).2) none)])
                (db.nextId + 1) := happ2b
            subst happ3
            have hg2 : oget (DB.mk
                (pyDictSet db.nodes (uidOf it.data) (cleandata it.data))
                db.edges
                (db.changes ++ [(db.nextId, ChangeRec.mk (uidOf it.data)
                  (some (diffRaw old it.data it.changedkeys).1)
                  (some (diffRaw old it.data it.changedkeys).2) none)])
                (db.nextId + 1)).nodes (uidOf it.data) =
                some (cleandata it.data) := by
              show oget (pyDictSet db.nodes (uidOf it.data)
                (cleandata it.data)) (uidOf it.data) = some (cleandata it.data)
              rw [oget_pyDictSet, if_pos rfl]
            have hup : dget (patch (cleandata it.data)
                (diffRaw old it.data it.changedkeys).1
                (diffRaw old it.data it.changedkeys).2 true) "uid" =
                some (Val.vs (uidOf it.data)) :=
              patch_rev_uid old it.data (cleandata it.data) it.changedkeys
                (uidOf it.data) holduid hbluid
            have hupuid : uidOf (patch (cleandata it.data)
                (diffRaw old it.data it.changedkeys).1
                (diffRaw old it.data it.changedkeys).2 true) =
                uidOf it.data := by
              unfold uidOf
              rw [hup]
              rfl
            have hrec : undoRec (DB.mk
                (pyDictSet db.nodes (uidOf it.data) (cleandata it.data))
                db.edges
                (db.changes ++ [(db.nextId, ChangeRec.mk (uidOf it.data)
                  (some (diffRaw old it.data it.changedkeys).1)
                  (some (diffRaw old it.data it.changedkeys).2) none)])
                (db.nextId + 1)) (ChangeRec.mk (uidOf it.data)
                  (some (diffRaw old it.data it.changedkeys).1)
                  (some (diffRaw old it.data it.changedkeys).2) none) =
                .ok (DB.mk
                  (pyDictSet (pyDictSet db.nodes (uidOf it.data)
                    (cleandata it.data)) (uidOf it.data)
                    (cleandata (patch (cleandata it.data)
                      (diffRaw old it.data it.changedkeys).1
                      (diffRaw old it.data it.changedkeys).2 true)))
                  db.edges
                  (db.changes ++ [(db.nextId, ChangeRec.mk (uidOf it.data)
                    (some (diffRaw old it.data it.changedkeys).1)
                    (some (diffRaw old it.data it.changedkeys).2) none)])
                  (db.nextId + 1)) := by
              rw [undoRec_both, getuid_of_node hg2]
              show Except.ok (saveNodeFn (DB.mk
                (pyDictSet db.nodes (uidOf it.data) (cleandata it.data))
                db.edges
                (db.changes ++ [(db.nextId, ChangeRec.mk (uidOf it.data)
                  (some (diffRaw old it.data it.changedkeys).1)
                  (some (diffRaw old it.data it.changedkeys).2) none)])
                (db.nextId + 1))
                ⟨patch (cleandata it.data)
                  (diffRaw old it.data it.changedkeys).1
                  (diffRaw old it.data it.changedkeys).2 true, []⟩
                true none false) = _
              rw [saveNodeFn_nosc]
              rw [if_neg (show ¬ (!true &&
                  (([] : List String)).isEmpty) = true by decide)]
              rw [hupuid]
            have hstep := undoStep_single _ _ db.changes db.nextId
              (ChangeRec.mk (uidOf it.data)
                (some (diffRaw old it.data it.changedkeys).1)
                (some (diffRaw old it.data it.changedkeys).2) none)
              rfl rfl hrec
            refine Or.inr ⟨_, hstep, ?_, ?_, tSim_refl _, ?_, ?_⟩
            · show ((db.changes ++ [(db.nextId, ChangeRec.mk (uidOf it.data)
                (some (diffRaw old it.data it.changedkeys).1)
                (some (diffRaw old it.data it.changedkeys).2) none)]).filter
                (fun p => decide (p.1 ≠ db.nextId))) = db.changes
              rw [filter_ids_append _ (fun p hp => Nat.ne_of_lt (hids p hp))]
            · intro u0
              show obSim (oget (pyDictSet (pyDictSet db.nodes (uidOf it.data)
                (cleandata it.data)) (uidOf it.data)
                (cleandata (patch (cleandata it.data)
                  (diffRaw old it.data it.changedkeys).1
                  (diffRaw old it.data it.changedkeys).2 true))) u0)
                (oget db.nodes u0)
              rw [oget_pyDictSet]
              by_cases h1 : u0 = uidOf it.data
              · rw [if_pos h1, h1, hold]
                constructor
                · intro k hkm
                  rw [dget_cleandata]
                  by_cases heph : isEph k = true
                  · rw [if_pos heph, dget_none_of_noEph holdclean heph]
                  · have hephf : isEph k = false := by
                      cases hv : isEph k
                      · rfl
                      · exact absurd hv heph
                    rw [if_neg heph]
                    exact patch_rev_eq_old old it.data (cleandata it.data)
                      it.changedkeys hagree
                      (fun k0 h0 => dget_cleandata_of_plain it.data k0 h0)
                      k hephf
                · rw [dget_cleandata, isEph_mtime]
                  show (dget (patch (cleandata it.data)
                    (diffRaw old it.data it.changedkeys).1
                    (diffRaw old it.data it.changedkeys).2 true)
                    "mtime").isSome = _
                  rw [patch_rev_eq_old old it.data (cleandata it.data)
                    it.changedkeys hagree
                    (fun k0 h0 => dget_cleandata_of_plain it.data k0 h0)
                    "mtime" isEph_mtime]
              · rw [if_neg h1, oget_pyDictSet, if_neg h1]
                exact obSim_refl _
            · rw [tablesNodup_iff]
              exact ⟨nodup_pyDictSet _ _ _ (nodup_pyDictSet _ _ _ hndN), hndE⟩
            · show (db.changes ++ [(db.nextId, ChangeRec.mk (uidOf it.data)
                (some (diffRaw old it.data it.changedkeys).1)
                (some (diffRaw old it.data it.changedkeys).2) none)]).length = _
              rw [List.length_append]
              rfl

theorem invert_saveE (db db2 : DB) (it : Item)
    (hwf : dbWF db = true) (hok : opOK db (.saveE it) = true)
    (happ : applyOp db (.saveE it) = .ok db2) :
    (db2.changes = db.changes ∧ tSim db2.nodes db.nodes ∧
     tSim db2.edges db.edges ∧ tablesNodup db2 = true) ∨
    (∃ db3, undoStep db2 = .ok db3 ∧ db3.changes = db.changes ∧
      tSim db3.nodes db.nodes ∧ tSim db3.edges db.edges ∧
      tablesNodup db3 = true ∧
      db2.changes.length = db.changes.length + 1) := by
  obtain ⟨hndN, hndE, hdisj, hnodes, hedges, hids⟩ := (dbWF_iff db).1 hwf
  have hok2 : (blobWF (uidOf it.data) (cleandata it.data) &&
      isVs (dget (cleandata it.data) "startuid") &&
      isVs (dget (cleandata it.data) "enduid") &&
      omem db.nodes (strAt (cleandata it.data) "startuid") &&
      omem db.nodes (strAt (cleandata it.data) "enduid") &&
      !(omem db.nodes (uidOf it.data)) &&
      (match oget db.edges (uidOf it.data) with
       | none => true
       | some old =>
           agreeOutside (cleandata it.data) old it.changedkeys &&
           (it.changedkeys.isEmpty || mtimeDirty old it))) = true := hok
  rw [Bool.and_eq_true, Bool.and_eq_true, Bool.and_eq_true, Bool.and_eq_true,
    Bool.and_eq_true, Bool.and_eq_true] at hok2
  obtain ⟨⟨⟨⟨⟨⟨hbw, hvsS⟩, hvsE⟩, homS⟩, homE⟩, hnoN⟩, hmatch⟩ := hok2
  obtain ⟨hndbl, hcleanbl, hbluid, hblkind, hblctime, hblmtime⟩ :=
    (blobWF_iff _ _).1 hbw
  have hNnone : oget db.nodes (uidOf it.data) = none := by
    apply omem_false_oget_none
    cases hv : omem db.nodes (uidOf it.data)
    · rfl
    · rw [hv] at hnoN
      cases hnoN
  have hstS : strAt it.data "startuid" =
      strAt (cleandata it.data) "startuid" := by
    unfold strAt
    rw [dget_cleandata_of_plain it.data "startuid" (by decide)]
  have hstE : strAt it.data "enduid" = strAt (cleandata it.data) "enduid" := by
    unfold strAt
    rw [dget_cleandata_of_plain it.data "enduid" (by decide)]
  have hexS : (!(dbExists db (strAt it.data "startuid"))) = false := by
    unfold dbExists
    rw [hstS, homS, Bool.true_or]
    rfl
  have hexE : (!(dbExists db (strAt it.data "enduid"))) = false := by
    unfold dbExists
    rw [hstE, homE, Bool.true_or]
    rfl
  have happ2 : Except.ok db2 = saveEdgeFn db it false none true := by
    have h1 : applyOp db (.saveE it) = saveEdgeFn db it false none true := rfl
    rw [h1] at happ
    exact happ.symm
  rw [saveEdgeFn_sc] at happ2
  have hcond : (!false && it.changedkeys.isEmpty) = it.changedkeys.isEmpty := by
    rw [show (!false) = true from rfl, Bool.true_and]
  rw [hcond] at happ2
  by_cases hemp : it.changedkeys.isEmpty = true
  · rw [if_pos hemp] at happ2
    have hdb2 : db2 = db := Except.ok.inj happ2
    subst hdb2
    exact Or.inl ⟨rfl, tSim_refl _, tSim_refl _,
      (tablesNodup_iff _).2 ⟨hndN, hndE⟩⟩
  · rw [if_neg hemp,
      if_neg (show ¬ (!(dbExists db (strAt it.data "startuid"))) = true from by
        rw [hexS]; exact Bool.false_ne_true),
      if_neg (show ¬ (!(dbExists db (strAt it.data "enduid"))) = true from by
        rw [hexE]; exact Bool.false_ne_true)] at happ2
    cases hold : oget db.edges (uidOf it.data) with
    | none =>
        -- fresh add
        rw [getuid_of_none hNnone hold] at happ2
        have happ3 : db2 = DB.mk db.nodes
            (pyDictSet db.edges (uidOf it.data) (cleandata it.data))
            (db.changes ++ [(db.nextId, mkAdd it.data none)])
            (db.nextId + 1) := Except.ok.inj happ2
        subst happ3
        have hgN : oget (DB.mk db.nodes
            (pyDictSet db.edges (uidOf it.data) (cleandata it.data))
            (db.changes ++ [(db.nextId, mkAdd it.data none)])
            (db.nextId + 1)).nodes (uidOf it.data) = none := hNnone
        have hgE : oget (DB.mk db.nodes
            (pyDictSet db.edges (uidOf it.data) (cleandata it.data))
            (db.changes ++ [(db.nextId, mkAdd it.data none)])
            (db.nextId + 1)).edges (uidOf it.data) =
            some (cleandata it.data) := by
          show oget (pyDictSet db.edges (uidOf it.data) (cleandata it.data))
            (uidOf it.data) = some (cleandata it.data)
          rw [oget_pyDictSet, if_pos rfl]
        have hrec : undoRec (DB.mk db.nodes
            (pyDictSet db.edges (uidOf it.data) (cleandata it.data))
            (db.changes ++ [(db.nextId, mkAdd it.data none)])
            (db.nextId + 1)) (mkAdd it.data none) = .ok (DB.mk db.nodes
            (tdel (pyDictSet db.edges (uidOf it.data) (cleandata it.data))
              (uidOf it.data))
            (db.changes ++ [(db.nextId, mkAdd it.data none)])
            (db.nextId + 1)) := by
          show undoRec _ (ChangeRec.mk (uidOf it.data)
            (some (cleandata it.data)) none none) = _
          rw [undoRec_plus_only, getuid_of_edge hgN hgE]
        have hstep := undoStep_single _ _ db.changes db.nextId
          (mkAdd it.data none) rfl rfl hrec
        refine Or.inr ⟨_, hstep, ?_, tSim_refl _, ?_, ?_, ?_⟩
        · show ((db.changes ++ [(db.nextId, mkAdd it.data none)]).filter
            (fun p => decide (p.1 ≠ db.nextId))) = db.changes
          rw [filter_ids_append _ (fun p hp => Nat.ne_of_lt (hids p hp))]
        · intro u0
          show obSim (oget (tdel (pyDictSet db.edges (uidOf it.data)
            (cleandata it.data)) (uidOf it.data)) u0) (oget db.edges u0)
          rw [oget_tdel]
          by_cases h1 : u0 = uidOf it.data
          · rw [if_pos h1, h1, hold]
            trivial
          · rw [if_neg h1, oget_pyDictSet, if_neg h1]
            exact obSim_refl _
        · rw [tablesNodup_iff]
          exact ⟨hndN, nodup_tdel _ _ (nodup_pyDictSet _ _ _ hndE)⟩
        · show (db.changes ++ [(db.nextId, mkAdd it.data none)]).length = _
          rw [List.length_append]
          rfl
    | some old =>
        -- modify
        rw [getuid_of_edge hNnone hold] at happ2
        have happ2b : db2 = appendChange
            (DB.mk db.nodes
              (pyDictSet db.edges (uidOf it.data) (cleandata it.data))
              db.changes db.nextId)
            (mkModify old it.data it.changedkeys none) := Except.ok.inj happ2
        have hmatch2 : (agreeOutside (cleandata it.data) old it.changedkeys &&
            (it.changedkeys.isEmpty || mtimeDirty old it)) = true := by
          have h := hmatch
          rw [hold] at h
          exact h
        rw [Bool.and_eq_true, Bool.or_eq_true] at hmatch2
        obtain ⟨hagree, hdirty0⟩ := hmatch2
        have hdirty : mtimeDirty old it = true := by
          rcases hdirty0 with h | h
          · exact absurd h hemp
          · exact h
        have hdirty2 : "mtime" ∈ it.changedkeys ∧
            dget it.data "mtime" ≠ dget old "mtime" := by
          have h := hdirty
          unfold mtimeDirty at h
          rw [Bool.and_eq_true] at h
          exact ⟨of_decide_eq_true h.1, bne_iff_ne.1 h.2⟩
        obtain ⟨hbwfO, hvs1O, hvs2O, hom1O, hom2O⟩ :=
          hedges (uidOf it.data, old) (oget_mem_pair _ _ _ hold)
        obtain ⟨holdnd, holdclean, holduid, holdkind, holdctime, holdmtime⟩ :=
          (blobWF_iff _ _).1 hbwfO
        obtain ⟨v1, hv1⟩ := Option.isSome_iff_exists.1 holdmtime
        have hnewm : dget it.data "mtime" = dget (cleandata it.data) "mtime" :=
          (dget_cleandata_of_plain it.data "mtime" isEph_mtime).symm
        obtain ⟨v2, hv2⟩ := Option.isSome_iff_exists.1 hblmtime
        have hv2a : dget it.data "mtime" = some v2 := by rw [hnewm, hv2]
        have hvne : v1 ≠ v2 := by
          intro hc
          apply hdirty2.2
          rw [hv2a, hv1, hc]
        have hrs : removeSpec old it.data it.changedkeys "mtime" = some v1 := by
          unfold removeSpec
          rw [if_neg (show ¬ isEph "mtime" = true by decide),
            if_pos hdirty2.1, hv1, hv2a]
          show (if v1 ≠ v2 then some v1 else none) = some v1
          rw [if_pos hvne]
        have has : addSpec old it.data it.changedkeys "mtime" = some v2 := by
          unfold addSpec
          rw [if_neg (show ¬ isEph "mtime" = true by decide),
            if_pos hdirty2.1, hv1, hv2a]
          show (if v1 ≠ v2 then some v2 else none) = some v2
          rw [if_pos hvne]
        cases hmod : mkModify old it.data it.changedkeys none with
        | none =>
            rw [hmod] at happ2b
            have happ3 : db2 = DB.mk db.nodes
                (pyDictSet db.edges (uidOf it.data) (cleandata it.data))
                db.changes db.nextId := happ2b
            subst happ3
            refine Or.inl ⟨rfl, tSim_refl _, ?_, ?_⟩
            · intro u0
              show obSim (oget (pyDictSet db.edges (uidOf it.data)
                (cleandata it.data)) u0) (oget db.edges u0)
              rw [oget_pyDictSet]
              by_cases h1 : u0 = uidOf it.data
              · rw [if_pos h1, h1, hold]
                constructor
                · intro k hkm
                  by_cases heph : isEph k = true
                  · rw [dget_none_of_noEph hcleanbl heph,
                      dget_none_of_noEph holdclean heph]
                  · have hephf : isEph k = false := by
                      cases hv : isEph k
                      · rfl
                      · exact absurd hv heph
                    obtain ⟨hA, hR⟩ := silent_specs hmod k hkm
                    by_cases hck : k ∈ it.changedkeys
                    · have h2 := spec_none_values hephf hck hA hR
                      rw [dget_cleandata_of_plain it.data k hephf, ← h2]
                    · exact agreeOutside_dget hagree k hck
                · rw [hv2, hv1]
                  rfl
              · rw [if_neg h1]
                exact obSim_refl _
            · rw [tablesNodup_iff]
              exact ⟨hndN, nodup_pyDictSet _ _ _ hndE⟩
        | some r =>
            obtain ⟨hsup, hrshape⟩ := mkModify_some_shape hmod hrs has
            rw [hmod] at happ2b
            subst hrshape
            have happ3 : db2 = DB.mk db.nodes
                (pyDictSet db.edges (uidOf it.data) (cleandata it.data))
                (db.changes ++ [(db.nextId, ChangeRec.mk (uidOf it.data)
                  (some (diffRaw old it.data it.changedkeys).1)
                  (some (diffRaw old it.data it.changedkeys).2) none)])
                (db.nextId + 1) := happ2b
            subst happ3
            have hgN : oget (DB.mk db.nodes
                (pyDictSet db.edges (uidOf it.data) (cleandata it.data))
                (db.changes ++ [(db.nextId, ChangeRec.mk (uidOf it.data)
                  (some (diffRaw old it.data it.changedkeys).1)
                  (some (diffRaw old it.data it.changedkeys).2) none)])
                (db.nextId + 1)).nodes (uidOf it.data) = none := hNnone
            have hgE : oget (DB.mk db.nodes
                (pyDictSet db.edges (uidOf it.data) (cleandata it.data))
                (db.changes ++ [(db.nextId, ChangeRec.mk (uidOf it.data)
                  (some (diffRaw old it.data it.changedkeys).1)
                  (some (diffRaw old it.data it.changedkeys).2) none)])
                (db.nextId + 1)).edges (uidOf it.data) =
                some (cleandata it.data) := by
              show oget (pyDictSet db.edges (uidOf it.data)
                (cleandata it.data)) (uidOf it.data) = some (cleandata it.data)
              rw [oget_pyDictSet, if_pos rfl]
            have hblfact : ∀ k0, isEph k0 = false →
                dget (cleandata it.data) k0 = dget it.data k0 :=
              fun k0 h0 => dget_cleandata_of_plain it.data k0 h0
            have hpS : dget (patch (cleandata it.data)
                (diffRaw old it.data it.changedkeys).1
                (diffRaw old it.data it.changedkeys).2 true) "startuid" =
                dget old "startuid" :=
              patch_rev_eq_old old it.data (cleandata it.data) it.changedkeys
                hagree hblfact "startuid" (by decide)
            have hpE : dget (patch (cleandata it.data)
                (diffRaw old it.data it.changedkeys).1
                (diffRaw old it.data it.changedkeys).2 true) "enduid" =
                dget old "enduid" :=
              patch_rev_eq_old old it.data (cleandata it.data) it.changedkeys
                hagree hblfact "enduid" (by decide)
            have hup : dget (patch (cleandata it.data)
                (diffRaw old it.data it.changedkeys).1
                (diffRaw old it.data it.changedkeys).2 true) "uid" =
                some (Val.vs (uidOf it.data)) :=
              patch_rev_uid old it.data (cleandata it.data) it.changedkeys
                (uidOf it.data) holduid hbluid
            have hupuid : uidOf (patch (cleandata it.data)
                (diffRaw old it.data it.changedkeys).1
                (diffRaw old it.data it.changedkeys).2 true) =
                uidOf it.data := by
              unfold uidOf
              rw [hup]
              rfl
            have hrec : undoRec (DB.mk db.nodes
                (pyDictSet db.edges (uidOf it.data) (cleandata it.data))
                (db.changes ++ [(db.nextId, ChangeRec.mk (uidOf it.data)
                  (some (diffRaw old it.data it.changedkeys).1)
                  (some (diffRaw old it.data it.changedkeys).2) none)])
                (db.nextId + 1)) (ChangeRec.mk (uidOf it.data)
                  (some (diffRaw old it.data it.changedkeys).1)
                  (some (diffRaw old it.data it.changedkeys).2) none) =
                .ok (DB.mk db.nodes
                  (pyDictSet (pyDictSet db.edges (uidOf it.data)
                    (cleandata it.data)) (uidOf it.data)
                    (cleandata (patch (cleandata it.data)
                      (diffRaw old it.data it.changedkeys).1
                      (diffRaw old it.data it.changedkeys).2 true)))
                  (db.changes ++ [(db.nextId, ChangeRec.mk (uidOf it.data)
                    (some (diffRaw old it.data it.changedkeys).1)
                    (some (diffRaw old it.data it.changedkeys).2) none)])
                  (db.nextId + 1)) := by
              rw [undoRec_both, getuid_of_edge hgN hgE]
              show saveEdgeFn (DB.mk db.nodes
                (pyDictSet db.edges (uidOf it.data) (cleandata it.data))
                (db.changes ++ [(db.nextId, ChangeRec.mk (uidOf it.data)
                  (some (diffRaw old it.data it.changedkeys).1)
                  (some (diffRaw old it.data it.changedkeys).2) none)])
                (db.nextId + 1))
                ⟨patch (cleandata it.data)
                  (diffRaw old it.data it.changedkeys).1
                  (diffRaw old it.data it.changedkeys).2 true, []⟩
                true none false = _
              rw [saveEdgeFn_nosc]
              rw [if_neg (show ¬ (!true &&
                  (([] : List String)).isEmpty) = true by decide)]
              rw [if_neg (show ¬ (!(dbExists (DB.mk db.nodes
                  (pyDictSet db.edges (uidOf it.data) (cleandata it.data))
                  (db.changes ++ [(db.nextId, ChangeRec.mk (uidOf it.data)
                    (some (diffRaw old it.data it.changedkeys).1)
                    (some (diffRaw old it.data it.changedkeys).2) none)])
                  (db.nextId + 1))
                  (strAt (patch (cleandata it.data)
                    (diffRaw old it.data it.changedkeys).1
                    (diffRaw old it.data it.changedkeys).2 true)
                    "startuid"))) = true from by
                have hs : strAt (patch (cleandata it.data)
                    (diffRaw old it.data it.changedkeys).1
                    (diffRaw old it.data it.changedkeys).2 true) "startuid" =
                    strAt old "startuid" := by
                  unfold strAt
                  rw [hpS]
                rw [hs]
                unfold dbExists
                show (!(omem db.nodes (strAt old "startuid") ||
                  omem (pyDictSet db.edges (uidOf it.data)
                    (cleandata it.data)) (strAt old "startuid"))) = true → False
                rw [hom1O, Bool.true_or]
                intro hc
                exact absurd hc (by decide))]
              rw [if_neg (show ¬ (!(dbExists (DB.mk db.nodes
                  (pyDictSet db.edges (uidOf it.data) (cleandata it.data))
                  (db.changes ++ [(db.nextId, ChangeRec.mk (uidOf it.data)
                    (some (diffRaw old it.data it.changedkeys).1)
                    (some (diffRaw old it.data it.changedkeys).2) none)])
                  (db.nextId + 1))
                  (strAt (patch (cleandata it.data)
                    (diffRaw old it.data it.changedkeys).1
                    (diffRaw old it.data it.changedkeys).2 true)
                    "enduid"))) = true from by
                have hs : strAt (patch (cleandata it.data)
                    (diffRaw old it.data it.changedkeys).1
                    (diffRaw old it.data it.changedkeys).2 true) "enduid" =
                    strAt old "enduid" := by
                  unfold strAt
                  rw [hpE]
                rw [hs]
                unfold dbExists
                show (!(omem db.nodes (strAt old "enduid") ||
                  omem (pyDictSet db.edges (uidOf it.data)
                    (cleandata it.data)) (strAt old "enduid"))) = true → False
                rw [hom2O, Bool.true_or]
                intro hc
                exact absurd hc (by decide))]
              rw [hupuid]
            have hstep := undoStep_single _ _ db.changes db.nextId
              (ChangeRec.mk (uidOf it.data)
                (some (diffRaw old it.data it.changedkeys).1)
                (some (diffRaw old it.data it.changedkeys).2) none)
              rfl rfl hrec
            refine Or.inr ⟨_, hstep, ?_, tSim_refl _, ?_, ?_, ?_⟩
            · show ((db.changes ++ [(db.nextId, ChangeRec.mk (uidOf it.data)
                (some (diffRaw old it.data it.changedkeys).1)
                (some (diffRaw old it.data it.changedkeys).2) none)]).filter
                (fun p => decide (p.1 ≠ db.nextId))) = db.changes
              rw [filter_ids_append _ (fun p hp => Nat.ne_of_lt (hids p hp))]
            · intro u0
              show obSim (oget (pyDictSet (pyDictSet db.edges (uidOf it.data)
                (cleandata it.data)) (uidOf it.data)
                (cleandata (patch (cleandata it.data)
                  (diffRaw old it.data it.changedkeys).1
                  (diffRaw old it.data it.changedkeys).2 true))) u0)
                (oget db.edges u0)
              rw [oget_pyDictSet]
              by_cases h1 : u0 = uidOf it.data
              · rw [if_pos h1, h1, hold]
                constructor
                · intro k hkm
                  rw [dget_cleandata]
                  by_cases heph : isEph k = true
                  · rw [if_pos heph, dget_none_of_noEph holdclean heph]
                  · have hephf : isEph k = false := by
                      cases hv : isEph k
                      · rfl
                      · exact absurd hv heph
                    rw [if_neg heph]
                    exact patch_rev_eq_old old it.data (cleandata it.data)
                      it.changedkeys hagree hblfact k hephf
                · rw [dget_cleandata, isEph_mtime]
                  show (dget (patch (cleandata it.data)
                    (diffRaw old it.data it.changedkeys).1
                    (diffRaw old it.data it.changedkeys).2 true)
                    "mtime").isSome = _
                  rw [patch_rev_eq_old old it.data (cleandata it.data)
                    it.changedkeys hagree hblfact "mtime" isEph_mtime]
              · rw [if_neg h1, oget_pyDictSet, if_neg h1]
                exact obSim_refl _
            · rw [tablesNodup_iff]
              exact ⟨hndN, nodup_pyDictSet _ _ _ (nodup_pyDictSet _ _ _ hndE)⟩
            · show (db.changes ++ [(db.nextId, ChangeRec.mk (uidOf it.data)
                (some (diffRaw old it.data it.changedkeys).1)
                (some (diffRaw old it.data it.changedkeys).2) none)]).length = _
              rw [List.length_append]
              rfl

theorem uidOf_eq_of_uid (d : Dict) (u : String)
    (h : dget d "uid" = some (Val.vs u)) : uidOf d = u := by
  unfold uidOf
  rw [h]

theorem delRecs_ids (t : Table) (b : Option String) (s : Nat)
    (l : List (String × Val)) :
    ∀ p ∈ delRecs t b s l, s ≤ p.1 ∧ p.1 < s + l.length := by
  induction l generalizing s with
  | nil =>
      intro p hp
      cases hp
  | cons q rest ih =>
      intro p hp
      rw [delRecs_cons] at hp
      rcases List.mem_cons.1 hp with h | h
      · rw [h]
        show s ≤ s ∧ s < s + (q :: rest).length
        rw [List.length_cons]
        omega
      · have h2 := ih (s + 1) p h
        rw [List.length_cons]
        omega

theorem lastchanges_batch (db : DB) (ch rs : List (Nat × ChangeRec)) (i : Nat)
    (r : ChangeRec) (fb : String)
    (hch : db.changes = ch ++ rs ++ [(i, r)])
    (hbr : r.batch = some fb)
    (hfresh : ∀ p ∈ ch, ¬ p.2.batch = some fb)
    (hall : ∀ p ∈ rs, p.2.batch = some fb) :
    lastchanges db = rs ++ [(i, r)] := by
  unfold lastchanges
  rw [hch, List.getLast?_concat]
  show (match r.batch with
    | none => [(i, r)]
    | some b => (ch ++ rs ++ [(i, r)]).filter
        (fun p => decide (p.2.batch = some b))) = rs ++ [(i, r)]
  rw [hbr]
  show (ch ++ rs ++ [(i, r)]).filter
    (fun p => decide (p.2.batch = some fb)) = rs ++ [(i, r)]
  rw [List.filter_append, List.filter_append]
  have h1 : ch.filter (fun p => decide (p.2.batch = some fb)) = [] := by
    rw [List.filter_eq_nil_iff]
    intro p hp
    simp only [decide_eq_true_eq]
    exact hfresh p hp
  have h2 : rs.filter (fun p => decide (p.2.batch = some fb)) = rs :=
    List.filter_eq_self.2 (fun p hp => decide_eq_true (hall p hp))
  have h3 : ([(i, r)] : List (Nat × ChangeRec)).filter
      (fun p => decide (p.2.batch = some fb)) = [(i, r)] :=
    List.filter_eq_self.2 (fun p hp => by
      rw [List.mem_singleton.1 hp]
      exact decide_eq_true hbr)
  rw [h1, h2, h3, List.nil_append]

theorem deleteNodeFn_empty (db : DB) (it : Item) (disc : Bool) (freshB : String)
    (perm : List (String × Val))
    (hie : (incidentUids db (uidOf it.data)).isEmpty = true) :
    deleteNodeFn db it disc none true freshB perm =
      .ok (DB.mk (tdel db.nodes (uidOf it.data)) db.edges
        (db.changes ++ [(db.nextId, mkDel it.data none)]) (db.nextId + 1)) := by
  unfold deleteNodeFn
  simp only [hie, if_true, eq_self_iff_true]
  rfl

theorem deleteNodeFn_disc (db : DB) (it : Item) (freshB : String)
    (perm : List (String × Val))
    (hie : (incidentUids db (uidOf it.data)).isEmpty = false) :
    deleteNodeFn db it true none true freshB perm =
      .ok (appendChange (DB.mk
        (tdel (perm.foldl (delEdgeStep (some freshB) true) db).nodes
          (uidOf it.data))
        (perm.foldl (delEdgeStep (some freshB) true) db).edges
        (perm.foldl (delEdgeStep (some freshB) true) db).changes
        (perm.foldl (delEdgeStep (some freshB) true) db).nextId)
        (some (mkDel it.data (some freshB)))) := by
  unfold deleteNodeFn
  simp only [hie, Bool.false_eq_true, if_false, if_true, eq_self_iff_true,
    Option.isNone_none, Bool.and_self, Bool.and_true]

theorem undoRec_node_restore (S : DB) (bl : Dict) (u : String) (fb : Option String)
    (hstart : dmem bl "startuid" = false)
    (hkind : (dget bl "kind").isSome = true)
    (huid : dget bl "uid" = some (Val.vs u))
    (hctime : (dget bl "ctime").isSome = true)
    (hmtime : (dget bl "mtime").isSome = true) :
    undoRec S (ChangeRec.mk u none (some bl) fb) =
      .ok (DB.mk (pyDictSet S.nodes u (cleandata bl)) S.edges
        S.changes S.nextId) := by
  rw [undoRec_minus_only]
  rw [if_neg (show ¬ dmem bl "startuid" = true from by
    rw [hstart]; exact Bool.false_ne_true)]
  rw [if_neg (show ¬ (dget bl "kind").isNone = true from by
    rw [isNone_false_of_isSome hkind]; exact Bool.false_ne_true)]
  rw [if_neg (show ¬ ((dget bl "uid").isNone || (dget bl "ctime").isNone ||
      (dget bl "mtime").isNone) = true from by
    rw [huid, isNone_false_of_isSome hctime, isNone_false_of_isSome hmtime]
    exact Bool.false_ne_true)]
  rw [saveNodeFn_nosc]
  rw [if_neg (show ¬ (!false && (dkeys bl).isEmpty) = true from by
    rw [show (!false) = true from rfl, Bool.true_and,
      dkeys_isEmpty_false (by rw [huid]; rfl)]
    exact Bool.false_ne_true)]
  rw [uidOf_eq_of_uid bl u huid]

theorem undoRec_edge_restore (S : DB) (bq : Dict) (uq : String) (t : Val)
    (fb : Option String)
    (hvs1 : isVs (dget bq "startuid") = true)
    (hvs2 : isVs (dget bq "enduid") = true)
    (hkind : (dget bq "kind").isSome = true)
    (huid : dget bq "uid" = some (Val.vs uq))
    (hctime : (dget bq "ctime").isSome = true)
    (homS : omem S.nodes (strAt bq "startuid") = true)
    (homE : omem S.nodes (strAt bq "enduid") = true) :
    undoRec S (mkDel (dinsert bq "mtime" t) fb) =
      .ok (DB.mk S.nodes
        (pyDictSet S.edges uq (cleandata (cleandata (dinsert bq "mtime" t))))
        S.changes S.nextId) := by
  have hmk : ∀ k, k ≠ "mtime" →
      dget (cleandata (dinsert bq "mtime" t)) k =
        if isEph k then none else dget bq k := by
    intro k hk
    rw [dget_restored_edge]
    by_cases h1 : isEph k = true
    · rw [if_pos h1, if_pos h1]
    · rw [if_neg h1, if_neg h1, if_neg hk]
  have hm_start : dget (cleandata (dinsert bq "mtime" t)) "startuid" =
      dget bq "startuid" := by
    rw [hmk "startuid" (by decide)]
    rw [if_neg (show ¬ isEph "startuid" = true by decide)]
  have hm_end : dget (cleandata (dinsert bq "mtime" t)) "enduid" =
      dget bq "enduid" := by
    rw [hmk "enduid" (by decide)]
    rw [if_neg (show ¬ isEph "enduid" = true by decide)]
  have hm_uid : dget (cleandata (dinsert bq "mtime" t)) "uid" =
      some (Val.vs uq) := by
    rw [hmk "uid" (by decide)]
    rw [if_neg (show ¬ isEph "uid" = true by decide)]
    exact huid
  have hm_kind : dget (cleandata (dinsert bq "mtime" t)) "kind" =
      dget bq "kind" := by
    rw [hmk "kind" (by decide)]
    rw [if_neg (show ¬ isEph "kind" = true by decide)]
  have hm_ctime : dget (cleandata (dinsert bq "mtime" t)) "ctime" =
      dget bq "ctime" := by
    rw [hmk "ctime" (by decide)]
    rw [if_neg (show ¬ isEph "ctime" = true by decide)]
  have hm_mtime : dget (cleandata (dinsert bq "mtime" t)) "mtime" = some t := by
    rw [dget_restored_edge]
    rw [if_neg (show ¬ isEph "mtime" = true by decide), if_pos rfl]
  show undoRec S (ChangeRec.mk (uidOf (dinsert bq "mtime" t)) none
    (some (cleandata (dinsert bq "mtime" t))) fb) = _
  rw [undoRec_minus_only]
  rw [if_pos (show dmem (cleandata (dinsert bq "mtime" t)) "startuid" = true
    from by
      unfold dmem
      rw [hm_start]
      exact isSome_of_isVs hvs1)]
  rw [if_neg (show ¬ (dget (cleandata (dinsert bq "mtime" t))
      "kind").isNone = true from by
    rw [hm_kind, isNone_false_of_isSome hkind]
    exact Bool.false_ne_true)]
  rw [if_neg (show ¬ (dget (cleandata (dinsert bq "mtime" t))
      "enduid").isNone = true from by
    rw [hm_end, isNone_false_of_isSome (isSome_of_isVs hvs2)]
    exact Bool.false_ne_true)]
  rw [if_neg (show ¬ ((dget (cleandata (dinsert bq "mtime" t)) "uid").isNone ||
      (dget (cleandata (dinsert bq "mtime" t)) "ctime").isNone ||
      (dget (cleandata (dinsert bq "mtime" t)) "mtime").isNone) = true from by
    rw [hm_uid, hm_ctime, hm_mtime, isNone_false_of_isSome hctime]
    exact Bool.false_ne_true)]
  rw [saveEdgeFn_nosc]
  rw [if_neg (show ¬ (!false &&
      (dkeys (cleandata (dinsert bq "mtime" t))).isEmpty) = true from by
    rw [show (!false) = true from rfl, Bool.true_and,
      dkeys_isEmpty_false (by rw [hm_uid]; rfl)]
    exact Bool.false_ne_true)]
  rw [if_neg (show ¬ (!(dbExists S
      (strAt (cleandata (dinsert bq "mtime" t)) "startuid"))) = true from by
    have hs : strAt (cleandata (dinsert bq "mtime" t)) "startuid" =
        strAt bq "startuid" := by
      unfold strAt
      rw [hm_start]
    rw [hs]
    unfold dbExists
    rw [homS, Bool.true_or]
    exact (by decide : ¬ (!true) = true))]
  rw [if_neg (show ¬ (!(dbExists S
      (strAt (cleandata (dinsert bq "mtime" t)) "enduid"))) = true from by
    have hs : strAt (cleandata (dinsert bq "mtime" t)) "enduid" =
        strAt bq "enduid" := by
      unfold strAt
      rw [hm_end]
    rw [hs]
    unfold dbExists
    rw [homE, Bool.true_or]
    exact (by decide : ¬ (!true) = true))]
  rw [uidOf_eq_of_uid _ uq hm_uid]

theorem undoChunk_delRecs (db : DB) (fb : Option String)
    (hwfE : ∀ p ∈ db.edges, blobWF p.1 p.2 = true ∧
      isVs (dget p.2 "startuid") = true ∧ isVs (dget p.2 "enduid") = true ∧
      omem db.nodes (strAt p.2 "startuid") = true ∧
      omem db.nodes (strAt p.2 "enduid") = true) :
    ∀ (perm : List (String × Val)) (s : Nat) (ch0 : List (Nat × ChangeRec))
      (S : DB),
      (∀ q ∈ perm, omem db.edges q.1 = true) →
      (perm.map Prod.fst).Nodup →
      (∀ p ∈ ch0, p.1 < s) →
      S.changes = ch0 ++ delRecs db.edges fb s perm →
      (∀ u0, omem S.nodes u0 = omem db.nodes u0) →
      (∀ q ∈ perm, oget S.edges q.1 = none) →
      (S.edges.map Prod.fst).Nodup →
      ∃ S2, undoChunk S (delRecs db.edges fb s perm).reverse = .ok S2 ∧
        S2.changes = ch0 ∧ S2.nodes = S.nodes ∧
        (∀ u0, u0 ∉ perm.map Prod.fst → oget S2.edges u0 = oget S.edges u0) ∧
        (∀ q ∈ perm, obSim (oget S2.edges q.1) (oget db.edges q.1)) ∧
        (S2.edges.map Prod.fst).Nodup := by
  intro perm
  induction perm with
  | nil =>
      intro s ch0 S hmem hndP hids0 hSch hSn hSe hndSE
      refine ⟨S, rfl, ?_, rfl, fun u0 _ => rfl,
        fun q hq => absurd hq (List.not_mem_nil q), hndSE⟩
      rw [hSch]
      show ch0 ++ [] = ch0
      rw [List.append_nil]
  | cons q rest ih =>
      intro s ch0 S hmem hndP hids0 hSch hSn hSe hndSE
      obtain ⟨bq, hbq⟩ :=
        Option.isSome_iff_exists.1 (hmem q (List.mem_cons_self _ _))
      obtain ⟨hbwfq, hvs1q, hvs2q, hom1q, hom2q⟩ :=
        hwfE (q.1, bq) (oget_mem_pair _ _ _ hbq)
      obtain ⟨hndq, hcleanq, huidq, hkindq, hctimeq, hmtimeq⟩ :=
        (blobWF_iff _ _).1 hbwfq
      rw [List.map_cons, List.nodup_cons] at hndP
      have hdr : delRecs db.edges fb s (q :: rest) =
          (s, mkDel (dinsert bq "mtime" q.2) fb) ::
            delRecs db.edges fb (s + 1) rest := by
        rw [delRecs_cons, hbq, Option.getD_some]
      rw [hdr, List.reverse_cons, undoChunk_append]
      have hSch2 : S.changes =
          (ch0 ++ [(s, mkDel (dinsert bq "mtime" q.2) fb)]) ++
            delRecs db.edges fb (s + 1) rest := by
        rw [hSch, hdr, ← List.singleton_append, ← List.append_assoc]
      have hids0b : ∀ p ∈ ch0 ++ [(s, mkDel (dinsert bq "mtime" q.2) fb)],
          p.1 < s + 1 := by
        intro p hp
        rcases List.mem_append.1 hp with h | h
        · exact Nat.lt_succ_of_lt (hids0 p h)
        · rw [List.mem_singleton.1 h]
          exact Nat.lt_succ_self s
      obtain ⟨S1, hchunk1, hS1ch, hS1n, hS1out, hS1in, hS1nd⟩ :=
        ih (s + 1) (ch0 ++ [(s, mkDel (dinsert bq "mtime" q.2) fb)]) S
          (fun q2 hq2 => hmem q2 (List.mem_cons_of_mem _ hq2))
          hndP.2 hids0b hSch2 hSn
          (fun q2 hq2 => hSe q2 (List.mem_cons_of_mem _ hq2)) hndSE
      rw [hchunk1]
      have homS1 : omem S1.nodes (strAt bq "startuid") = true := by
        rw [hS1n, hSn (strAt bq "startuid")]
        exact hom1q
      have homE1 : omem S1.nodes (strAt bq "enduid") = true := by
        rw [hS1n, hSn (strAt bq "enduid")]
        exact hom2q
      have hrecq := undoRec_edge_restore S1 bq q.1 q.2 fb hvs1q hvs2q hkindq
        huidq hctimeq homS1 homE1
      have hfil : S1.changes.filter (fun p => decide (p.1 ≠ s)) = ch0 := by
        rw [hS1ch]
        exact filter_ids_append _ (fun p hp => Nat.ne_of_lt (hids0 p hp))
      refine ⟨DB.mk S1.nodes (pyDictSet S1.edges q.1
          (cleandata (cleandata (dinsert bq "mtime" q.2)))) ch0 S1.nextId,
        ?_, rfl, hS1n, ?_, ?_, ?_⟩
      · show undoChunk S1 [(s, mkDel (dinsert bq "mtime" q.2) fb)] = _
        show (match undoRec S1 (mkDel (dinsert bq "mtime" q.2) fb) with
          | Except.error e => Except.error (e, S1)
          | Except.ok dbr => undoChunk (removeChange dbr s) []) = _
        rw [hrecq]
        show Except.ok (removeChange (DB.mk S1.nodes (pyDictSet S1.edges q.1
          (cleandata (cleandata (dinsert bq "mtime" q.2)))) S1.changes
          S1.nextId) s) = _
        unfold removeChange
        show Except.ok (DB.mk S1.nodes (pyDictSet S1.edges q.1
          (cleandata (cleandata (dinsert bq "mtime" q.2))))
          (S1.changes.filter (fun p => decide (p.1 ≠ s))) S1.nextId) = _
        rw [hfil]
      · intro u0 hu0
        rw [List.map_cons, List.mem_cons] at hu0
        push_neg at hu0
        show oget (pyDictSet S1.edges q.1
          (cleandata (cleandata (dinsert bq "mtime" q.2)))) u0 = _
        rw [oget_pyDictSet, if_neg hu0.1]
        exact hS1out u0 hu0.2
      · intro q2 hq2
        show obSim (oget (pyDictSet S1.edges q.1
          (cleandata (cleandata (dinsert bq "mtime" q.2)))) q2.1)
          (oget db.edges q2.1)
        rcases List.mem_cons.1 hq2 with h | h
        · rw [h]
          rw [oget_pyDictSet, if_pos rfl, hbq]
          constructor
          · intro k hk
            rw [dget_cleandata]
            by_cases heph : isEph k = true
            · rw [if_pos heph, dget_none_of_noEph hcleanq heph]
            · rw [if_neg heph, dget_restored_edge]
              have hephf : isEph k = false := by
                cases hv : isEph k
                · rfl
                · exact absurd hv heph
              rw [hephf]
              show (if k = "mtime" then some q.2 else dget bq k) = dget bq k
              rw [if_neg hk]
          · rw [dget_cleandata, isEph_mtime]
            show (dget (cleandata (dinsert bq "mtime" q.2)) "mtime").isSome = _
            rw [dget_restored_edge]
            rw [isEph_mtime]
            show (if ("mtime" : String) = "mtime" then some q.2
              else dget bq "mtime").isSome = _
            rw [if_pos rfl, hmtimeq]
            rfl
        · have hne : q2.1 ≠ q.1 := by
            intro hc
            exact hndP.1 (hc ▸ List.mem_map_of_mem Prod.fst h)
          rw [oget_pyDictSet, if_neg hne]
          exact hS1in q2 h
      · exact nodup_pyDictSet _ _ _ hS1nd

theorem invert_delN (db db2 : DB) (it : Item) (disc : Bool) (freshB : String)
    (perm : List (String × Val))
    (hwf : dbWF db = true) (hok : opOK db (.delN it disc freshB perm) = true)
    (happ : applyOp db (.delN it disc freshB perm) = .ok db2) :
    ∃ db3, undoStep db2 = .ok db3 ∧ db3.changes = db.changes ∧
      tSim db3.nodes db.nodes ∧ tSim db3.edges db.edges ∧
      tablesNodup db3 = true ∧
      db.changes.length < db2.changes.length := by
  obtain ⟨hndN, hndE, hdisj, hnodes, hedges, hids⟩ := (dbWF_iff db).1 hwf
  have hok2 : ((match oget db.nodes (uidOf it.data) with
      | none => false
      | some old => dEqB (cleandata it.data) old) &&
      ((incidentUids db (uidOf it.data)).isEmpty ||
        (disc &&
         db.changes.all (fun p => p.2.batch != some freshB) &&
         (perm.map Prod.fst).Nodup &&
         (perm.map Prod.fst).all
           (fun k => k ∈ incidentUids db (uidOf it.data)) &&
         (incidentUids db (uidOf it.data)).all
           (fun k => k ∈ perm.map Prod.fst)))) = true := hok
  rw [Bool.and_eq_true] at hok2
  obtain ⟨hmatch, hside⟩ := hok2
  cases hold : oget db.nodes (uidOf it.data) with
  | none =>
      rw [hold] at hmatch
      cases hmatch
  | some old =>
      rw [hold] at hmatch
      have heq : dEqB (cleandata it.data) old = true := hmatch
      have hbl := hnodes (uidOf it.data, old) (oget_mem_pair _ _ _ hold)
      have hbl2 : blobWF (uidOf it.data) old = true ∧
          (!(dmem old "startuid")) = true := by
        have h := hbl
        unfold nodeBlobWF at h
        rw [Bool.and_eq_true] at h
        exact h
      obtain ⟨hndO, hcleanO, huidO, hkindO, hctimeO, hmtimeO⟩ :=
        (blobWF_iff _ _).1 hbl2.1
      have hdEq : ∀ k, dget (cleandata it.data) k = dget old k :=
        fun k => dEqB_dget heq k
      have hstart : dmem (cleandata it.data) "startuid" = false := by
        unfold dmem
        rw [hdEq]
        have h := hbl2.2
        unfold dmem at h
        cases hv : (dget old "startuid").isSome
        · rfl
        · rw [hv] at h
          cases h
      have huidC : dget (cleandata it.data) "uid" =
          some (Val.vs (uidOf it.data)) := by
        rw [hdEq]
        exact huidO
      have hkindC : (dget (cleandata it.data) "kind").isSome = true := by
        rw [hdEq]
        exact hkindO
      have hctimeC : (dget (cleandata it.data) "ctime").isSome = true := by
        rw [hdEq]
        exact hctimeO
      have hmtimeC : (dget (cleandata it.data) "mtime").isSome = true := by
        rw [hdEq]
        exact hmtimeO
      have hbSimRow : bSim (cleandata (cleandata it.data)) old := by
        constructor
        · intro k hk
          rw [dget_cleandata]
          by_cases heph : isEph k = true
          · rw [if_pos heph, dget_none_of_noEph hcleanO heph]
          · rw [if_neg heph, hdEq k]
        · rw [dget_cleandata, isEph_mtime]
          show (dget (cleandata it.data) "mtime").isSome =
            (dget old "mtime").isSome
          rw [hdEq]
      cases hie : (incidentUids db (uidOf it.data)).isEmpty with
      | true =>
          have happ2 : deleteNodeFn db it disc none true freshB perm =
              .ok db2 := happ
          rw [deleteNodeFn_empty db it disc freshB perm hie] at happ2
          injection happ2 with h
          have hdb2 : db2 = DB.mk (tdel db.nodes (uidOf it.data)) db.edges
              (db.changes ++ [(db.nextId, mkDel it.data none)])
              (db.nextId + 1) := h.symm
          subst hdb2
          have hrecA : undoRec (DB.mk (tdel db.nodes (uidOf it.data)) db.edges
              (db.changes ++ [(db.nextId, mkDel it.data none)])
              (db.nextId + 1))
              (ChangeRec.mk (uidOf it.data) none
                (some (cleandata it.data)) none) =
              Except.ok (DB.mk (pyDictSet (tdel db.nodes (uidOf it.data))
                (uidOf it.data) (cleandata (cleandata it.data))) db.edges
                (db.changes ++ [(db.nextId, mkDel it.data none)])
                (db.nextId + 1)) :=
            undoRec_node_restore _ (cleandata it.data) (uidOf it.data) none
              hstart hkindC huidC hctimeC hmtimeC
          refine ⟨removeChange (DB.mk (pyDictSet (tdel db.nodes (uidOf it.data))
              (uidOf it.data) (cleandata (cleandata it.data))) db.edges
              (db.changes ++ [(db.nextId, mkDel it.data none)])
              (db.nextId + 1)) db.nextId,
            undoStep_single _ _ db.changes db.nextId (mkDel it.data none)
              rfl rfl hrecA, ?_, ?_, ?_, ?_, ?_⟩
          · show (db.changes ++ [(db.nextId, mkDel it.data none)]).filter
              (fun p => decide (p.1 ≠ db.nextId)) = db.changes
            exact filter_ids_append (mkDel it.data none)
              (fun p hp => Nat.ne_of_lt (hids p hp))
          · intro u0
            show obSim (oget (pyDictSet (tdel db.nodes (uidOf it.data))
              (uidOf it.data) (cleandata (cleandata it.data))) u0)
              (oget db.nodes u0)
            rw [oget_pyDictSet]
            by_cases h0 : u0 = uidOf it.data
            · rw [if_pos h0, h0, hold]
              exact hbSimRow
            · rw [if_neg h0, oget_tdel, if_neg h0]
              exact obSim_refl _
          · exact tSim_refl db.edges
          · unfold tablesNodup
            rw [Bool.and_eq_true]
            exact ⟨decide_eq_true (nodup_pyDictSet _ _ _
                (nodup_tdel db.nodes (uidOf it.data) hndN)),
              decide_eq_true hndE⟩
          · show db.changes.length <
              (db.changes ++ [(db.nextId, mkDel it.data none)]).length
            rw [List.length_append, List.length_singleton]
            omega
      | false =>
          rw [hie, Bool.false_or] at hside
          rw [Bool.and_eq_true, Bool.and_eq_true, Bool.and_eq_true,
            Bool.and_eq_true] at hside
          obtain ⟨⟨⟨⟨hdisc, hfresh⟩, hndPb⟩, hsub1⟩, hsub2⟩ := hside
          subst hdisc
          have hndP : (perm.map Prod.fst).Nodup := of_decide_eq_true hndPb
          have hmemE : ∀ q ∈ perm, omem db.edges q.1 = true := by
            intro q hq
            have h1 := List.all_eq_true.1 hsub1 q.1
              (List.mem_map_of_mem Prod.fst hq)
            have h2 : q.1 ∈ incidentUids db (uidOf it.data) :=
              of_decide_eq_true h1
            unfold incidentUids at h2
            obtain ⟨p, hp, hfst⟩ := List.mem_map.1 h2
            have hp2 : p ∈ db.edges := (List.mem_filter.1 hp).1
            rw [← hfst]
            unfold omem
            rw [oget_of_mem_nodup hndE hp2]
            rfl
          have hwfuid : ∀ p ∈ db.edges, uidOf p.2 = p.1 := by
            intro p hp
            obtain ⟨hb, _, _, _, _⟩ := hedges p hp
            obtain ⟨_, _, hu, _, _, _⟩ := (blobWF_iff _ _).1 hb
            exact uidOf_eq_of_uid _ _ hu
          have hfold := foldDelEdges perm db (some freshB) hndP hmemE hwfuid
          have happ2 : deleteNodeFn db it true none true freshB perm =
              .ok db2 := happ
          rw [deleteNodeFn_disc db it freshB perm hie] at happ2
          rw [hfold] at happ2
          injection happ2 with h
          have hdb2 : db2 = DB.mk (tdel db.nodes (uidOf it.data))
              (db.edges.filter (fun p => decide (p.1 ∉ perm.map Prod.fst)))
              ((db.changes ++ delRecs db.edges (some freshB) db.nextId perm) ++
                [(db.nextId + perm.length, mkDel it.data (some freshB))])
              (db.nextId + perm.length + 1) := h.symm
          subst hdb2
          have hfreshP : ∀ p ∈ db.changes, ¬ p.2.batch = some freshB := by
            intro p hp hcon
            have h9 := List.all_eq_true.1 hfresh p hp
            rw [hcon] at h9
            simp at h9
          have hallB : ∀ p ∈ delRecs db.edges (some freshB) db.nextId perm,
              p.2.batch = some freshB :=
            delRecs_batch db.edges (some freshB) db.nextId perm
          have hlast : lastchanges (DB.mk (tdel db.nodes (uidOf it.data))
              (db.edges.filter (fun p => decide (p.1 ∉ perm.map Prod.fst)))
              ((db.changes ++ delRecs db.edges (some freshB) db.nextId perm) ++
                [(db.nextId + perm.length, mkDel it.data (some freshB))])
              (db.nextId + perm.length + 1)) =
              delRecs db.edges (some freshB) db.nextId perm ++
                [(db.nextId + perm.length, mkDel it.data (some freshB))] :=
            lastchanges_batch _ db.changes
              (delRecs db.edges (some freshB) db.nextId perm)
              (db.nextId + perm.length) (mkDel it.data (some freshB)) freshB
              rfl rfl hfreshP hallB
          have hidsNe : ∀ p ∈ db.changes ++
              delRecs db.edges (some freshB) db.nextId perm,
              p.1 ≠ db.nextId + perm.length := by
            intro p hp
            rcases List.mem_append.1 hp with h1 | h1
            · have h10 := hids p h1
              omega
            · have h10 := delRecs_ids db.edges (some freshB) db.nextId perm p h1
              omega
          have hrec2 : undoRec (DB.mk (tdel db.nodes (uidOf it.data))
              (db.edges.filter (fun p => decide (p.1 ∉ perm.map Prod.fst)))
              ((db.changes ++ delRecs db.edges (some freshB) db.nextId perm) ++
                [(db.nextId + perm.length, mkDel it.data (some freshB))])
              (db.nextId + perm.length + 1))
              (ChangeRec.mk (uidOf it.data) none
                (some (cleandata it.data)) (some freshB)) =
              Except.ok (DB.mk (pyDictSet (tdel db.nodes (uidOf it.data))
                (uidOf it.data) (cleandata (cleandata it.data)))
                (db.edges.filter (fun p => decide (p.1 ∉ perm.map Prod.fst)))
                ((db.changes ++ delRecs db.edges (some freshB) db.nextId perm) ++
                  [(db.nextId + perm.length, mkDel it.data (some freshB))])
                (db.nextId + perm.length + 1)) :=
            undoRec_node_restore _ (cleandata it.data) (uidOf it.data)
              (some freshB) hstart hkindC huidC hctimeC hmtimeC
          have hSch : ((db.changes ++
              delRecs db.edges (some freshB) db.nextId perm) ++
              [(db.nextId + perm.length, mkDel it.data (some freshB))]).filter
              (fun p => decide (p.1 ≠ db.nextId + perm.length)) =
              db.changes ++ delRecs db.edges (some freshB) db.nextId perm :=
            filter_ids_append (mkDel it.data (some freshB)) hidsNe
          obtain ⟨S2, hchunk2, hS2ch, hS2n, hS2out, hS2in, hS2nd⟩ :=
            undoChunk_delRecs db (some freshB) hedges perm db.nextId db.changes
              (DB.mk (pyDictSet (tdel db.nodes (uidOf it.data))
                (uidOf it.data) (cleandata (cleandata it.data)))
                (db.edges.filter (fun p => decide (p.1 ∉ perm.map Prod.fst)))
                (((db.changes ++
                    delRecs db.edges (some freshB) db.nextId perm) ++
                  [(db.nextId + perm.length,
                    mkDel it.data (some freshB))]).filter
                  (fun p => decide (p.1 ≠ db.nextId + perm.length)))
                (db.nextId + perm.length + 1))
              hmemE hndP hids hSch
              (by
                intro u0
                show omem (pyDictSet (tdel db.nodes (uidOf it.data))
                  (uidOf it.data) (cleandata (cleandata it.data))) u0 =
                  omem db.nodes u0
                unfold omem
                rw [oget_pyDictSet]
                by_cases h0 : u0 = uidOf it.data
                · rw [if_pos h0, h0, hold]
                  rfl
                · rw [if_neg h0, oget_tdel, if_neg h0])
              (by
                intro q hq
                show oget (db.edges.filter
                  (fun p => decide (p.1 ∉ perm.map Prod.fst))) q.1 = none
                rw [oget_filterKeys]
                rw [if_pos (List.mem_map_of_mem Prod.fst hq)])
              ((List.Sublist.map Prod.fst
                (List.filter_sublist db.edges)).nodup hndE)
          unfold undoStep
          rw [hlast]
          rw [List.reverse_append, List.reverse_singleton,
            List.singleton_append]
          refine ⟨S2, ?_, hS2ch, ?_, ?_, ?_, ?_⟩
          · show (match undoRec (DB.mk (tdel db.nodes (uidOf it.data))
                (db.edges.filter (fun p => decide (p.1 ∉ perm.map Prod.fst)))
                ((db.changes ++
                    delRecs db.edges (some freshB) db.nextId perm) ++
                  [(db.nextId + perm.length, mkDel it.data (some freshB))])
                (db.nextId + perm.length + 1))
                (ChangeRec.mk (uidOf it.data) none
                  (some (cleandata it.data)) (some freshB)) with
              | Except.error e => Except.error (e,
                  DB.mk (tdel db.nodes (uidOf it.data))
                  (db.edges.filter (fun p => decide (p.1 ∉ perm.map Prod.fst)))
                  ((db.changes ++
                      delRecs db.edges (some freshB) db.nextId perm) ++
                    [(db.nextId + perm.length, mkDel it.data (some freshB))])
                  (db.nextId + perm.length + 1))
              | Except.ok dbr => undoChunk
                  (removeChange dbr (db.nextId + perm.length))
                  (delRecs db.edges (some freshB) db.nextId perm).reverse) =
              Except.ok S2
            rw [hrec2]
            show undoChunk (removeChange
              (DB.mk (pyDictSet (tdel db.nodes (uidOf it.data))
                (uidOf it.data) (cleandata (cleandata it.data)))
                (db.edges.filter (fun p => decide (p.1 ∉ perm.map Prod.fst)))
                ((db.changes ++
                    delRecs db.edges (some freshB) db.nextId perm) ++
                  [(db.nextId + perm.length, mkDel it.data (some freshB))])
                (db.nextId + perm.length + 1))
              (db.nextId + perm.length))
              (delRecs db.edges (some freshB) db.nextId perm).reverse =
              Except.ok S2
            exact hchunk2
          · intro u0
            rw [hS2n]
            show obSim (oget (pyDictSet (tdel db.nodes (uidOf it.data))
              (uidOf it.data) (cleandata (cleandata it.data))) u0)
              (oget db.nodes u0)
            rw [oget_pyDictSet]
            by_cases h0 : u0 = uidOf it.data
            · rw [if_pos h0, h0, hold]
              exact hbSimRow
            · rw [if_neg h0, oget_tdel, if_neg h0]
              exact obSim_refl _
          · intro u0
            by_cases h0 : u0 ∈ perm.map Prod.fst
            · obtain ⟨q, hq, hq1⟩ := List.mem_map.1 h0
              rw [← hq1]
              exact hS2in q hq
            · rw [hS2out u0 h0]
              show obSim (oget (db.edges.filter
                (fun p => decide (p.1 ∉ perm.map Prod.fst))) u0)
                (oget db.edges u0)
              rw [oget_filterKeys]
              rw [if_neg h0]
              exact obSim_refl _
          · unfold tablesNodup
            rw [Bool.and_eq_true]
            constructor
            · rw [hS2n]
              exact decide_eq_true (nodup_pyDictSet _ _ _
                (nodup_tdel db.nodes (uidOf it.data) hndN))
            · exact decide_eq_true hS2nd
          · show db.changes.length <
              ((db.changes ++ delRecs db.edges (some freshB) db.nextId perm) ++
                [(db.nextId + perm.length, mkDel it.data (some freshB))]).length
            rw [List.length_append, List.length_append,
              List.length_singleton]
            omega

theorem invert_applyOp (db db2 : DB) (op : Op)
    (hwf : dbWF db = true) (hok : opOK db op = true)
    (happ : applyOp db op = .ok db2) :
    (db2.changes = db.changes ∧ tSim db2.nodes db.nodes ∧
     tSim db2.edges db.edges ∧ tablesNodup db2 = true) ∨
    (∃ db3, undoStep db2 = .ok db3 ∧ db3.changes = db.changes ∧
      tSim db3.nodes db.nodes ∧ tSim db3.edges db.edges ∧
      tablesNodup db3 = true ∧
      db.changes.length < db2.changes.length) := by
  cases op with
  | saveN it =>
      rcases invert_saveN db db2 it hwf hok happ with
        h | ⟨db3, h1, h2, h3, h4, h5, h6⟩
      · exact Or.inl h
      · exact Or.inr ⟨db3, h1, h2, h3, h4, h5, by omega⟩
  | saveE it =>
      rcases invert_saveE db db2 it hwf hok happ with
        h | ⟨db3, h1, h2, h3, h4, h5, h6⟩
      · exact Or.inl h
      · exact Or.inr ⟨db3, h1, h2, h3, h4, h5, by omega⟩
  | delN it disc freshB perm =>
      obtain ⟨db3, h1, h2, h3, h4, h5, h6⟩ :=
        invert_delN db db2 it disc freshB perm hwf hok happ
      exact Or.inr ⟨db3, h1, h2, h3, h4, h5, h6⟩
  | delE it t =>
      obtain ⟨db3, h1, h2, h3, h4, h5, h6⟩ :=
        invert_delE db db2 it t hwf hok happ
      exact Or.inr ⟨db3, h1, h2, h3, h4, h5, by omega⟩

theorem runOps_undo (ops : List Op) : ∀ (db : DB) (m : Nat) (f : DB),
    opsOK db ops = true → m ≤ db.changes.length →
    undoFuel m db = .ok f → f.changes = [] →
    ∃ db1, runOps db ops = .ok db1 ∧
      ∃ m2 f2, undoFuel m2 db1 = .ok f2 ∧ f2.changes = [] ∧
        m2 ≤ db1.changes.length ∧
        tSim f2.nodes f.nodes ∧ tSim f2.edges f.edges := by
  induction ops with
  | nil =>
      intro db m f _ hm hu hf
      exact ⟨db, rfl, m, f, hu, hf, hm, tSim_refl _, tSim_refl _⟩
  | cons op ops ih =>
      intro db m f hok hm hu hf
      have hok2 : (dbWF db && opOK db op &&
          (match applyOp db op with
           | .error _ => false
           | .ok db2 => opsOK db2 ops)) = true := hok
      rw [Bool.and_eq_true] at hok2
      obtain ⟨h12, hrest⟩ := hok2
      rw [Bool.and_eq_true] at h12
      obtain ⟨hwf, hop⟩ := h12
      cases happ : applyOp db op with
      | error e =>
          rw [happ] at hrest
          cases hrest
      | ok db2 =>
          rw [happ] at hrest
          have hrest2 : opsOK db2 ops = true := hrest
          have hwfnd : tablesNodup db = true := by
            obtain ⟨h1, h2, _, _, _, _⟩ := (dbWF_iff db).1 hwf
            unfold tablesNodup
            rw [Bool.and_eq_true]
            exact ⟨decide_eq_true h1, decide_eq_true h2⟩
          rcases invert_applyOp db db2 op hwf hop happ with
            ⟨hch, hn, he, hnd⟩ | ⟨db3, hstep, hch, hn, he, hnd, hlen⟩
          · have hsim : dbSimJ db2 db := ⟨hch, hn, he, hnd, hwfnd⟩
            have hr := undoFuel_sim m db2 db hsim
            rw [hu] at hr
            cases hu2 : undoFuel m db2 with
            | error e2 =>
                rw [hu2] at hr
                obtain ⟨g2, s2⟩ := e2
                exact False.elim hr
            | ok f2 =>
                rw [hu2] at hr
                obtain ⟨hfch, hfn, hfe, _, _⟩ := hr
                obtain ⟨db1, hrun, m2, f3, hu3, hf3, hm3, hsn, hse⟩ :=
                  ih db2 m f2 hrest2 (by rw [hch]; exact hm) hu2
                    (hfch.trans hf)
                refine ⟨db1, ?_, m2, f3, hu3, hf3, hm3,
                  tSim_trans hsn hfn, tSim_trans hse hfe⟩
                show (match applyOp db op with
                  | Except.error e => Except.error e
                  | Except.ok dbn => runOps dbn ops) = Except.ok db1
                rw [happ]
                exact hrun
          · have hsim : dbSimJ db3 db := ⟨hch, hn, he, hnd, hwfnd⟩
            have hr := undoFuel_sim m db3 db hsim
            rw [hu] at hr
            cases hu3 : undoFuel m db3 with
            | error e2 =>
                rw [hu3] at hr
                obtain ⟨g2, s2⟩ := e2
                exact False.elim hr
            | ok f3 =>
                rw [hu3] at hr
                obtain ⟨hfch, hfn, hfe, _, _⟩ := hr
                have hne : db2.changes.isEmpty = false := by
                  cases hc : db2.changes with
                  | nil =>
                      rw [hc] at hlen
                      simp at hlen
                  | cons a l => rfl
                have hu2 : undoFuel (m + 1) db2 = .ok f3 := by
                  show (if db2.changes.isEmpty then Except.ok db2
                    else match undoStep db2 with
                      | Except.error e => Except.error e
                      | Except.ok dbn => undoFuel m dbn) = Except.ok f3
                  rw [hne, hstep]
                  show undoFuel m db3 = Except.ok f3
                  exact hu3
                obtain ⟨db1, hrun, m2, f4, hu4, hf4, hm4, hsn, hse⟩ :=
                  ih db2 (m + 1) f3 hrest2 (by omega) hu2 (hfch.trans hf)
                refine ⟨db1, ?_, m2, f4, hu4, hf4, hm4,
                  tSim_trans hsn hfn, tSim_trans hse hfe⟩
                show (match applyOp db op with
                  | Except.error e => Except.error e
                  | Except.ok dbn => runOps dbn ops) = Except.ok db1
                rw [happ]
                exact hrun

/-- C1 counterexample: `Edge.delete` overwrites the in-memory `mtime` with
the deletion time *before* `addchange` journals the blob, so undoing the
deletion restores the edge with `mtime` equal to the deletion time (`99`),
not the value that held before the sequence (`2`).  The journal empties, but
the restored edge is not attribute-wise equal to the original although
`mtime` does not start with an underscore — refuting exact restoration. -/
theorem claim_C1_counterexample :
    ((runOps exDB [Op.delE itemE (Val.vi 99)]).toOption.bind
        (fun db1 => (undoAll db1).toOption)).map
        (fun f => (f.changes.isEmpty,
          (oget f.edges "E").bind (fun bl => dget bl "mtime"))) =
      some (true, some (Val.vi 99)) ∧
    (oget exDB.edges "E").bind (fun bl => dget bl "mtime") =
      some (Val.vi 2) :=
  ⟨rfl, rfl⟩

/-- C1 (amended): for every well-formed sequence of saves and deletes with
`setchange=true` on a graph whose journal starts empty, the run succeeds and
repeatedly calling `undo` until the changes journal is empty restores the
persisted tables attribute-wise up to `mtime`: every restored row agrees
with the original on each key other than `mtime` (in particular on every
key starting with an underscore, which is absent from both), and carries an
`mtime` iff the original did.  Exact equality including the `mtime` value
does not hold, because edge deletion journals the deletion-time `mtime`
(see the counterexample). -/
theorem claim_C1_undo_roundtrip (db0 : DB) (ops : List Op)
    (h0 : db0.changes = []) (hok : opsOK db0 ops = true) :
    ∃ db1 f, runOps db0 ops = .ok db1 ∧ undoAll db1 = .ok f ∧
      f.changes = [] ∧ tSim f.nodes db0.nodes ∧ tSim f.edges db0.edges := by
  obtain ⟨db1, hrun, m2, f2, hu2, hf2, hm2, hsn, hse⟩ :=
    runOps_undo ops db0 0 db0 hok (Nat.zero_le _) rfl h0
  refine ⟨db1, f2, hrun, ?_, hf2, hsn, hse⟩
  show undoFuel db1.changes.length db1 = .ok f2
  exact undoFuel_mono m2 db1 f2 hu2 hf2 db1.changes.length hm2

/-- Witness for the amended C1: deleting the self-loop edge of the concrete
graph and undoing restores tables `mtime`-similar to the originals. -/
theorem claim_C1_witness :
    (exDB.changes = [] ∧ opsOK exDB [Op.delE itemE (Val.vi 99)] = true) ∧
    (∃ db1 f, runOps exDB [Op.delE itemE (Val.vi 99)] = .ok db1 ∧
      undoAll db1 = .ok f ∧ f.changes = [] ∧
      tSim f.nodes exDB.nodes ∧ tSim f.edges exDB.edges) :=
  ⟨⟨rfl, by decide⟩,
    claim_C1_undo_roundtrip exDB [Op.delE itemE (Val.vi 99)] rfl (by decide)⟩

end GraphyDB
